import Mathlib

/-! The spreadsheet codec of octopus-db-tool (`fmt-xlsx.go`).

A shallow embedding of the spreadsheet decoder `Xlsx.readGroupSheet` and encoder
`Xlsx.fillGroupSheet`, with the properties of the row grammar they share.

A sheet is the grid of its cell values: a list of rows, a row being the list of
the values of its cells. Styles, fonts and column widths carry no schema data and
are left out.
-/

namespace Octopus

/-! ## Go standard library: `strings`, `fmt` -/

/-- Go `unicode.IsSpace`: the Latin-1 spaces and the code points with the Unicode
White_Space property. -/
def isSpace (c : Char) : Bool :=
  let n := c.toNat
  n = 0x09 || n = 0x0A || n = 0x0B || n = 0x0C || n = 0x0D || n = 0x20 ||
  n = 0x85 || n = 0xA0 || n = 0x1680 || (0x2000 ≤ n && n ≤ 0x200A) ||
  n = 0x2028 || n = 0x2029 || n = 0x202F || n = 0x205F || n = 0x3000

/-- Go `strings.TrimSpace`, on the characters of a string. -/
def trimSpaceL (l : List Char) : List Char :=
  (l.dropWhile isSpace).rdropWhile isSpace

/-- Go `strings.TrimSpace`: leading and trailing white space removed. -/
def trimSpace (s : String) : String := ⟨trimSpaceL s.data⟩

/-- Go `strings.Split(s, sep)` for a one-character separator, on characters. -/
def splitL (sep : Char) : List Char → List (List Char)
  | [] => [[]]
  | c :: cs =>
    if c = sep then [] :: splitL sep cs
    else
      match splitL sep cs with
      | [] => [[c]]
      | h :: t => (c :: h) :: t

/-- Go `strings.Split(s, sep)` for a one-character separator: every piece between
separators, a string without separator giving itself as the only piece. -/
def split (s : String) (sep : Char) : List String :=
  (splitL sep s.data).map String.mk

/-- Go `strings.SplitN(s, sep, 2)` for a one-character separator, on characters. -/
def splitN2L (sep : Char) : List Char → List (List Char)
  | [] => [[]]
  | c :: cs =>
    if c = sep then [[], cs]
    else
      match splitN2L sep cs with
      | [] => [[c]]
      | h :: t => (c :: h) :: t

/-- Go `strings.SplitN(s, sep, 2)`: the text before the first separator and the
text after it, or the string alone when it has no separator. -/
def splitN2 (s : String) (sep : Char) : List String :=
  (splitN2L sep s.data).map String.mk

/-- Go `strings.HasPrefix`. -/
def hasPrefix (s p : String) : Bool := p.data.isPrefixOf s.data

/-- Go `unicode.ToLower`: a rune of ASCII is mapped by the rule of the function itself,
which adds `'a' - 'A'` to the letters `A` to `Z`; a rune above ASCII is looked up in the
case tables of the package `unicode` (`unicode.To(unicode.LowerCase, r)`), which are not
part of the repository: `lowerCase` stands for that lookup. -/
def toLowerRune (lowerCase : Char → Char) (c : Char) : Char :=
  if c.val ≤ 127 then c.toLower else lowerCase c

/-- Go `strings.ToLower`: every rune is mapped by `unicode.ToLower`. -/
def toLower (lowerCase : Char → Char) (s : String) : String :=
  ⟨s.data.map (toLowerRune lowerCase)⟩

/-- Go `strings.Join`. -/
def join (elems : List String) (sep : String) : String := sep.intercalate elems

/-- Go `%d` of a non-negative number. -/
def fmtD (n : Nat) : String := Nat.repr n

/-! ## Helpers of the repository used by the codec -/

/-- Modelled from the spec: the helper `TernaryBool` is not among the source files;
it is the conditional expression its call sites use it as. -/
def TernaryBool (cond a b : Bool) : Bool := if cond then a else b

/-- Modelled from the spec: the helper `TernaryString` is not among the source files;
it is the conditional expression its call sites use it as. -/
def TernaryString (cond : Bool) (a b : String) : String := if cond then a else b

/-- Modelled from the spec: the helper `BoolToString` is not among the source files;
it is the conditional expression its call sites use it as. -/
def BoolToString (b : Bool) (t f : String) : String := if b then t else f

/-- Modelled from the spec: the helper type `StringSet` is not among the source files;
a set of strings, kept as the list of the added values. -/
structure StringSet where
  items : List String
deriving DecidableEq, Repr

/-- Modelled from the spec: `NewStringSet` is not among the source files; the empty set. -/
def NewStringSet : StringSet := ⟨[]⟩

/-- Modelled from the spec: `StringSet.Add` is not among the source files; adds a value. -/
def StringSet.Add (s : StringSet) (v : String) : StringSet := ⟨s.items ++ [v]⟩

/-- Modelled from the spec: `StringSet.ContainsAny` is not among the source files;
whether one of the given values is in the set. -/
def StringSet.ContainsAny (s : StringSet) (vs : List String) : Bool :=
  vs.any (fun v => decide (v ∈ s.items))

/-- What the codec calls outside the source files, as parameters: `ParseType` and
`IsBooleanType` of the type normalizer, and `LowerCase`, the lookup of a rune above ASCII
in the case tables of Go (see `toLowerRune`). -/
structure Normalizer where
  ParseType : String → String × Nat × Nat
  IsBooleanType : String → Bool
  LowerCase : Char → Char

/-! ## Data model -/

structure Reference where
  Table : String
  Column : String
deriving DecidableEq, Repr

structure Column where
  Name : String
  Type_ : String
  Description : String
  Size : Nat
  Scale : Nat
  Nullable : Bool
  PrimaryKey : Bool
  UniqueKey : Bool
  AutoIncremental : Bool
  DefaultValue : String
  Ref : Option Reference
deriving DecidableEq, Repr

structure Table where
  Name : String
  Columns : List Column
  Description : String
  Group : String
  ClassName : String
deriving DecidableEq, Repr

structure Schema where
  Author : String
  Name : String
  Version : String
  Tables : List Table
deriving DecidableEq, Repr

/-- Adds a column at the end of the table (`Table.AddColumn`). -/
def Table.AddColumn (t : Table) (c : Column) : Table :=
  { t with Columns := t.Columns ++ [c] }

/-- A row of a sheet: the values of its cells. -/
abbrev Row := List String

/-- A sheet: its rows. -/
abbrev Sheet := List Row

/-- The receiver of the codec's methods. -/
structure Xlsx where
  metaSheet : Option Sheet
  sheetsByGroup : List (String × Sheet)
  UseNotNullColumn : Bool
deriving DecidableEq, Repr

def headerNullable : String := "nullable"

def headerNotNull : String := "not null"

/-! ## Decoder -/

/-- The cell at `colIdx`, or `none` past the end of the row (`Xlsx.getCell`). -/
def getCell (row : Row) (colIdx : Nat) : Option String :=
  if colIdx < row.length then row.get? colIdx else none

/-- The value of the cell at `colIdx`, empty past the end of the row
(`Xlsx.getCellValue`). -/
def getCellValue (row : Row) (colIdx : Nat) : String :=
  match getCell row colIdx with
  | none => ""
  | some cell => cell

/-- Boolean defaults become `true` or `false` (`Xlsx.fixDefaultValue`). -/
def fixDefaultValue (N : Normalizer) (colType : String) (defaultValue : String) : String :=
  if N.IsBooleanType colType then
    TernaryString (defaultValue = "true" || defaultValue = "1") "true" "false"
  else defaultValue

/-- One turn of the loop over the attribute tokens in `readGroupSheet`: the state is
the default value and the attribute set. -/
def readAttr (N : Normalizer) (colType : String) (acc : String × StringSet)
    (attr0 : String) : String × StringSet :=
  let attr := trimSpace attr0
  if hasPrefix attr "default" then
    let tokens := splitN2 attr ':'
    if tokens.length = 2 then
      (fixDefaultValue N colType (tokens.getD 1 ""), acc.2)
    else (acc.1, acc.2.Add (toLower N.LowerCase attr))
  else (acc.1, acc.2.Add (toLower N.LowerCase attr))

/-- The loop over the attribute tokens in `readGroupSheet`. -/
def readAttrs (N : Normalizer) (colType : String) (attrValue : String) : String × StringSet :=
  (split attrValue ',').foldl (readAttr N colType) ("", NewStringSet)

/-- The reference of a column row in `readGroupSheet`. -/
def readRef (tableName : String) : Option Reference :=
  if tableName ≠ "" then
    let tokens := split tableName '.'
    if tokens.length = 2 then
      some { Table := tokens.getD 0 "", Column := tokens.getD 1 "" }
    else none
  else none

/-- The column that `readGroupSheet` builds from a column row. -/
def readColumn (N : Normalizer) (useNotNullColumn : Bool) (row : Row) : Column :=
  let tableName := trimSpace (getCellValue row 0)
  let columnName := trimSpace (getCellValue row 1)
  let typeValue := trimSpace (getCellValue row 2)
  let keyValue := trimSpace (getCellValue row 3)
  let nullableValue := trimSpace (getCellValue row 4)
  let attrValue := trimSpace (getCellValue row 5)
  let description := trimSpace (getCellValue row 6)
  let parsed := N.ParseType typeValue
  let colType := parsed.1
  let colSize := parsed.2.1
  let colScale := parsed.2.2
  let attrs := readAttrs N colType attrValue
  { Name := columnName
    Type_ := colType
    Description := description
    Size := colSize
    Scale := colScale
    Nullable := TernaryBool useNotNullColumn (nullableValue = "") (nullableValue ≠ "")
    PrimaryKey := keyValue = "P"
    UniqueKey := keyValue = "U"
    AutoIncremental := attrs.2.ContainsAny ["ai", "autoinc", "auto_inc", "auto_incremental"]
    DefaultValue := attrs.1
    Ref := readRef tableName }

/-- The variables of the loop of `readGroupSheet`. -/
structure ReadState where
  tables : List Table
  lastTable : Option Table
  tableFinished : Bool
  useNotNullColumn : Bool
deriving DecidableEq, Repr

/-- The variables of `readGroupSheet` before its loop. -/
def ReadState.init : ReadState :=
  { tables := [], lastTable := none, tableFinished := true, useNotNullColumn := false }

/-- The body of the loop of `readGroupSheet`, for the row at index `i`. Appending the
`lastTable` pointer to `tables` is appending the table it points to: a table is
never changed after it is appended, and `lastTable` is not nil while a table is open. -/
def readRow (N : Normalizer) (groupName : String) (st : ReadState) (i : Nat) (row : Row) :
    ReadState :=
  if i = 0 then
    if trimSpace (getCellValue row 4) = headerNotNull then
      { st with useNotNullColumn := true }
    else st
  else
    let tableName := trimSpace (getCellValue row 0)
    let columnName := trimSpace (getCellValue row 1)
    if columnName = "" ∧ st.tableFinished = false then
      { st with tables := st.tables ++ st.lastTable.toList, tableFinished := true }
    else
      let typeValue := trimSpace (getCellValue row 2)
      let description := trimSpace (getCellValue row 6)
      if st.tableFinished then
        if tableName ≠ "" then
          { st with
            lastTable := some
              { Name := tableName
                Columns := []
                Description := description
                Group := groupName
                ClassName := typeValue }
            tableFinished := false }
        else st
      else
        match st.lastTable with
        | none => st
        | some t =>
          { st with lastTable := some (t.AddColumn (readColumn N st.useNotNullColumn row)) }

/-- The loop of `readGroupSheet` over the rows from index `i` on. -/
def readRows (N : Normalizer) (groupName : String) : Nat → List Row → ReadState → ReadState
  | _, [], st => st
  | i, row :: rows, st => readRows N groupName (i + 1) rows (readRow N groupName st i row)

/-- The end of `readGroupSheet`: a table still open is appended. -/
def readFinish (st : ReadState) : List Table :=
  if st.tableFinished = false ∧ st.lastTable ≠ none then
    st.tables ++ st.lastTable.toList
  else st.tables

/-- The tables of a group sheet and the error, which is always nil
(`Xlsx.readGroupSheet`). -/
def readGroupSheet (N : Normalizer) (groupName : String) (sheet : Sheet) :
    List Table × Option String :=
  (readFinish (readRows N groupName 0 sheet ReadState.init), none)

/-! ## Encoder -/

/-- The attribute tokens of a column (`Xlsx.getColumnAttributes`). -/
def getColumnAttributes (column : Column) : List String :=
  (if column.AutoIncremental then ["autoInc"] else []) ++
  (if column.DefaultValue ≠ "" then ["default:" ++ column.DefaultValue] else [])

/-- The reference cell of a column (`Xlsx.getColumnReference`). -/
def getColumnReference (column : Column) : String :=
  match column.Ref with
  | none => ""
  | some ref => ref.Table ++ "." ++ ref.Column

/-- The type cell of a column (`Xlsx.formatType`). -/
def formatType (column : Column) : String :=
  if column.Size = 0 then column.Type_
  else if column.Scale = 0 then column.Type_ ++ "(" ++ fmtD column.Size ++ ")"
  else column.Type_ ++ "(" ++ fmtD column.Size ++ "," ++ fmtD column.Scale ++ ")"

/-- The header row of a group sheet. -/
def headerRow (x : Xlsx) : Row :=
  ["Table/Reference", "Column", "Type", "Key",
   TernaryString x.UseNotNullColumn headerNotNull headerNullable,
   "Attributes", "Description"]

/-- The row of a table. -/
def tableRow (table : Table) : Row :=
  [table.Name, "", "", "", "", "", trimSpace table.Description]

/-- The row of a column. -/
def columnRow (x : Xlsx) (column : Column) : Row :=
  [ (if getColumnReference column ≠ "" then getColumnReference column else ""),
    column.Name,
    formatType column,
    BoolToString column.PrimaryKey "P" (BoolToString column.UniqueKey "U" ""),
    (if x.UseNotNullColumn then BoolToString (!column.Nullable) "O" ""
     else BoolToString column.Nullable "O" ""),
    join (getColumnAttributes column) ", ",
    trimSpace column.Description ]

/-- The loop of `fillGroupSheet` over the tables from index `i` on: the rows it adds. -/
def fillTables (x : Xlsx) (group : String) (tableCount : Nat) :
    Nat → List Table → List Row
  | _, [] => []
  | i, table :: tables =>
    (if table.Group ≠ group then []
     else
      tableRow table :: table.Columns.map (columnRow x) ++
        (if (i : Int) < (tableCount : Int) - 1 then [[]] else [])) ++
    fillTables x group tableCount (i + 1) tables

/-- The sheet after `Xlsx.fillGroupSheet` added the header row and the rows of the
tables of the group; its error result is always nil. -/
def fillGroupSheet (x : Xlsx) (sheet : Sheet) (schema : Schema) (group : String) : Sheet :=
  sheet ++ headerRow x :: fillTables x group schema.Tables.length 0 schema.Tables

/-! ## Auxiliary definitions for the proofs -/

/-- The loop body of `readGroupSheet` for a row after the header row. -/
def readStep (N : Normalizer) (groupName : String) (st : ReadState) (row : Row) : ReadState :=
  readRow N groupName st 1 row

/-- The variables of `readGroupSheet` after the header row `hdr`. -/
def afterHeader (hdr : Row) : ReadState :=
  { ReadState.init with
    useNotNullColumn := decide (trimSpace (getCellValue hdr 4) = headerNotNull) }

/-- While a table is open, `lastTable` is not nil. -/
def ReadState.Wf (st : ReadState) : Prop :=
  st.tableFinished = false → st.lastTable ≠ none

/-- Digits of a decimal number; `none` when the text is not a number. -/
def parseNat (s : String) : Option Nat :=
  if s.data ≠ [] ∧ s.data.all Char.isDigit = true then
    some (s.data.foldl (fun n c => 10 * n + (c.toNat - 48)) 0)
  else none

/-- Modelled from the spec: `ParseType` is not among the source files. The text is split
on the first `(`; a parenthesised suffix is split on `,`, its first number being the
size and its second the scale; a suffix that is not numeric counts as absent. -/
def specParseType (str : String) : String × Nat × Nat :=
  let tokens := splitN2 str '('
  let name := tokens.getD 0 ""
  if tokens.length = 2 then
    let inner : String := ⟨(tokens.getD 1 "").data.filter (fun c => c ≠ ')')⟩
    let args := split inner ','
    (name, (parseNat (trimSpace (args.getD 0 ""))).getD 0,
      (parseNat (trimSpace (args.getD 1 ""))).getD 0)
  else (name, 0, 0)

/-- Modelled from the spec: `IsBooleanType` is not among the source files; the
boolean-like canonical type is `boolean`. -/
def specIsBooleanType (colType : String) : Bool := colType = "boolean"

/-- A sample of the case tables of Go for the concrete examples: of the runes above
ASCII, the capital I with a dot (U+0130) and the Kelvin sign (U+212A) have the lower case
`i` and `k`; the other runes are left as they are. -/
def specLowerCase (c : Char) : Char :=
  if c = Char.ofNat 0x130 then 'i' else if c = Char.ofNat 0x212A then 'k' else c

/-- A type normalizer as the spec describes it, for the concrete examples. -/
def specNormalizer : Normalizer :=
  { ParseType := specParseType, IsBooleanType := specIsBooleanType,
    LowerCase := specLowerCase }

/-- Example header row with the `not null` label. -/
def exHeaderNotNull : Row :=
  ["Table/Reference", "Column", "Type", "Key", "not null", "Attributes", "Description"]

/-- Example header row with the `nullable` label. -/
def exHeader : Row :=
  ["Table/Reference", "Column", "Type", "Key", "nullable", "Attributes", "Description"]

/-- Example table row. -/
def exTableRow : Row := ["user", "", "Account", "", "", "", " users "]

/-- Example column row. -/
def exColumnRow : Row := ["", "id", "int", "P", "O", "autoInc", "key"]

/-- Example column row with a reference and a default value. -/
def exRefRow : Row := ["org.id", "org_id", "int", "U", "", "default:a:b, AI", ""]

/-- Example row of a column whose attributes cell holds an alias in capitals, written
with the capital I with a dot (U+0130). -/
def exDottedRow : Row := ["", "id", "int", "", "", "x, AUTO_\u0130NC", ""]

/-- Example column row whose nullability cell holds one blank. -/
def exBlankNullRow : Row := ["", "id", "int", "", " ", "", ""]

/-- Example row whose table-name cell holds one blank. -/
def exBlankTableRow : Row := [" ", "", "", "", "", "", "users"]

/-- The column that `readGroupSheet` reads from a column row of a sheet whose header row
is `hdr`. -/
def columnOf (N : Normalizer) (hdr : Row) (row : Row) : Column :=
  readColumn N (decide (trimSpace (getCellValue hdr 4) = headerNotNull)) row

/-- Every table of the state, appended or open, satisfies `P`, under polarity `nn`. -/
def ReadState.All (P : Table → Prop) (nn : Bool) (st : ReadState) : Prop :=
  st.useNotNullColumn = nn ∧ (∀ t ∈ st.tables, P t) ∧ (∀ t, st.lastTable = some t → P t)

/-- Example row after a closed table: one blank in the table-name cell, then the cells
of a column. -/
def exBlankOpenRow : Row := [" ", "", "Account", "", "", "", "users"]

/-- The rows that open a table when `rows` are read from the state `st`: the rows read
between tables whose table-name cell is non-empty after trimming. -/
def openingRows (N : Normalizer) (g : String) : List Row → ReadState → List Row
  | [], _ => []
  | row :: rows, st =>
    (if st.tableFinished = true ∧ trimSpace (getCellValue row 0) ≠ "" then [row] else []) ++
      openingRows N g rows (readStep N g st row)

/-- The rows that close a table when `rows` are read from the state `st`: the rows read
while a table is open whose column-name cell is empty after trimming. -/
def closingRows (N : Normalizer) (g : String) : List Row → ReadState → List Row
  | [], _ => []
  | row :: rows, st =>
    (if st.tableFinished = false ∧ trimSpace (getCellValue row 1) = "" then [row] else []) ++
      closingRows N g rows (readStep N g st row)

/-- The table-opening rows of a sheet. -/
def sheetOpeningRows (N : Normalizer) (g : String) : Sheet → List Row
  | [] => []
  | hdr :: rows => openingRows N g rows (afterHeader hdr)

/-- The table-closing rows of a sheet. -/
def sheetClosingRows (N : Normalizer) (g : String) : Sheet → List Row
  | [] => []
  | hdr :: rows => closingRows N g rows (afterHeader hdr)

/-- The table that is open in a state, if one is. -/
def ReadState.pending (st : ReadState) : List Table :=
  if st.tableFinished = false then st.lastTable.toList else []

/-- The pieces joined by the separator. -/
def joinL (sep : Char) : List (List Char) → List Char
  | [] => []
  | [a] => a
  | a :: b :: r => a ++ sep :: joinL sep (b :: r)

/-- A token that `readGroupSheet` takes as a default value: it starts with `default` and
holds a `:`. -/
def isDefaultToken (attr : String) : Bool :=
  hasPrefix attr "default" && decide ((splitN2 attr ':').length = 2)

/-- The names under which the attributes cell marks a column as auto-incremental. -/
def autoIncAliases : List String := ["ai", "autoinc", "auto_inc", "auto_incremental"]

/-- Example column row with two tokens that start with `default`. -/
def exTwoDefaultsRow : Row := ["", "code", "int", "", "", "default:a, defaultx:b", ""]

/-- What the reference of a column needs for its cell to be read back as written: no
`.` in the table or in the column, and no white space around the cell. -/
def RefShaped : Option Reference → Prop
  | none => True
  | some r =>
    '.' ∉ r.Table.data ∧ '.' ∉ r.Column.data ∧
      trimSpace (r.Table ++ "." ++ r.Column) = r.Table ++ "." ++ r.Column

instance decRefShaped (o : Option Reference) : Decidable (RefShaped o) :=
  match o with
  | none => isTrue trivial
  | some r =>
    inferInstanceAs (Decidable ('.' ∉ r.Table.data ∧ '.' ∉ r.Column.data ∧
      trimSpace (r.Table ++ "." ++ r.Column) = r.Table ++ "." ++ r.Column))

/-- The shape of a column whose row is read back as a column with the same name, keys,
nullability, auto-increment flag and reference: a non-empty name without white space
around it, not both keys, a default value without `,` and without white space at its
end, and a reference that fits its cell. -/
def Column.Shaped (c : Column) : Prop :=
  trimSpace c.Name = c.Name ∧ c.Name ≠ "" ∧
  ¬ (c.PrimaryKey = true ∧ c.UniqueKey = true) ∧
  ',' ∉ c.DefaultValue.data ∧
  trimSpace ("default:" ++ c.DefaultValue) = "default:" ++ c.DefaultValue ∧
  RefShaped c.Ref

instance decColumnShaped (c : Column) : Decidable c.Shaped :=
  inferInstanceAs (Decidable (trimSpace c.Name = c.Name ∧ c.Name ≠ "" ∧
    ¬ (c.PrimaryKey = true ∧ c.UniqueKey = true) ∧
    ',' ∉ c.DefaultValue.data ∧
    trimSpace ("default:" ++ c.DefaultValue) = "default:" ++ c.DefaultValue ∧
    RefShaped c.Ref))

/-- A column that the spreadsheet format represents exactly: it is shaped, its
description has no white space around it, `ParseType` reads its type cell back as its
type, size and scale, and its default value, if any, is one `fixDefaultValue` keeps. -/
def Column.Canonical (N : Normalizer) (c : Column) : Prop :=
  c.Shaped ∧ trimSpace c.Description = c.Description ∧
  N.ParseType (trimSpace (formatType c)) = (c.Type_, c.Size, c.Scale) ∧
  (c.DefaultValue = "" ∨ fixDefaultValue N c.Type_ c.DefaultValue = c.DefaultValue)

instance decColumnCanonical (N : Normalizer) (c : Column) : Decidable (c.Canonical N) :=
  inferInstanceAs (Decidable (c.Shaped ∧ trimSpace c.Description = c.Description ∧
    N.ParseType (trimSpace (formatType c)) = (c.Type_, c.Size, c.Scale) ∧
    (c.DefaultValue = "" ∨ fixDefaultValue N c.Type_ c.DefaultValue = c.DefaultValue)))

/-- A table that the spreadsheet format represents exactly: a non-empty name and a
description without white space around them, and canonical columns. -/
def Table.Canonical (N : Normalizer) (t : Table) : Prop :=
  trimSpace t.Name = t.Name ∧ t.Name ≠ "" ∧ trimSpace t.Description = t.Description ∧
  ∀ c ∈ t.Columns, c.Canonical N

instance decTableCanonical (N : Normalizer) (t : Table) : Decidable (t.Canonical N) :=
  inferInstanceAs (Decidable (trimSpace t.Name = t.Name ∧ t.Name ≠ "" ∧
    trimSpace t.Description = t.Description ∧ ∀ c ∈ t.Columns, c.Canonical N))

/-- The column read back from the row that `fillGroupSheet` writes for a shaped
column. -/
def reread (N : Normalizer) (c : Column) : Column :=
  { c with
    Type_ := (N.ParseType (trimSpace (formatType c))).1
    Size := (N.ParseType (trimSpace (formatType c))).2.1
    Scale := (N.ParseType (trimSpace (formatType c))).2.2
    Description := trimSpace c.Description
    DefaultValue :=
      if c.DefaultValue = "" then ""
      else fixDefaultValue N (N.ParseType (trimSpace (formatType c))).1 c.DefaultValue }

/-- The table read back from the rows that `fillGroupSheet` writes for a table. -/
def rereadTable (N : Normalizer) (x : Xlsx) (g : String) (nn : Bool) (t : Table) : Table :=
  { Name := trimSpace t.Name
    Columns := t.Columns.map (fun c => readColumn N nn (columnRow x c))
    Description := trimSpace (trimSpace t.Description)
    Group := g
    ClassName := "" }

/-- Example receiver: nullable columns are marked. -/
def exXlsx : Xlsx := { metaSheet := none, sheetsByGroup := [], UseNotNullColumn := false }

/-- Example schema: two tables in group `common` and one in group `shop`. -/
def exSchema : Schema :=
  { Author := "a", Name := "db", Version := "1"
    Tables :=
      [ { Name := "user", Description := "users", Group := "common", ClassName := "Account"
          Columns :=
            [ { Name := "id", Type_ := "long", Description := "key", Size := 0, Scale := 0,
                Nullable := false, PrimaryKey := true, UniqueKey := false,
                AutoIncremental := true, DefaultValue := "", Ref := none },
              { Name := "name", Type_ := "varchar", Description := "", Size := 100, Scale := 0,
                Nullable := true, PrimaryKey := false, UniqueKey := true,
                AutoIncremental := false, DefaultValue := "x:y", Ref := none } ] },
        { Name := "item", Description := "", Group := "shop", ClassName := ""
          Columns :=
            [ { Name := "price", Type_ := "decimal", Description := "", Size := 20, Scale := 5,
                Nullable := false, PrimaryKey := false, UniqueKey := false,
                AutoIncremental := false, DefaultValue := "", Ref := none } ] },
        { Name := "login", Description := "", Group := "common", ClassName := ""
          Columns :=
            [ { Name := "user_id", Type_ := "long", Description := "", Size := 0, Scale := 0,
                Nullable := false, PrimaryKey := false, UniqueKey := false,
                AutoIncremental := true, DefaultValue := "0",
                Ref := some { Table := "user", Column := "id" } } ] } ] }

/-- Example schema: one table with one column that is both a primary and a unique key. -/
def exSchemaBothKeys : Schema :=
  { Author := "", Name := "", Version := ""
    Tables :=
      [ { Name := "user", Description := "", Group := "common", ClassName := ""
          Columns :=
            [ { Name := "id", Type_ := "int", Description := "", Size := 0, Scale := 0,
                Nullable := false, PrimaryKey := true, UniqueKey := true,
                AutoIncremental := false, DefaultValue := "", Ref := none } ] } ] }

/-- The type cell written for a type, size and scale. -/
def formatParsed (p : String × Nat × Nat) : String :=
  formatType
    { Name := "", Type_ := p.1, Description := "", Size := p.2.1, Scale := p.2.2,
      Nullable := false, PrimaryKey := false, UniqueKey := false, AutoIncremental := false,
      DefaultValue := "", Ref := none }

/-- Reading the type cell `s`, writing the type read and reading that cell again gives a
type that is written the same way and is boolean-like exactly when the first is. -/
def TypeStable (N : Normalizer) (s : String) : Prop :=
  formatParsed (N.ParseType (trimSpace (formatParsed (N.ParseType (trimSpace s)))))
      = formatParsed (N.ParseType (trimSpace s)) ∧
  N.IsBooleanType (N.ParseType (trimSpace (formatParsed (N.ParseType (trimSpace s))))).1
      = N.IsBooleanType (N.ParseType (trimSpace s)).1

instance decTypeStable (N : Normalizer) (s : String) : Decidable (TypeStable N s) :=
  inferInstanceAs (Decidable (
    formatParsed (N.ParseType (trimSpace (formatParsed (N.ParseType (trimSpace s)))))
        = formatParsed (N.ParseType (trimSpace s)) ∧
    N.IsBooleanType (N.ParseType (trimSpace (formatParsed (N.ParseType (trimSpace s))))).1
        = N.IsBooleanType (N.ParseType (trimSpace s)).1))

/-- A default value as `readGroupSheet` reads them for a column of type `ty`: without
`,`, without white space at its end, and empty or kept by `fixDefaultValue`. -/
def DefaultShaped (N : Normalizer) (ty : String) (d : String) : Prop :=
  ',' ∉ d.data ∧ trimSpace ("default:" ++ d) = "default:" ++ d ∧
  (d = "" ∨ fixDefaultValue N ty d = d)

/-- A column as `readGroupSheet` reads them from a row whose type cell is stable. -/
def Column.Decoded (N : Normalizer) (c : Column) : Prop :=
  c.Shaped ∧
  (c.DefaultValue = "" ∨ fixDefaultValue N c.Type_ c.DefaultValue = c.DefaultValue) ∧
  formatType (reread N c) = formatType c ∧
  N.IsBooleanType (reread N c).Type_ = N.IsBooleanType c.Type_

/-- A table as `readGroupSheet` reads them from the sheet of group `m` when the type
cells are stable. -/
def Table.Decoded (N : Normalizer) (m : String) (t : Table) : Prop :=
  t.Group = m ∧ trimSpace t.Name = t.Name ∧ t.Name ≠ "" ∧ ∀ c ∈ t.Columns, c.Decoded N

/-! ## The workbook: `ToSchema` -/

def xlsxSheetMeta : String := "Meta"

def xlsxMetaAuthor : String := "author"

def xlsxMetaName : String := "name"

def xlsxMetaVersion : String := "version"

/-- A Go `map[string]string` as the list of its assignments, the latest first. -/
abbrev StringMap := List (String × String)

/-- The value of a key in a Go map, empty when the key has none. -/
def StringMap.lookup (m : StringMap) (key : String) : String :=
  match m.find? (fun kv => kv.1 = key) with
  | some kv => kv.2
  | none => ""

/-- The keys and values of the meta sheet (`Xlsx.readMetaSheet`, called when the meta
sheet is not nil). -/
def readMetaSheet (metaSheet : Sheet) : StringMap :=
  metaSheet.foldl
    (fun result row =>
      match getCell row 0 with
      | some key =>
        match getCell row 1 with
        | none => (key, "") :: result
        | some value => (key, value) :: result
      | none => result)
    []

/-- The loop of `ToSchema` over the group sheets, in the order in which the `range` over
the map visits them: it stops at the first error. -/
def readGroupSheets (N : Normalizer) :
    List (String × Sheet) → List Table → List Table × Option String
  | [], tables => (tables, none)
  | (groupName, sheet) :: rest, tables =>
    match readGroupSheet N groupName sheet with
    | (groupTables, none) => readGroupSheets N rest (tables ++ groupTables)
    | (_, some err) => ([], some err)

/-- The schema of a workbook and the error (`Xlsx.ToSchema`); `sheetsByGroup` lists the
group sheets in the order in which the `range` over the map visits them. -/
def ToSchema (N : Normalizer) (x : Xlsx) : Option Schema × Option String :=
  let keyValues : StringMap :=
    match x.metaSheet with
    | some metaSheet => readMetaSheet metaSheet
    | none => []
  let author := if x.metaSheet ≠ none then keyValues.lookup xlsxMetaAuthor else ""
  let name := if x.metaSheet ≠ none then keyValues.lookup xlsxMetaName else ""
  let version := if x.metaSheet ≠ none then keyValues.lookup xlsxMetaVersion else ""
  match readGroupSheets N x.sheetsByGroup [] with
  | (_, some err) => (none, some err)
  | (tables, none) =>
    (some { Author := author, Name := name, Version := version, Tables := tables }, none)

/-- Example workbook without a meta sheet: one group sheet. -/
def exWorkbook : Xlsx :=
  { metaSheet := none
    sheetsByGroup := [("g", [exHeader, exTableRow, exColumnRow])]
    UseNotNullColumn := false }

/-! ## Naming shared by the encoders -/

/-- Go `strings.TrimPrefix`. -/
def trimPrefix (s p : String) : String :=
  if hasPrefix s p then ⟨s.data.drop p.data.length⟩ else s

/-- Go `strings.HasSuffix`. -/
def hasSuffix (s suffix : String) : Bool := suffix.data.isSuffixOf s.data

/-- Go `strings.Repeat`. -/
def strRepeat (s : String) : Nat → String
  | 0 => ""
  | n + 1 => s ++ strRepeat s n

/-- What the encoders call outside the repository, as parameters: the case conversions
of the library `strcase`, the plural of the library `pluralize`, and `LowerCase`, the
lookup of a rune above ASCII in the case tables of Go (see `toLowerRune`). -/
structure Naming where
  ToCamel : String → String
  ToLowerCamel : String → String
  Plural : String → String
  LowerCase : Char → Char

/-- Modelled from the spec: `PrefixMapper` is not among the source files. It is built from
a text `group1:prefix1,group2:prefix2` and maps a group to its prefix. -/
structure PrefixMapper where
  entries : StringMap

/-- Modelled from the spec: `newPrefixMapper` is not among the source files; each item
`group:prefix` of the comma-separated text maps the group to the prefix. -/
def newPrefixMapper (config : String) : PrefixMapper :=
  ⟨(split config ',').foldl
    (fun m item =>
      let tokens := splitN2 item ':'
      if tokens.length = 2 then (tokens.getD 0 "", tokens.getD 1 "") :: m else m)
    []⟩

/-- Modelled from the spec: `PrefixMapper.GetPrefix` is not among the source files; the
prefix mapped to the group, or the empty string when the group is not mapped. -/
def PrefixMapper.GetPrefix (m : PrefixMapper) (group : String) : String :=
  m.entries.lookup group

/-- Modelled from the spec: the name of the option `--removePrefix`; the constant
`FlagRemovePrefix` is not among the source files. -/
def FlagRemovePrefix : String := "removePrefix"

/-- The output that the GraphQL encoder receives; its declaration and its method
`GetSlice` are not among the source files, and the method is a parameter. -/
structure Output where
  FilePath : String
  GetSlice : String → List String

/-- The output that the Kotlin encoder receives (`GenOutput` of `main.go`). -/
structure GenOutput where
  Format : String
  Directory : String
  Package : String
  PrefixesToRemove : List String
deriving DecidableEq, Repr

def ColTypeString : String := "string"

def ColTypeLong : String := "long"

def ColTypeInt : String := "int"

def ColTypeFloat : String := "float"

def ColTypeDouble : String := "double"

def ColTypeBoolean : String := "boolean"

def ColTypeText : String := "text"

def ColTypeDate : String := "date"

def ColTypeTime : String := "time"

def ColTypeDateTime : String := "datetime"

def ColTypeBlob : String := "blob"

/-- Modelled from the spec: the constant `ColTypeDecimal` is used by the GraphQL encoder
and is not in `constants.go`; the canonical type `decimal` of the vocabulary. -/
def ColTypeDecimal : String := "decimal"

/-! ## GraphQL encoder (`fmt-graphql.go`) -/

structure GraphqlField where
  Column : Column
  Name : String
  Type_ : String
deriving DecidableEq, Repr

structure GraphqlClass where
  table : Table
  Name : String
  Fields : List GraphqlField
  PKFields : List GraphqlField
deriving DecidableEq, Repr

/-- The field of a column and the lines that `NewGraphqlField` logs. -/
def newGraphqlFieldRun (nm : Naming) (column : Column) : GraphqlField × List String :=
  let nullable := column.Nullable
  let columnType := toLower nm.LowerCase column.Type_
  let r : String × List String :=
    if columnType = ColTypeDateTime ∨ columnType = ColTypeDate ∨ columnType = ColTypeTime ∨
        columnType = ColTypeString ∨ columnType = ColTypeText then ("String", [])
    else if columnType = ColTypeBoolean then ("Boolean", [])
    else if columnType = ColTypeLong ∨ columnType = ColTypeInt then ("Int", [])
    else if columnType = ColTypeDecimal ∨ columnType = ColTypeFloat ∨
        columnType = ColTypeDouble then ("Float", [])
    else
      ("String",
        ["unknown column type: '" ++ column.Type_ ++ "', column: " ++ column.Name])
  let fieldType := if !nullable then r.1 ++ "!" else r.1
  ({ Column := column, Name := nm.ToLowerCamel column.Name, Type_ := fieldType }, r.2)

/-- The field of a column (`NewGraphqlField`). -/
def NewGraphqlField (nm : Naming) (column : Column) : GraphqlField :=
  (newGraphqlFieldRun nm column).1

/-- The lines that `NewGraphqlField` logs for a column. -/
def NewGraphqlFieldLog (nm : Naming) (column : Column) : List String :=
  (newGraphqlFieldRun nm column).2

/-- The assignment `field.Type = ty` through the pointer to the field at `idx`. -/
def setFieldType : List GraphqlField → Nat → String → List GraphqlField
  | [], _, _ => []
  | f :: fs, 0, ty => { f with Type_ := ty } :: fs
  | f :: fs, n + 1, ty => f :: setFieldType fs n ty

/-- The loop of `NewGraphqlClass` over the columns: the state is `fields` and `pkFields`;
`pkFields` holds pointers to fields of `fields`, kept as their indices in `fields`. -/
def graphqlFieldStep (nm : Naming) (st : List GraphqlField × List Nat) (column : Column) :
    List GraphqlField × List Nat :=
  let field := NewGraphqlField nm column
  (st.1 ++ [field], if column.PrimaryKey then st.2 ++ [st.1.length] else st.2)

/-- The class of a table (`NewGraphqlClass`); `PKFields` is not set in the value it
returns. -/
def NewGraphqlClass (nm : Naming) (table : Table) (output : Output)
    (prefixMapper : PrefixMapper) : GraphqlClass :=
  let className :=
    if table.ClassName = "" then
      let tableName := (output.GetSlice FlagRemovePrefix).foldl trimPrefix table.Name
      let className := nm.ToCamel tableName
      if prefixMapper.GetPrefix table.Group ≠ "" then
        prefixMapper.GetPrefix table.Group ++ className
      else className
    else table.ClassName
  let loop := table.Columns.foldl (graphqlFieldStep nm) ([], [])
  let fields :=
    if loop.2.length = 1 then setFieldType loop.1 (loop.2.getD 0 0) "ID!" else loop.1
  { table := table, Name := className, Fields := fields, PKFields := [] }

/-- The function `appendLine` of `Graphql.Generate`, with the indentation of two
blanks. -/
def appendLine (contents : List String) (indentLevel : Nat) (line : String) : List String :=
  contents ++ [strRepeat "  " indentLevel ++ line]

/-- The first loop of `Graphql.Generate`, over the tables: the state is `contents` and
`classes`. -/
def graphqlQueryStep (nm : Naming) (output : Output) (tableFilterFn : Option (Table → Bool))
    (prefixMapper : PrefixMapper) (st : List String × List GraphqlClass) (table : Table) :
    List String × List GraphqlClass :=
  if (match tableFilterFn with
      | some f => !f table
      | none => false) then st
  else
    let cls := NewGraphqlClass nm table output prefixMapper
    let lowerClassName := nm.ToLowerCamel cls.Name
    (appendLine st.1 1 (nm.Plural lowerClassName ++ ": [" ++ cls.Name ++ "]"), st.2 ++ [cls])

/-- The second loop of `Graphql.Generate`, over the classes. -/
def graphqlTypeStep (contents : List String) (cls : GraphqlClass) : List String :=
  let c1 := appendLine contents 0 ("type " ++ cls.Name ++ " \x7b")
  let c2 := cls.Fields.foldl
    (fun c field => appendLine c 1 (field.Name ++ ": " ++ field.Type_)) c1
  appendLine (appendLine c2 0 "\x7d") 0 ""

/-- The lines that `Graphql.Generate` assembles in `contents`. -/
def graphqlContents (nm : Naming) (schema : Schema) (output : Output)
    (tableFilterFn : Option (Table → Bool)) (prefixMapper : PrefixMapper) : List String :=
  let c0 := appendLine [] 0 "schema \x7b\n    query: Query\n\x7d\n"
  let c1 := appendLine c0 0 "type Query \x7b"
  let st := schema.Tables.foldl (graphqlQueryStep nm output tableFilterFn prefixMapper) (c1, [])
  let c2 := appendLine (appendLine st.1 0 "\x7d") 0 ""
  st.2.foldl graphqlTypeStep c2

/-- The text that `Graphql.Generate` writes to its output file; creating the directory
and writing the file are left out. -/
def GraphqlGenerate (nm : Naming) (schema : Schema) (output : Output)
    (tableFilterFn : Option (Table → Bool)) (prefixMapper : PrefixMapper) : String :=
  join (graphqlContents nm schema output tableFilterFn prefixMapper) "\n"

/-! ## Kotlin encoder (`fmt-jpa.go`) -/

/-- Modelled from the spec: `StringSet.Slice` is not among the source files; the values
of the set. -/
def StringSet.Slice (s : StringSet) : List String := s.items

structure KotlinField where
  Column : Column
  Name : String
  Type_ : String
  Imports : List String
  DefaultValue : String
deriving DecidableEq, Repr

structure KotlinClass where
  table : Table
  Name : String
  Fields : List KotlinField
  PKFields : List KotlinField
  UniqueFields : List KotlinField
deriving DecidableEq, Repr

/-- The field of a column (`NewKotlinField`). -/
def NewKotlinField (nm : Naming) (column : Column) : KotlinField :=
  let nullable := column.Nullable
  let columnType := toLower nm.LowerCase column.Type_
  let r : String × String × StringSet :=
    if columnType = "varchar" ∨ columnType = "char" ∨ columnType = "string" ∨
        columnType = "text" then
      ("String", if !nullable then "\"\"" else "", NewStringSet)
    else if columnType = "bool" ∨ columnType = "boolean" then
      ("Boolean", if !nullable then "false" else "", NewStringSet)
    else if columnType = "bigint" ∨ columnType = "long" then
      ("Long", if !nullable then "0L" else "", NewStringSet)
    else if columnType = "int" ∨ columnType = "integer" ∨ columnType = "smallint" then
      ("Int", if !nullable then "0" else "", NewStringSet)
    else if columnType = "float" then
      ("Float", if !nullable then "0.0F" else "", NewStringSet)
    else if columnType = "number" ∨ columnType = "double" then
      ("Double", if !nullable then "0.0" else "", NewStringSet)
    else if columnType = "datetime" then
      ("LocalDateTime", if !nullable then "LocalDateTime.now()" else "",
        NewStringSet.Add "java.time.LocalDateTime")
    else if columnType = "date" then
      ("LocalDate", if !nullable then "0.0" else "", NewStringSet.Add "java.time.LocalDate")
    else if columnType = "bit" ∧ column.Size = 1 then
      ("Boolean", if !nullable then "false" else "", NewStringSet)
    else ("Any", "", NewStringSet)
  let fieldType := if nullable then r.1 ++ "?" else r.1
  { Column := column
    Name := nm.ToLowerCamel column.Name
    Type_ := fieldType
    DefaultValue := r.2.1
    Imports := r.2.2.Slice }

/-- The loop of `NewKotlinClass` over the columns: the state is `fields`, `pkFields` and
`uniqueFields`. -/
def kotlinFieldStep (nm : Naming)
    (st : List KotlinField × List KotlinField × List KotlinField) (column : Column) :
    List KotlinField × List KotlinField × List KotlinField :=
  let field := NewKotlinField nm column
  (st.1 ++ [field],
    (if column.PrimaryKey then st.2.1 ++ [field] else st.2.1),
    (if column.UniqueKey then st.2.2 ++ [field] else st.2.2))

/-- The class of a table (`NewKotlinClass`). -/
def NewKotlinClass (nm : Naming) (table : Table) (output : GenOutput) : KotlinClass :=
  let className :=
    if table.ClassName = "" then
      let tableName := output.PrefixesToRemove.foldl trimPrefix table.Name
      nm.ToCamel tableName
    else table.ClassName
  let loop := table.Columns.foldl (kotlinFieldStep nm) ([], [], [])
  { table := table, Name := className, Fields := loop.1, PKFields := loop.2.1,
    UniqueFields := loop.2.2 }

/-- The indices, counted from `n`, of the primary-key columns of a list of columns. -/
def pkIdx : List Column → Nat → List Nat
  | [], _ => []
  | c :: cs, n => (if c.PrimaryKey then [n] else []) ++ pkIdx cs (n + 1)

/-- Modelled from the spec: PascalCase and lowerCamelCase of a name, for the concrete
examples; the words of a name are separated by `_`, `-`, a blank or `.`, and every
word but, for lowerCamelCase, the first starts with a capital. -/
def camelL (capNext : Bool) : List Char → List Char
  | [] => []
  | c :: cs =>
    if c = '_' ∨ c = '-' ∨ c = ' ' ∨ c = '.' then camelL true cs
    else (if capNext then c.toUpper else c) :: camelL false cs

/-- Naming functions for the concrete examples. They agree with the libraries on the
names of the examples only: names in lower case with `_` between the words and without
digits, and nouns whose plural ends in `s`. -/
def specNaming : Naming :=
  { ToCamel := fun s => ⟨camelL true s.data⟩
    ToLowerCamel := fun s => ⟨camelL false s.data⟩
    Plural := fun s => s ++ "s"
    LowerCase := specLowerCase }

/-- Example output of the GraphQL encoder: the prefix `common_` is removed. -/
def exOutput : Output :=
  { FilePath := "out", GetSlice := fun flag => if flag = FlagRemovePrefix then ["common_"] else [] }

/-- Example output of the Kotlin encoder: the prefix `common_` is removed. -/
def exGenOutput : GenOutput :=
  { Format := "jpa-kotlin", Directory := "out", Package := "com.example",
    PrefixesToRemove := ["common_"] }

/-- The table of the test of the protocol-buffer encoder, under the name
`common_user`. -/
def exUserTable : Table :=
  { Name := "common_user", Description := "", Group := "common", ClassName := ""
    Columns :=
      [ { Name := "id", Type_ := "long", Description := "", Size := 0, Scale := 0,
          Nullable := false, PrimaryKey := true, UniqueKey := false,
          AutoIncremental := true, DefaultValue := "", Ref := none },
        { Name := "name", Type_ := "string", Description := "", Size := 100, Scale := 0,
          Nullable := false, PrimaryKey := false, UniqueKey := true,
          AutoIncremental := false, DefaultValue := "", Ref := none },
        { Name := "dec", Type_ := "decimal", Description := "", Size := 20, Scale := 5,
          Nullable := false, PrimaryKey := false, UniqueKey := false,
          AutoIncremental := false, DefaultValue := "", Ref := none },
        { Name := "created_at", Type_ := "datetime", Description := "", Size := 0, Scale := 0,
          Nullable := false, PrimaryKey := false, UniqueKey := false,
          AutoIncremental := false, DefaultValue := "", Ref := none },
        { Name := "updated_at", Type_ := "datetime", Description := "", Size := 0, Scale := 0,
          Nullable := true, PrimaryKey := false, UniqueKey := false,
          AutoIncremental := false, DefaultValue := "", Ref := none } ] }

/-- Whether the filter of `Graphql.Generate` lets a table through: a nil filter accepts
every table. -/
def accepts (tableFilterFn : Option (Table → Bool)) (table : Table) : Bool :=
  match tableFilterFn with
  | none => true
  | some f => f table

/-- The entry of a table in the `Query` type. -/
def queryEntry (nm : Naming) (output : Output) (prefixMapper : PrefixMapper) (table : Table) :
    String :=
  "  " ++ (nm.Plural (nm.ToLowerCamel (NewGraphqlClass nm table output prefixMapper).Name)
    ++ ": [" ++ (NewGraphqlClass nm table output prefixMapper).Name ++ "]")

/-- The type block of a table: its opening line, one line for each field, the closing
line and an empty line. -/
def typeBlock (nm : Naming) (output : Output) (prefixMapper : PrefixMapper) (table : Table) :
    List String :=
  ["type " ++ (NewGraphqlClass nm table output prefixMapper).Name ++ " \x7b"]
    ++ (NewGraphqlClass nm table output prefixMapper).Fields.map
        (fun field => "  " ++ (field.Name ++ ": " ++ field.Type_))
    ++ ["\x7d", ""]

/-- The lower-cased column types that have an entry in the type table of the Kotlin
encoder. -/
def kotlinTypes : List String :=
  ["varchar", "char", "string", "text", "bool", "boolean", "bigint", "long", "int",
   "integer", "smallint", "float", "number", "double", "datetime", "date"]

/-- Example column: a `blob` that is not nullable and has no default value. -/
def exBlobColumn : Column :=
  { Name := "data", Type_ := "blob", Description := "", Size := 0, Scale := 0,
    Nullable := false, PrimaryKey := false, UniqueKey := false, AutoIncremental := false,
    DefaultValue := "", Ref := none }

/-- The entry of the type table of `NewKotlinField` for a lower-cased column type and a
size: the Kotlin type and the default literal of a column that is not nullable. -/
def kotlinEntry (columnType : String) (size : Nat) : String × String :=
  if columnType = "varchar" ∨ columnType = "char" ∨ columnType = "string" ∨
      columnType = "text" then ("String", "\"\"")
  else if columnType = "bool" ∨ columnType = "boolean" then ("Boolean", "false")
  else if columnType = "bigint" ∨ columnType = "long" then ("Long", "0L")
  else if columnType = "int" ∨ columnType = "integer" ∨ columnType = "smallint" then
    ("Int", "0")
  else if columnType = "float" then ("Float", "0.0F")
  else if columnType = "number" ∨ columnType = "double" then ("Double", "0.0")
  else if columnType = "datetime" then ("LocalDateTime", "LocalDateTime.now()")
  else if columnType = "date" then ("LocalDate", "0.0")
  else if columnType = "bit" ∧ size = 1 then ("Boolean", "false")
  else ("Any", "")

/-! ## The type tables and the canonical types -/

/-- The lower-cased column types that have an entry in the type table of the GraphQL
encoder. -/
def graphqlTypes : List String :=
  ["datetime", "date", "time", "string", "text", "boolean", "long", "int", "decimal",
   "float", "double"]

/-- The canonical column types of the model: the `ColType` constants and `decimal`. -/
def canonicalTypes : List String :=
  [ColTypeString, ColTypeLong, ColTypeInt, ColTypeFloat, ColTypeDouble, ColTypeBoolean,
   ColTypeText, ColTypeDate, ColTypeTime, ColTypeDateTime, ColTypeBlob, ColTypeDecimal]

/-- The line that `NewGraphqlField` logs for a column of a type without entry. -/
def unknownTypeLog (column : Column) : String :=
  "unknown column type: '" ++ column.Type_ ++ "', column: " ++ column.Name

/-- Example column: a `bit` of size 1. -/
def exBitColumn : Column :=
  { Name := "flag", Type_ := "bit", Description := "", Size := 1, Scale := 0,
    Nullable := true, PrimaryKey := false, UniqueKey := false, AutoIncremental := false,
    DefaultValue := "", Ref := none }

/-! ## The class file of the Kotlin encoder (`JPAKotlin.Generate`) -/

/-- The attributes of the `@Column` annotation of a field in `JPAKotlin.Generate`. -/
def kotlinColumnAttributes (field : KotlinField) : List String :=
  (if !field.Column.Nullable then ["nullable = false"] else []) ++
  (if field.Type_ = "String" ∧ field.Column.Size > 0 then
    ["length = " ++ fmtD field.Column.Size] else [])

/-- The body of the loop of `JPAKotlin.Generate` over the fields of a class, for the field
at index `p.1`: the state is `classLines` and `idClass`; the imports are left out. -/
def generateFieldStep (fieldCount : Nat) (st : List String × String)
    (p : Nat × KotlinField) : List String × String :=
  let field := p.2
  let column := field.Column
  let indent := "    "
  let l1 := if column.PrimaryKey then st.1 ++ [indent ++ "@Id"] else st.1
  let idClass := if column.PrimaryKey = true ∧ st.2 = "" then field.Type_ else st.2
  let l2 :=
    if column.AutoIncremental then
      l1 ++ [indent ++ "@GeneratedValue(strategy = GenerationType.IDENTITY)"]
    else l1
  let l3 := if column.Type_ = "text" then l2 ++ [indent ++ "@Type(type = \"text\")"] else l2
  let attributes := kotlinColumnAttributes field
  let l4 :=
    if attributes.length > 0 then
      l3 ++ [indent ++ ("@Column(" ++ join attributes ", " ++ ")")]
    else l3
  let l5 :=
    if column.Type_ = "datetime" ∧ field.Name = "createdAt" then
      l4 ++ [indent ++ "@CreationTimestamp"]
    else l4
  let l6 :=
    if column.Type_ = "datetime" ∧ field.Name = "updatedAt" then
      l5 ++ [indent ++ "@UpdateTimestamp"]
    else l5
  let line0 := "var " ++ field.Name ++ ": " ++ field.Type_
  let line := if field.DefaultValue ≠ "" then line0 ++ " = " ++ field.DefaultValue else line0
  let l7 :=
    if (p.1 : Int) < (fieldCount : Int) - 1 then l6 ++ [indent ++ line ++ ","]
    else l6 ++ [indent ++ line]
  (l7 ++ [""], idClass)

/-- The lines of the class of a table that `JPAKotlin.Generate` assembles in
`classLines`; the package line, the imports and the writing of the file are left out. -/
def kotlinClassLines (nm : Naming) (table : Table) (output : GenOutput) : List String :=
  let cls := NewKotlinClass nm table output
  let pkFieldCount := cls.PKFields.length
  let l0 := ["", "@Entity", "@Table(name = \"" ++ table.Name ++ "\")"]
  let idClass := if pkFieldCount > 1 then cls.Name ++ "Id" else ""
  let l1 := if pkFieldCount > 1 then l0 ++ ["@IdClass(" ++ idClass ++ ")"] else l0
  let l2 := l1 ++ ["class " ++ cls.Name ++ "("]
  let st := cls.Fields.enum.foldl (generateFieldStep cls.Fields.length) (l2, idClass)
  st.1 ++ [") : AbstractJpaPersistable<" ++ st.2 ++ ">()", ""]

/-- Example table: a nullable and a non-nullable `varchar` column of size 100. -/
def exStringTable : Table :=
  { Name := "person", Description := "", Group := "common", ClassName := ""
    Columns :=
      [ { Name := "nick", Type_ := "varchar", Description := "", Size := 100, Scale := 0,
          Nullable := true, PrimaryKey := false, UniqueKey := false,
          AutoIncremental := false, DefaultValue := "", Ref := none },
        { Name := "name", Type_ := "varchar", Description := "", Size := 100, Scale := 0,
          Nullable := false, PrimaryKey := false, UniqueKey := false,
          AutoIncremental := false, DefaultValue := "", Ref := none } ] }

/-- Example column: a `double` that is not nullable. -/
def exDoubleColumn : Column :=
  { Name := "ratio", Type_ := "double", Description := "", Size := 0, Scale := 0,
    Nullable := false, PrimaryKey := false, UniqueKey := false, AutoIncremental := false,
    DefaultValue := "", Ref := none }

/-- Example column: a `date` that is not nullable. -/
def exDateColumn : Column :=
  { Name := "birthday", Type_ := "date", Description := "", Size := 0, Scale := 0,
    Nullable := false, PrimaryKey := false, UniqueKey := false, AutoIncremental := false,
    DefaultValue := "", Ref := none }


/-! ## The protocol-buffer encoder -/

/-- Modelled from the spec: the type token of a timestamp in the output of the
protocol-buffer encoder, which is not among the source files. -/
def protoTimestamp : String := "google.protobuf.Timestamp"

/-- Modelled from the spec: the type table of the protocol-buffer encoder, which is not
among the source files. The spec and the test give the entries of `long`, `string`,
`decimal` and `datetime`; the tokens of the other types are the parameter `other`. -/
def protoType (other : String → String) (columnType : String) : String :=
  if columnType = ColTypeLong then "int64"
  else if columnType = ColTypeString then "string"
  else if columnType = ColTypeDecimal then "double"
  else if columnType = ColTypeDateTime then protoTimestamp
  else other columnType

/-- Modelled from the spec: a field of a message; `ProtoField` is not among the source
files. -/
structure ProtoField where
  Column : Column
  Name : String
  Type_ : String
  Number : Nat
deriving DecidableEq, Repr

/-- Modelled from the spec: a message, as the test uses `ProtoMessage`, which is not
among the source files. -/
structure ProtoMessage where
  table : Table
  Name : String
  Fields : List ProtoField
deriving DecidableEq, Repr

/-- Modelled from the spec: the field of a column, named in lowerCamelCase, with the type
of the type table, which does not depend on the nullability of the column; the
constructor is not among the source files. -/
def NewProtobufField (nm : Naming) (other : String → String) (number : Nat)
    (column : Column) : ProtoField :=
  { Column := column, Name := nm.ToLowerCamel column.Name,
    Type_ := protoType other column.Type_, Number := number }

/-- Modelled from the spec: the body of the loop over the columns of a table, which
appends the field of a column under the next number; the loop is not among the source
files. -/
def protoFieldStep (nm : Naming) (other : String → String) (fields : List ProtoField)
    (column : Column) : List ProtoField :=
  fields ++ [NewProtobufField nm other (fields.length + 1) column]

/-- Modelled from the spec: `NewProtobufMessage` is not among the source files. The name
is the ClassName of the table if set, else the PascalCase of the table name with the
configured prefixes stripped, with the prefix of the group in front; the fields are
those of the columns in declaration order, numbered from 1. -/
def NewProtobufMessage (nm : Naming) (other : String → String) (table : Table)
    (output : Output) (prefixMapper : PrefixMapper) : ProtoMessage :=
  let className :=
    if table.ClassName = "" then
      let tableName := (output.GetSlice FlagRemovePrefix).foldl trimPrefix table.Name
      prefixMapper.GetPrefix table.Group ++ nm.ToCamel tableName
    else table.ClassName
  { table := table, Name := className,
    Fields := table.Columns.foldl (protoFieldStep nm other) [] }

/-- Modelled from the spec: the line of a field in a message, as in the text that the
test expects; the template is not among the source files. -/
def protoFieldLine (f : ProtoField) : String :=
  "  " ++ (f.Type_ ++ " " ++ f.Name ++ " = " ++ fmtD f.Number ++ ";")

/-- Modelled from the spec: the lines of a message, as in the text that the test
expects. -/
def protoMessageLines (m : ProtoMessage) : List String :=
  ["message " ++ m.Name ++ " \x7b"] ++ m.Fields.map protoFieldLine ++ ["\x7d", ""]

/-- Modelled from the spec: the lines of the text of `GenerateProto`, as the test expects
them: the syntax, the package and the go_package given to the call, the import of the
timestamp when a field has that type, and the messages. -/
def protoLines (messages : List ProtoMessage) (pkg goPkg : String) : List String :=
  ["syntax = \"proto3\";", "", "package " ++ pkg ++ ";", "",
   "option go_package = \"" ++ goPkg ++ "\";", ""] ++
  (if messages.any (fun m => m.Fields.any (fun f => f.Type_ = protoTimestamp)) then
    ["import \"google/protobuf/timestamp.proto\";", ""] else []) ++
  messages.flatMap protoMessageLines

/-- Modelled from the spec: `GenerateProto` is not among the source files; the text
written to the buffer. -/
def GenerateProto (messages : List ProtoMessage) (pkg goPkg : String) : String :=
  join (protoLines messages pkg goPkg) "\n"

/-- Example output of the test of the protocol-buffer encoder, without prefix to
remove. -/
def exProtoOutput : Output :=
  { FilePath := "", GetSlice := fun _ => [] }

/-- The table `user` of group `common` of the test of the protocol-buffer encoder
(`protobufTplTestSchema`). -/
def exProtoTable : Table :=
  { exUserTable with Name := "user" }

/-- The text that the test of the protocol-buffer encoder expects. -/
def exProtoExpected : String :=
  "syntax = \"proto3\";\n\npackage com.lechuck.hello;\n\noption go_package = \"proto/hello\";\n\nimport \"google/protobuf/timestamp.proto\";\n\nmessage CUser \x7b\n  int64 id = 1;\n  string name = 2;\n  double dec = 3;\n  google.protobuf.Timestamp createdAt = 4;\n  google.protobuf.Timestamp updatedAt = 5;\n\x7d\n"

/-! ## The workbook: the group sheets written and read again -/

/-- The name of the sheet of a group in `Xlsx.ToFile`: `Common` for the empty group. -/
def sheetName (group : String) : String := if group = "" then "Common" else group

/-- The group sheets that `Xlsx.ToFile` fills for the groups `groups` of a schema, each
under the name of its sheet; `groups` lists the groups in the order in which the `range`
of `ToSchema` over the map of the sheets visits them when the workbook is read. -/
def fillGroupSheets (x : Xlsx) (schema : Schema) (groups : List String) :
    List (String × Sheet) :=
  groups.map (fun group => (sheetName group, fillGroupSheet x [] schema group))

/-- The schema with the tables that the loop of `ToSchema` reads from the group sheets,
in the order in which they are listed. -/
def readSchema (N : Normalizer) (schema : Schema) (sheets : List (String × Sheet)) : Schema :=
  { schema with Tables := (readGroupSheets N sheets []).1 }

/-- Example schema: the table `user` in group `a` and the table `org` in group `b`. -/
def exTwoGroups : Schema :=
  { Author := "", Name := "", Version := ""
    Tables :=
      [ { Name := "user", Description := "", Group := "a", ClassName := ""
          Columns :=
            [ { Name := "id", Type_ := "int", Description := "", Size := 0, Scale := 0,
                Nullable := false, PrimaryKey := true, UniqueKey := false,
                AutoIncremental := false, DefaultValue := "", Ref := none } ] },
        { Name := "org", Description := "", Group := "b", ClassName := ""
          Columns :=
            [ { Name := "id", Type_ := "int", Description := "", Size := 0, Scale := 0,
                Nullable := false, PrimaryKey := true, UniqueKey := false,
                AutoIncremental := false, DefaultValue := "", Ref := none } ] } ] }

/-- Example schema: one table with a column whose type holds a blank and a bracket. -/
def exOddType : Schema :=
  { Author := "", Name := "", Version := ""
    Tables :=
      [ { Name := "user", Description := "", Group := "a", ClassName := ""
          Columns :=
            [ { Name := "id", Type_ := "a (x)", Description := "", Size := 0, Scale := 0,
                Nullable := false, PrimaryKey := false, UniqueKey := false,
                AutoIncremental := false, DefaultValue := "", Ref := none } ] } ] }

/-! ## Properties -/

theorem readRow_succ (N : Normalizer) (g : String) (st : ReadState) (i : Nat) (row : Row) :
    readRow N g st (i + 1) row = readStep N g st row := by
  simp [readRow, readStep]

theorem readRows_succ (N : Normalizer) (g : String) (rows : List Row) :
    ∀ (i : Nat) (st : ReadState),
      readRows N g (i + 1) rows st = rows.foldl (readStep N g) st := by
  induction rows with
  | nil => intro i st; rfl
  | cons r rs ih =>
    intro i st
    simp only [readRows, List.foldl_cons, readRow_succ]
    exact ih (i + 1) _

theorem readRow_header (N : Normalizer) (g : String) (hdr : Row) :
    readRow N g ReadState.init 0 hdr = afterHeader hdr := by
  unfold readRow afterHeader
  by_cases h : trimSpace (getCellValue hdr 4) = headerNotNull
  · simp [h]
  · simp [h, ReadState.init]

theorem readRows_header (N : Normalizer) (g : String) (hdr : Row) (rows : List Row) :
    readRows N g 0 (hdr :: rows) ReadState.init
      = rows.foldl (readStep N g) (afterHeader hdr) := by
  simp only [readRows, readRow_header]
  exact readRows_succ N g rows 0 _

theorem readStep_wf (N : Normalizer) (g : String) (st : ReadState) (row : Row)
    (h : st.Wf) : (readStep N g st row).Wf := by
  unfold readStep readRow ReadState.Wf at *
  simp only [Nat.one_ne_zero, if_false]
  split_ifs with h1 h2 h3
  · simp
  · simp
  · exact h
  · cases hl : st.lastTable with
    | none => simpa [hl] using h
    | some t => simp

theorem foldl_wf (N : Normalizer) (g : String) (rows : List Row) :
    ∀ st : ReadState, st.Wf → (rows.foldl (readStep N g) st).Wf := by
  induction rows with
  | nil => intro st h; exact h
  | cons r rs ih => intro st h; exact ih _ (readStep_wf N g st r h)

theorem readStep_useNotNull (N : Normalizer) (g : String) (st : ReadState) (row : Row) :
    (readStep N g st row).useNotNullColumn = st.useNotNullColumn := by
  unfold readStep readRow
  simp only [Nat.one_ne_zero, if_false]
  split_ifs <;> try rfl
  cases st.lastTable <;> rfl

theorem foldl_useNotNull (N : Normalizer) (g : String) (rows : List Row) :
    ∀ st : ReadState, (rows.foldl (readStep N g) st).useNotNullColumn = st.useNotNullColumn := by
  induction rows with
  | nil => intro st; rfl
  | cons r rs ih => intro st; rw [List.foldl_cons, ih, readStep_useNotNull]


/-! ### The four kinds of rows after the header -/

theorem readStep_close (N : Normalizer) (g : String) (st : ReadState) (row : Row)
    (hopen : st.tableFinished = false) (hname : trimSpace (getCellValue row 1) = "") :
    readStep N g st row
      = { st with tables := st.tables ++ st.lastTable.toList, tableFinished := true } := by
  simp [readStep, readRow, hopen, hname]

theorem readStep_open (N : Normalizer) (g : String) (st : ReadState) (row : Row)
    (hfin : st.tableFinished = true) (hname : trimSpace (getCellValue row 0) ≠ "") :
    readStep N g st row
      = { st with
          lastTable := some
            { Name := trimSpace (getCellValue row 0)
              Columns := []
              Description := trimSpace (getCellValue row 6)
              Group := g
              ClassName := trimSpace (getCellValue row 2) }
          tableFinished := false } := by
  simp [readStep, readRow, hfin, hname]

theorem readStep_skip (N : Normalizer) (g : String) (st : ReadState) (row : Row)
    (hfin : st.tableFinished = true) (hname : trimSpace (getCellValue row 0) = "") :
    readStep N g st row = st := by
  simp [readStep, readRow, hfin, hname]

theorem readStep_column (N : Normalizer) (g : String) (st : ReadState) (row : Row) (t : Table)
    (hopen : st.tableFinished = false) (hname : trimSpace (getCellValue row 1) ≠ "")
    (hlast : st.lastTable = some t) :
    readStep N g st row
      = { st with lastTable := some (t.AddColumn (readColumn N st.useNotNullColumn row)) } := by
  simp [readStep, readRow, hopen, hname, hlast]

theorem foldl_append_one (N : Normalizer) (g : String) (st : ReadState) (rows : List Row)
    (row : Row) :
    (rows ++ [row]).foldl (readStep N g) st
      = readStep N g (rows.foldl (readStep N g) st) row := by
  simp [List.foldl_append]

/-- The state before a row: the header and the rows `pre` have been read. -/
theorem state_before (N : Normalizer) (g : String) (hdr : Row) (pre : List Row) :
    readRows N g 0 (hdr :: pre) ReadState.init = pre.foldl (readStep N g) (afterHeader hdr) :=
  readRows_header N g hdr pre

theorem afterHeader_wf (hdr : Row) : (afterHeader hdr).Wf := by
  intro h; simp [afterHeader, ReadState.init] at h

theorem state_before_wf (N : Normalizer) (g : String) (hdr : Row) (pre : List Row) :
    (readRows N g 0 (hdr :: pre) ReadState.init).Wf := by
  rw [state_before]; exact foldl_wf N g pre _ (afterHeader_wf hdr)

theorem state_before_useNotNull (N : Normalizer) (g : String) (hdr : Row) (pre : List Row) :
    (readRows N g 0 (hdr :: pre) ReadState.init).useNotNullColumn
      = decide (trimSpace (getCellValue hdr 4) = headerNotNull) := by
  rw [state_before, foldl_useNotNull]; rfl

/-- Reading one more row after `hdr :: pre`. -/
theorem readRows_snoc (N : Normalizer) (g : String) (hdr : Row) (pre : List Row) (row : Row) :
    readRows N g 0 (hdr :: pre ++ [row]) ReadState.init
      = readStep N g (readRows N g 0 (hdr :: pre) ReadState.init) row := by
  have : hdr :: pre ++ [row] = hdr :: (pre ++ [row]) := rfl
  rw [this, state_before, state_before, foldl_append_one]

/-! ### Tables are only ever appended -/

theorem readStep_tables (N : Normalizer) (g : String) (st : ReadState) (row : Row) :
    ∃ rest, (readStep N g st row).tables = st.tables ++ rest := by
  unfold readStep readRow
  simp only [Nat.one_ne_zero, if_false]
  split_ifs
  · exact ⟨st.lastTable.toList, rfl⟩
  · exact ⟨[], by simp⟩
  · exact ⟨[], by simp⟩
  · cases st.lastTable <;> exact ⟨[], by simp⟩

theorem foldl_tables (N : Normalizer) (g : String) (rows : List Row) :
    ∀ st : ReadState, ∃ rest, (rows.foldl (readStep N g) st).tables = st.tables ++ rest := by
  induction rows with
  | nil => intro st; exact ⟨[], by simp⟩
  | cons r rs ih =>
    intro st
    obtain ⟨r1, h1⟩ := readStep_tables N g st r
    obtain ⟨r2, h2⟩ := ih (readStep N g st r)
    exact ⟨r1 ++ r2, by rw [List.foldl_cons, h2, h1, List.append_assoc]⟩

theorem readFinish_tables (st : ReadState) : ∃ rest, readFinish st = st.tables ++ rest := by
  unfold readFinish
  split_ifs
  · exact ⟨_, rfl⟩
  · exact ⟨[], by simp⟩

/-- What `readGroupSheet` returns, from a state reached in the middle of the sheet. -/
theorem readGroupSheet_split (N : Normalizer) (g : String) (hdr : Row) (pre post : List Row) :
    (readGroupSheet N g (hdr :: pre ++ post)).1
      = readFinish (post.foldl (readStep N g) (readRows N g 0 (hdr :: pre) ReadState.init)) := by
  have : hdr :: pre ++ post = hdr :: (pre ++ post) := rfl
  simp only [readGroupSheet]
  rw [this, state_before, state_before, List.foldl_append]

theorem result_extends (N : Normalizer) (g : String) (hdr : Row) (pre post : List Row) :
    ∃ rest, (readGroupSheet N g (hdr :: pre ++ post)).1
      = (readRows N g 0 (hdr :: pre) ReadState.init).tables ++ rest := by
  rw [readGroupSheet_split]
  obtain ⟨r1, h1⟩ := foldl_tables N g post (readRows N g 0 (hdr :: pre) ReadState.init)
  obtain ⟨r2, h2⟩ := readFinish_tables
    (post.foldl (readStep N g) (readRows N g 0 (hdr :: pre) ReadState.init))
  exact ⟨r1 ++ r2, by rw [h2, h1, List.append_assoc]⟩

/-- A table that is open ends up in the result, with the columns it has and those read
after them. -/
theorem pending_in_result (N : Normalizer) (g : String) (rows : List Row) :
    ∀ (st : ReadState) (t : Table), st.tableFinished = false → st.lastTable = some t →
      ∃ t' ∈ readFinish (rows.foldl (readStep N g) st), ∃ more, t'.Columns = t.Columns ++ more := by
  induction rows with
  | nil =>
    intro st t hopen hlast
    refine ⟨t, ?_, [], by simp⟩
    simp [readFinish, hopen, hlast]
  | cons r rs ih =>
    intro st t hopen hlast
    rw [List.foldl_cons]
    by_cases hname : trimSpace (getCellValue r 1) = ""
    · refine ⟨t, ?_, [], by simp⟩
      obtain ⟨r1, h1⟩ := foldl_tables N g rs (readStep N g st r)
      obtain ⟨r2, h2⟩ := readFinish_tables (rs.foldl (readStep N g) (readStep N g st r))
      rw [h2, h1, readStep_close N g st r hopen hname, hlast]
      simp
    · rw [readStep_column N g st r t hopen hname hlast]
      obtain ⟨t', ht', more, hmore⟩ :=
        ih { st with lastTable := some (t.AddColumn (readColumn N st.useNotNullColumn r)) }
          (t.AddColumn (readColumn N st.useNotNullColumn r)) hopen rfl
      refine ⟨t', ht', readColumn N st.useNotNullColumn r :: more, ?_⟩
      rw [hmore]; simp [Table.AddColumn]

/-! ### Column rows -/

/-- A row with a column name, read while a table is open, adds the column read from it
to the open table; the column is in a table of the result. -/
theorem column_row_read (N : Normalizer) (g : String) (hdr : Row) (pre : List Row) (row : Row)
    (post : List Row)
    (hopen : (readRows N g 0 (hdr :: pre) ReadState.init).tableFinished = false)
    (hname : trimSpace (getCellValue row 1) ≠ "") :
    (∃ t, (readRows N g 0 (hdr :: pre) ReadState.init).lastTable = some t ∧
      readRows N g 0 (hdr :: pre ++ [row]) ReadState.init
        = { readRows N g 0 (hdr :: pre) ReadState.init with
            lastTable := some (t.AddColumn (columnOf N hdr row)) }) ∧
    (∃ t ∈ (readGroupSheet N g (hdr :: pre ++ row :: post)).1,
      columnOf N hdr row ∈ t.Columns) := by
  have hwf := state_before_wf N g hdr pre hopen
  obtain ⟨t, ht⟩ := Option.ne_none_iff_exists'.mp hwf
  have hstep := readStep_column N g _ row t hopen hname ht
  have hc : columnOf N hdr row
      = readColumn N (readRows N g 0 (hdr :: pre) ReadState.init).useNotNullColumn row := by
    rw [state_before_useNotNull, columnOf]
  rw [hc]
  refine ⟨⟨t, ht, ?_⟩, ?_⟩
  · rw [readRows_snoc, hstep]
  · rw [readGroupSheet_split]
    simp only [List.foldl_cons]
    rw [hstep]
    obtain ⟨t', ht', more, hmore⟩ := pending_in_result N g post
      { readRows N g 0 (hdr :: pre) ReadState.init with
        lastTable := some (t.AddColumn
          (readColumn N (readRows N g 0 (hdr :: pre) ReadState.init).useNotNullColumn row)) }
      (t.AddColumn (readColumn N (readRows N g 0 (hdr :: pre) ReadState.init).useNotNullColumn row))
      hopen rfl
    refine ⟨t', ht', ?_⟩
    rw [hmore]; simp [Table.AddColumn]

theorem readColumn_nullable (N : Normalizer) (nn : Bool) (row : Row) :
    (readColumn N nn row).Nullable
      = if nn then decide (trimSpace (getCellValue row 4) = "")
        else decide (trimSpace (getCellValue row 4) ≠ "") := by
  simp [readColumn, TernaryBool]

/-! ### Invariants of the tables read -/

theorem readStep_all (N : Normalizer) (g : String) (P : Table → Prop) (nn : Bool)
    (st : ReadState) (row : Row)
    (hnew : trimSpace (getCellValue row 0) ≠ "" →
      P { Name := trimSpace (getCellValue row 0), Columns := [],
          Description := trimSpace (getCellValue row 6), Group := g,
          ClassName := trimSpace (getCellValue row 2) })
    (hadd : ∀ t, trimSpace (getCellValue row 1) ≠ "" → P t →
      P (t.AddColumn (readColumn N nn row)))
    (h : st.All P nn) : (readStep N g st row).All P nn := by
  obtain ⟨h0, h1, h2⟩ := h
  unfold readStep readRow
  simp only [Nat.one_ne_zero, if_false]
  split_ifs with c1 c2 c3
  · refine ⟨h0, ?_, h2⟩
    intro t ht
    rcases List.mem_append.mp ht with ht | ht
    · exact h1 t ht
    · exact h2 t (by simpa [Option.mem_toList] using ht)
  · refine ⟨h0, h1, ?_⟩
    intro t ht
    simp only [Option.some.injEq] at ht
    subst ht
    exact hnew c3
  · exact ⟨h0, h1, h2⟩
  · cases hl : st.lastTable with
    | none => exact ⟨h0, h1, fun t ht => by simp [hl] at ht⟩
    | some t0 =>
      refine ⟨h0, h1, ?_⟩
      intro t ht
      simp only [Option.some.injEq] at ht
      subst ht
      have hn : trimSpace (getCellValue row 1) ≠ "" := by
        intro he
        apply c1
        refine ⟨he, ?_⟩
        simpa using c2
      rw [h0]
      exact hadd t0 hn (h2 t0 hl)

theorem foldl_all (N : Normalizer) (g : String) (P : Table → Prop) (nn : Bool)
    (rows : List Row)
    (hnew : ∀ row ∈ rows, trimSpace (getCellValue row 0) ≠ "" →
      P { Name := trimSpace (getCellValue row 0), Columns := [],
          Description := trimSpace (getCellValue row 6), Group := g,
          ClassName := trimSpace (getCellValue row 2) })
    (hadd : ∀ row ∈ rows, ∀ t, trimSpace (getCellValue row 1) ≠ "" → P t →
      P (t.AddColumn (readColumn N nn row))) :
    ∀ st : ReadState, st.All P nn → (rows.foldl (readStep N g) st).All P nn := by
  induction rows with
  | nil => intro st h; exact h
  | cons r rs ih =>
    intro st h
    rw [List.foldl_cons]
    apply ih (fun row hr => hnew row (List.mem_cons_of_mem _ hr))
      (fun row hr => hadd row (List.mem_cons_of_mem _ hr))
    exact readStep_all N g P nn st r (hnew r (List.mem_cons_self _ _))
      (hadd r (List.mem_cons_self _ _)) h

theorem readFinish_all (P : Table → Prop) (nn : Bool) (st : ReadState) (h : st.All P nn) :
    ∀ t ∈ readFinish st, P t := by
  obtain ⟨_, h1, h2⟩ := h
  intro t ht
  unfold readFinish at ht
  split_ifs at ht
  · rcases List.mem_append.mp ht with ht | ht
    · exact h1 t ht
    · exact h2 t (by simpa [Option.mem_toList] using ht)
  · exact h1 t ht

/-- Every table of the result satisfies `P` when the tables opened by the rows do and
adding the column of a row keeps it. -/
theorem result_all (N : Normalizer) (g : String) (P : Table → Prop) (hdr : Row)
    (rows : List Row)
    (hnew : ∀ row ∈ rows, trimSpace (getCellValue row 0) ≠ "" →
      P { Name := trimSpace (getCellValue row 0), Columns := [],
          Description := trimSpace (getCellValue row 6), Group := g,
          ClassName := trimSpace (getCellValue row 2) })
    (hadd : ∀ row ∈ rows, ∀ t, trimSpace (getCellValue row 1) ≠ "" → P t →
      P (t.AddColumn (columnOf N hdr row))) :
    ∀ t ∈ (readGroupSheet N g (hdr :: rows)).1, P t := by
  simp only [readGroupSheet]
  rw [state_before]
  apply readFinish_all P (decide (trimSpace (getCellValue hdr 4) = headerNotNull))
  apply foldl_all N g P _ rows hnew hadd
  refine ⟨rfl, ?_, ?_⟩
  · intro t ht; simp [afterHeader, ReadState.init] at ht
  · intro t ht; simp [afterHeader, ReadState.init] at ht

/-- Every column of the result was read from a row of the sheet that has a column name. -/
theorem result_columns (N : Normalizer) (g : String) (hdr : Row) (rows : List Row) :
    ∀ t ∈ (readGroupSheet N g (hdr :: rows)).1, ∀ c ∈ t.Columns,
      ∃ row ∈ rows, trimSpace (getCellValue row 1) ≠ "" ∧ c = columnOf N hdr row := by
  apply result_all N g
    (fun t => ∀ c ∈ t.Columns,
      ∃ row ∈ rows, trimSpace (getCellValue row 1) ≠ "" ∧ c = columnOf N hdr row)
  · intro row _ _ c hc
    simp at hc
  · intro row hr t hn ht c hc
    simp only [Table.AddColumn, List.mem_append, List.mem_singleton] at hc
    rcases hc with hc | hc
    · exact ht c hc
    · exact ⟨row, hr, hn, hc⟩

theorem readGroupSheet_nil (N : Normalizer) (g : String) : (readGroupSheet N g []).1 = [] := rfl

/-! ## The claims about single rows -/

/-- C3 (amended): a row with a column name read while a table is open yields a column of
the result; under a header whose fifth cell, trimmed, reads `not null` the column is
nullable exactly when the row's fifth cell is empty after trimming, and under any other
header exactly when that cell is non-empty after trimming. The header row yields no
table and no column. -/
theorem nullable_polarity (N : Normalizer) (g : String) (hdr : Row) (pre : List Row)
    (row : Row) (post : List Row)
    (hopen : (readRows N g 0 (hdr :: pre) ReadState.init).tableFinished = false)
    (hname : trimSpace (getCellValue row 1) ≠ "") :
    ((∃ t, (readRows N g 0 (hdr :: pre) ReadState.init).lastTable = some t ∧
        readRows N g 0 (hdr :: pre ++ [row]) ReadState.init
          = { readRows N g 0 (hdr :: pre) ReadState.init with
              lastTable := some (t.AddColumn (columnOf N hdr row)) }) ∧
      (∃ t ∈ (readGroupSheet N g (hdr :: pre ++ row :: post)).1,
        columnOf N hdr row ∈ t.Columns)) ∧
    (trimSpace (getCellValue hdr 4) = "not null" →
      ((columnOf N hdr row).Nullable = true ↔ trimSpace (getCellValue row 4) = "")) ∧
    (trimSpace (getCellValue hdr 4) ≠ "not null" →
      ((columnOf N hdr row).Nullable = true ↔ trimSpace (getCellValue row 4) ≠ "")) ∧
    (readRows N g 0 [hdr] ReadState.init).tables = [] ∧
    (readRows N g 0 [hdr] ReadState.init).lastTable = none ∧
    (readRows N g 0 [hdr] ReadState.init).tableFinished = true ∧
    (readGroupSheet N g [hdr]).1 = [] := by
  refine ⟨column_row_read N g hdr pre row post hopen hname, ?_, ?_, ?_, ?_, ?_, ?_⟩
  · intro h
    simp [columnOf, readColumn_nullable, headerNotNull, h]
  · intro h
    simp [columnOf, readColumn_nullable, headerNotNull, h]
  · rw [state_before]; rfl
  · rw [state_before]; rfl
  · rw [state_before]; rfl
  · simp only [readGroupSheet]; rw [state_before]; rfl

/-- C3, witness: the column row `id` under the `not null` header, with `O` in its fifth
cell, is read as a column that is not nullable. -/
theorem nullable_polarity_witness :
    (readRows specNormalizer "g" 0 (exHeaderNotNull :: [exTableRow]) ReadState.init).tableFinished
        = false ∧
    trimSpace (getCellValue exColumnRow 1) ≠ "" ∧
    (∃ t ∈ (readGroupSheet specNormalizer "g"
        (exHeaderNotNull :: [exTableRow] ++ exColumnRow :: [])).1,
      columnOf specNormalizer exHeaderNotNull exColumnRow ∈ t.Columns) ∧
    ¬ (columnOf specNormalizer exHeaderNotNull exColumnRow).Nullable = true :=
  ⟨by decide, by decide,
    (nullable_polarity specNormalizer "g" exHeaderNotNull [exTableRow] exColumnRow []
      (by decide) (by decide)).1.2,
    fun h => absurd
      (((nullable_polarity specNormalizer "g" exHeaderNotNull [exTableRow] exColumnRow []
        (by decide) (by decide)).2.1 (by decide)).mp h) (by decide)⟩

/-- C3, counterexample: under the `not null` header a row whose fifth cell holds one
blank, a non-empty cell, is read as a nullable column. -/
theorem nullable_polarity_counterexample :
    trimSpace (getCellValue exHeaderNotNull 4) = "not null" ∧
    getCellValue exBlankNullRow 4 ≠ "" ∧
    (readGroupSheet specNormalizer "g" [exHeaderNotNull, exTableRow, exBlankNullRow]).1
      = [{ Name := "user", Description := "users", Group := "g", ClassName := "Account",
           Columns := [{ Name := "id", Type_ := "int", Description := "", Size := 0, Scale := 0,
                         Nullable := true, PrimaryKey := false, UniqueKey := false,
                         AutoIncremental := false, DefaultValue := "", Ref := none }] }] := by
  decide

/-- C4: a row after the header whose column-name cell is empty after trimming, read
while a table is open, appends the open table as it is to the tables, leaves the decoder
between tables and adds no column; the appended table is in the result at that place. -/
theorem close_table (N : Normalizer) (g : String) (hdr : Row) (pre : List Row)
    (row : Row) (post : List Row)
    (hopen : (readRows N g 0 (hdr :: pre) ReadState.init).tableFinished = false)
    (hname : trimSpace (getCellValue row 1) = "") :
    ∃ t, (readRows N g 0 (hdr :: pre) ReadState.init).lastTable = some t ∧
      readRows N g 0 (hdr :: pre ++ [row]) ReadState.init
        = { readRows N g 0 (hdr :: pre) ReadState.init with
            tables := (readRows N g 0 (hdr :: pre) ReadState.init).tables ++ [t]
            tableFinished := true } ∧
      ∃ rest, (readGroupSheet N g (hdr :: pre ++ row :: post)).1
        = (readRows N g 0 (hdr :: pre) ReadState.init).tables ++ [t] ++ rest := by
  have hwf := state_before_wf N g hdr pre hopen
  obtain ⟨t, ht⟩ := Option.ne_none_iff_exists'.mp hwf
  have hstep := readStep_close N g _ row hopen hname
  refine ⟨t, ht, ?_, ?_⟩
  · rw [readRows_snoc, hstep]; simp [ht]
  · have h := result_extends N g hdr (pre ++ [row]) post
    obtain ⟨rest, hrest⟩ := h
    refine ⟨rest, ?_⟩
    have e1 : hdr :: (pre ++ [row]) ++ post = hdr :: pre ++ row :: post := by simp
    have e2 : hdr :: (pre ++ [row]) = hdr :: pre ++ [row] := rfl
    rw [e1, e2, readRows_snoc, hstep] at hrest
    rw [hrest]; simp [ht]

/-- C4, witness: after the header, a table row and a column row, an empty row closes the
table `user` with its one column. -/
theorem close_table_witness :
    (readRows specNormalizer "g" 0 (exHeader :: [exTableRow, exColumnRow])
        ReadState.init).tableFinished = false ∧
    trimSpace (getCellValue ([] : Row) 1) = "" ∧
    ∃ t, (readRows specNormalizer "g" 0 (exHeader :: [exTableRow, exColumnRow])
        ReadState.init).lastTable = some t ∧
      readRows specNormalizer "g" 0 (exHeader :: [exTableRow, exColumnRow] ++ [[]])
          ReadState.init
        = { readRows specNormalizer "g" 0 (exHeader :: [exTableRow, exColumnRow])
              ReadState.init with
            tables := (readRows specNormalizer "g" 0 (exHeader :: [exTableRow, exColumnRow])
              ReadState.init).tables ++ [t]
            tableFinished := true } ∧
      ∃ rest, (readGroupSheet specNormalizer "g"
          (exHeader :: [exTableRow, exColumnRow] ++ [] :: [exRefRow])).1
        = (readRows specNormalizer "g" 0 (exHeader :: [exTableRow, exColumnRow])
            ReadState.init).tables ++ [t] ++ rest :=
  ⟨by decide, by decide,
    close_table specNormalizer "g" exHeader [exTableRow, exColumnRow] [] [exRefRow]
      (by decide) (by decide)⟩

/-- C5 (amended): between tables, a row whose table-name cell is non-empty after
trimming opens a table with the trimmed table-name, type and description cells as Name,
ClassName and Description, the sheet's group name as Group and no column; when the row
after it has a column-name cell that is non-empty after trimming, that row is read as the
first column of the table. Between tables, a row whose table-name cell is empty after
trimming changes nothing. -/
theorem open_table (N : Normalizer) (g : String) (hdr : Row) (pre : List Row) (r1 r2 : Row)
    (hfin : (readRows N g 0 (hdr :: pre) ReadState.init).tableFinished = true) :
    (trimSpace (getCellValue r1 0) ≠ "" →
      readRows N g 0 (hdr :: pre ++ [r1]) ReadState.init
        = { readRows N g 0 (hdr :: pre) ReadState.init with
            lastTable := some
              { Name := trimSpace (getCellValue r1 0)
                Columns := []
                Description := trimSpace (getCellValue r1 6)
                Group := g
                ClassName := trimSpace (getCellValue r1 2) }
            tableFinished := false } ∧
      (trimSpace (getCellValue r2 1) ≠ "" →
        readRows N g 0 (hdr :: pre ++ [r1, r2]) ReadState.init
          = { readRows N g 0 (hdr :: pre) ReadState.init with
              lastTable := some
                { Name := trimSpace (getCellValue r1 0)
                  Columns := [columnOf N hdr r2]
                  Description := trimSpace (getCellValue r1 6)
                  Group := g
                  ClassName := trimSpace (getCellValue r1 2) }
              tableFinished := false })) ∧
    (trimSpace (getCellValue r1 0) = "" →
      readRows N g 0 (hdr :: pre ++ [r1]) ReadState.init
        = readRows N g 0 (hdr :: pre) ReadState.init) := by
  refine ⟨fun h1 => ?_, fun h1 => ?_⟩
  · have hstep := readStep_open N g _ r1 hfin h1
    refine ⟨by rw [readRows_snoc, hstep], fun h2 => ?_⟩
    have e : hdr :: pre ++ [r1, r2] = hdr :: (pre ++ [r1]) ++ [r2] := by simp
    have e2 : hdr :: (pre ++ [r1]) = hdr :: pre ++ [r1] := rfl
    rw [e, readRows_snoc, e2, readRows_snoc, hstep]
    rw [readStep_column N g _ r2 _ rfl h2 rfl]
    simp [Table.AddColumn, columnOf, state_before_useNotNull]
  · rw [readRows_snoc, readStep_skip N g _ r1 hfin h1]

/-- C5, witness: after the header the row of table `user` opens the table, and the row
of column `id` becomes its first column. -/
theorem open_table_witness :
    (readRows specNormalizer "g" 0 (exHeader :: []) ReadState.init).tableFinished = true ∧
    trimSpace (getCellValue exTableRow 0) ≠ "" ∧
    trimSpace (getCellValue exColumnRow 1) ≠ "" ∧
    readRows specNormalizer "g" 0 (exHeader :: [] ++ [exTableRow, exColumnRow]) ReadState.init
      = { readRows specNormalizer "g" 0 (exHeader :: []) ReadState.init with
          lastTable := some
            { Name := trimSpace (getCellValue exTableRow 0)
              Columns := [columnOf specNormalizer exHeader exColumnRow]
              Description := trimSpace (getCellValue exTableRow 6)
              Group := "g"
              ClassName := trimSpace (getCellValue exTableRow 2) }
          tableFinished := false } :=
  ⟨by decide, by decide, by decide,
    ((open_table specNormalizer "g" exHeader [] exTableRow exColumnRow (by decide)).1
      (by decide)).2 (by decide)⟩

/-- C5, counterexample: between tables, a row whose table-name cell holds one blank, a
non-empty cell, followed by a row with a column name opens no table: the state is
unchanged by the two rows and the result has no table. -/
theorem open_table_counterexample :
    (readRows specNormalizer "g" 0 [exHeader] ReadState.init).tableFinished = true ∧
    getCellValue exBlankOpenRow 0 ≠ "" ∧
    getCellValue exColumnRow 1 ≠ "" ∧
    readRows specNormalizer "g" 0 [exHeader, exBlankOpenRow, exColumnRow] ReadState.init
      = readRows specNormalizer "g" 0 [exHeader] ReadState.init ∧
    (readGroupSheet specNormalizer "g" [exHeader, exBlankOpenRow, exColumnRow]).1 = [] := by
  decide

theorem split_empty (sep : Char) : split "" sep = [""] := rfl

theorem readColumn_ref (N : Normalizer) (nn : Bool) (row : Row) :
    (readColumn N nn row).Ref = readRef (trimSpace (getCellValue row 0)) := rfl

/-- C7: a row with a column name read while a table is open adds its column to the open
table and neither opens nor closes a table; when its trimmed table-name cell splits on
`.` into exactly two parts the column refers to that table and column, and when the
cell is empty or splits into another number of parts the column has no reference. -/
theorem reference_cell (N : Normalizer) (g : String) (hdr : Row) (pre : List Row)
    (row : Row) (post : List Row)
    (hopen : (readRows N g 0 (hdr :: pre) ReadState.init).tableFinished = false)
    (hname : trimSpace (getCellValue row 1) ≠ "") :
    ((∃ t, (readRows N g 0 (hdr :: pre) ReadState.init).lastTable = some t ∧
        readRows N g 0 (hdr :: pre ++ [row]) ReadState.init
          = { readRows N g 0 (hdr :: pre) ReadState.init with
              lastTable := some (t.AddColumn (columnOf N hdr row)) }) ∧
      (∃ t ∈ (readGroupSheet N g (hdr :: pre ++ row :: post)).1,
        columnOf N hdr row ∈ t.Columns)) ∧
    (∀ t c, split (trimSpace (getCellValue row 0)) '.' = [t, c] →
      (columnOf N hdr row).Ref = some { Table := t, Column := c }) ∧
    ((getCellValue row 0 = "" ∨ trimSpace (getCellValue row 0) = "" ∨
        (split (trimSpace (getCellValue row 0)) '.').length ≠ 2) →
      (columnOf N hdr row).Ref = none) := by
  refine ⟨column_row_read N g hdr pre row post hopen hname, ?_, ?_⟩
  · intro t c h
    have hne : trimSpace (getCellValue row 0) ≠ "" := by
      intro he
      rw [he, split_empty] at h
      simp at h
    simp [columnOf, readColumn_ref, readRef, hne, h]
  · intro h
    rw [columnOf, readColumn_ref, readRef]
    rcases h with h | h | h
    · have : trimSpace (getCellValue row 0) = "" := by rw [h]; rfl
      simp [this]
    · simp [h]
    · simp [h]

/-- C7, witness: the row of column `org_id`, whose table-name cell is `org.id`, is read
as a column referring to column `id` of table `org`. -/
theorem reference_cell_witness :
    (readRows specNormalizer "g" 0 (exHeader :: [exTableRow]) ReadState.init).tableFinished
        = false ∧
    trimSpace (getCellValue exRefRow 1) ≠ "" ∧
    (columnOf specNormalizer exHeader exRefRow).Ref = some { Table := "org", Column := "id" } :=
  ⟨by decide, by decide,
    (reference_cell specNormalizer "g" exHeader [exTableRow] exRefRow []
      (by decide) (by decide)).2.1 "org" "id" (by decide)⟩

/-- C8: a row with a column name read while a table is open yields a column of the
result that is a primary key exactly when the trimmed key cell is `P` and a unique key
exactly when it is `U`; no column of any table of a result is both. -/
theorem key_cell (N : Normalizer) (g : String) (hdr : Row) (pre : List Row)
    (row : Row) (post : List Row)
    (hopen : (readRows N g 0 (hdr :: pre) ReadState.init).tableFinished = false)
    (hname : trimSpace (getCellValue row 1) ≠ "") :
    ((∃ t, (readRows N g 0 (hdr :: pre) ReadState.init).lastTable = some t ∧
        readRows N g 0 (hdr :: pre ++ [row]) ReadState.init
          = { readRows N g 0 (hdr :: pre) ReadState.init with
              lastTable := some (t.AddColumn (columnOf N hdr row)) }) ∧
      (∃ t ∈ (readGroupSheet N g (hdr :: pre ++ row :: post)).1,
        columnOf N hdr row ∈ t.Columns)) ∧
    ((columnOf N hdr row).PrimaryKey = true ↔ trimSpace (getCellValue row 3) = "P") ∧
    ((columnOf N hdr row).UniqueKey = true ↔ trimSpace (getCellValue row 3) = "U") ∧
    (∀ sheet : Sheet, ∀ t ∈ (readGroupSheet N g sheet).1, ∀ c ∈ t.Columns,
      ¬ (c.PrimaryKey = true ∧ c.UniqueKey = true)) := by
  refine ⟨column_row_read N g hdr pre row post hopen hname, ?_, ?_, ?_⟩
  · simp [columnOf, readColumn]
  · simp [columnOf, readColumn]
  · intro sheet t ht c hc
    cases sheet with
    | nil => simp [readGroupSheet_nil] at ht
    | cons h rows =>
      obtain ⟨r, _, _, hr⟩ := result_columns N g h rows t ht c hc
      subst hr
      simp only [columnOf, readColumn, decide_eq_true_eq]
      rintro ⟨h1, h2⟩
      rw [h1] at h2
      exact absurd h2 (by decide)

/-- C8, witness: the row of column `id`, whose key cell is `P`, is read as a primary key
that is not a unique key. -/
theorem key_cell_witness :
    (readRows specNormalizer "g" 0 (exHeader :: [exTableRow]) ReadState.init).tableFinished
        = false ∧
    trimSpace (getCellValue exColumnRow 1) ≠ "" ∧
    (columnOf specNormalizer exHeader exColumnRow).PrimaryKey = true ∧
    ¬ (columnOf specNormalizer exHeader exColumnRow).UniqueKey = true :=
  ⟨by decide, by decide,
    (key_cell specNormalizer "g" exHeader [exTableRow] exColumnRow []
      (by decide) (by decide)).2.1.mpr (by decide),
    fun h => absurd
      ((key_cell specNormalizer "g" exHeader [exTableRow] exColumnRow []
        (by decide) (by decide)).2.2.1.mp h) (by decide)⟩

/-! ### End of sheet -/

theorem readFinish_eq (st : ReadState) : readFinish st = st.tables ++ st.pending := by
  unfold readFinish ReadState.pending
  by_cases h : st.tableFinished = false
  · cases hl : st.lastTable <;> simp [h, hl]
  · simp [h]

theorem names_of_result (N : Normalizer) (g : String) (rows : List Row) :
    ∀ st : ReadState,
      (readFinish (rows.foldl (readStep N g) st)).map (fun t => t.Name)
        = (st.tables ++ st.pending).map (fun t => t.Name)
          ++ (openingRows N g rows st).map (fun r => trimSpace (getCellValue r 0)) := by
  induction rows with
  | nil => intro st; simp [readFinish_eq, openingRows]
  | cons r rs ih =>
    intro st
    rw [List.foldl_cons, ih, openingRows]
    by_cases hfin : st.tableFinished = true
    · by_cases hn : trimSpace (getCellValue r 0) = ""
      · rw [readStep_skip N g st r hfin hn]
        simp [hfin, hn]
      · rw [readStep_open N g st r hfin hn]
        simp [hfin, hn, ReadState.pending]
    · have hopen : st.tableFinished = false := by simpa using hfin
      by_cases hn : trimSpace (getCellValue r 1) = ""
      · rw [readStep_close N g st r hopen hn]
        simp [hopen, ReadState.pending]
      · cases hl : st.lastTable with
        | none =>
          have : readStep N g st r = st := by
            simp [readStep, readRow, hopen, hn, hl]
          rw [this]; simp [hopen]
        | some t =>
          rw [readStep_column N g st r t hopen hn hl]
          simp [hopen, hl, ReadState.pending, Table.AddColumn]

theorem count_of_result (N : Normalizer) (g : String) (rows : List Row) :
    ∀ st : ReadState, st.Wf →
      (readFinish (rows.foldl (readStep N g) st)).length
        = st.tables.length + (closingRows N g rows st).length
          + (rows.foldl (readStep N g) st).pending.length := by
  induction rows with
  | nil => intro st _; simp [readFinish_eq, closingRows]
  | cons r rs ih =>
    intro st hwf
    rw [List.foldl_cons, ih _ (readStep_wf N g st r hwf), closingRows]
    by_cases hfin : st.tableFinished = true
    · by_cases hn : trimSpace (getCellValue r 0) = ""
      · rw [readStep_skip N g st r hfin hn]
        simp [hfin]
      · rw [readStep_open N g st r hfin hn]
        simp [hfin]
    · have hopen : st.tableFinished = false := by simpa using hfin
      obtain ⟨t, hl⟩ := Option.ne_none_iff_exists'.mp (hwf hopen)
      by_cases hn : trimSpace (getCellValue r 1) = ""
      · rw [readStep_close N g st r hopen hn]
        simp [hopen, hn, hl]; omega
      · rw [readStep_column N g st r t hopen hn hl]
        simp [hopen, hn]

theorem init_wf : ReadState.init.Wf := by
  intro h; simp [ReadState.init] at h

theorem final_wf (N : Normalizer) (g : String) (sheet : Sheet) :
    (readRows N g 0 sheet ReadState.init).Wf := by
  cases sheet with
  | nil => exact init_wf
  | cons hdr rows => exact state_before_wf N g hdr rows

/-- C6: when the last row of a sheet leaves a table open, the result is the tables
appended so far followed by the open table with the columns read for it; over any sheet
the names of the returned tables are the trimmed table-name cells of the table-opening
rows, in order, so as many tables are returned as rows open a table, each appended once:
by a closing row, or at the end of the sheet when it is still open. -/
theorem end_of_sheet (N : Normalizer) (g : String) (sheet : Sheet) :
    ((readRows N g 0 sheet ReadState.init).tableFinished = false →
      ∃ t, (readRows N g 0 sheet ReadState.init).lastTable = some t ∧
        (readGroupSheet N g sheet).1 = (readRows N g 0 sheet ReadState.init).tables ++ [t]) ∧
    (readGroupSheet N g sheet).1.map (fun t => t.Name)
      = (sheetOpeningRows N g sheet).map (fun r => trimSpace (getCellValue r 0)) ∧
    (readGroupSheet N g sheet).1.length = (sheetOpeningRows N g sheet).length ∧
    (readGroupSheet N g sheet).1.length
      = (sheetClosingRows N g sheet).length
        + (if (readRows N g 0 sheet ReadState.init).tableFinished = false then 1 else 0) := by
  have hnames : (readGroupSheet N g sheet).1.map (fun t => t.Name)
      = (sheetOpeningRows N g sheet).map (fun r => trimSpace (getCellValue r 0)) := by
    cases sheet with
    | nil => rfl
    | cons hdr rows =>
      simp only [readGroupSheet, sheetOpeningRows]
      rw [state_before, names_of_result]
      simp [afterHeader, ReadState.init, ReadState.pending]
  refine ⟨?_, hnames, ?_, ?_⟩
  · intro hopen
    obtain ⟨t, ht⟩ := Option.ne_none_iff_exists'.mp (final_wf N g sheet hopen)
    refine ⟨t, ht, ?_⟩
    simp [readGroupSheet, readFinish_eq, ReadState.pending, hopen, ht]
  · have := congrArg List.length hnames
    simpa using this
  · cases sheet with
    | nil => simp [readGroupSheet_nil, sheetClosingRows, readRows, ReadState.init]
    | cons hdr rows =>
      simp only [readGroupSheet, sheetClosingRows]
      rw [state_before, count_of_result N g rows _ (afterHeader_wf hdr)]
      have hwf := foldl_wf N g rows _ (afterHeader_wf hdr)
      have e : (afterHeader hdr).tables = [] := rfl
      rw [e]
      by_cases hopen : (rows.foldl (readStep N g) (afterHeader hdr)).tableFinished = false
      · obtain ⟨t, ht⟩ := Option.ne_none_iff_exists'.mp (hwf hopen)
        simp [ReadState.pending, hopen, ht]
      · simp [ReadState.pending, hopen]

/-- C6, witness: the sheet with the header, the row of table `user` and two column rows
ends with the table open; the result is that table with both columns. -/
theorem end_of_sheet_witness :
    (readRows specNormalizer "g" 0 [exHeader, exTableRow, exColumnRow, exRefRow]
        ReadState.init).tableFinished = false ∧
    (∃ t, (readRows specNormalizer "g" 0 [exHeader, exTableRow, exColumnRow, exRefRow]
          ReadState.init).lastTable = some t ∧
        (readGroupSheet specNormalizer "g" [exHeader, exTableRow, exColumnRow, exRefRow]).1
          = (readRows specNormalizer "g" 0 [exHeader, exTableRow, exColumnRow, exRefRow]
              ReadState.init).tables ++ [t]) ∧
    (readGroupSheet specNormalizer "g" [exHeader, exTableRow, exColumnRow, exRefRow]).1.length
      = 1 :=
  ⟨by decide,
    (end_of_sheet specNormalizer "g" [exHeader, exTableRow, exColumnRow, exRefRow]).1
      (by decide),
    (end_of_sheet specNormalizer "g" [exHeader, exTableRow, exColumnRow, exRefRow]).2.2.1.trans
      (by decide)⟩

/-! ### Strings -/

theorem str_eq_iff (s t : String) : s = t ↔ s.data = t.data :=
  ⟨fun h => by rw [h], fun h => String.ext h⟩

theorem str_ne_empty_iff (s : String) : s ≠ "" ↔ s.data ≠ [] := by
  rw [Ne, str_eq_iff]

theorem rdropWhile_concat_fixed (p : Char → Bool) (m : List Char) (x : Char)
    (h : (m ++ [x]).rdropWhile p = m ++ [x]) : p x = false := by
  by_contra hx
  have hx' : p x = true := by simpa using hx
  rw [List.rdropWhile_concat_pos p m x hx'] at h
  have hlen := (List.rdropWhile_prefix p (l := m)).length_le
  rw [h] at hlen
  simp at hlen

theorem rdropWhile_append_fixed (p : Char → Bool) (a l : List Char) (hl : l ≠ [])
    (h : l.rdropWhile p = l) : (a ++ l).rdropWhile p = a ++ l := by
  induction l using List.reverseRecOn with
  | nil => exact absurd rfl hl
  | append_singleton m x _ =>
    have hx := rdropWhile_concat_fixed p m x h
    rw [← List.append_assoc]
    exact List.rdropWhile_concat_neg p (a ++ m) x (by simp [hx])

theorem rdropWhile_suffix_fixed (p : Char → Bool) (a l : List Char) (hl : l ≠ [])
    (h : (a ++ l).rdropWhile p = a ++ l) : l.rdropWhile p = l := by
  induction l using List.reverseRecOn with
  | nil => exact absurd rfl hl
  | append_singleton m x _ =>
    rw [← List.append_assoc] at h
    have hx := rdropWhile_concat_fixed p (a ++ m) x h
    exact List.rdropWhile_concat_neg p m x (by simp [hx])

theorem trimSpaceL_fixed (l : List Char) (h : trimSpaceL l = l) :
    l.dropWhile isSpace = l ∧ l.rdropWhile isSpace = l := by
  unfold trimSpaceL at h
  have h1 := (List.rdropWhile_prefix isSpace (l := l.dropWhile isSpace)).length_le
  rw [h] at h1
  have h2 : l.dropWhile isSpace = l :=
    (List.dropWhile_suffix isSpace (l := l)).eq_of_length_le h1
  rw [h2] at h
  exact ⟨h2, h⟩

theorem trimSpaceL_of_fixed (l : List Char) (h1 : l.dropWhile isSpace = l)
    (h2 : l.rdropWhile isSpace = l) : trimSpaceL l = l := by
  unfold trimSpaceL; rw [h1, h2]

theorem trimSpaceL_idem (l : List Char) : trimSpaceL (trimSpaceL l) = trimSpaceL l := by
  apply trimSpaceL_of_fixed
  · unfold trimSpaceL
    cases hm : l.dropWhile isSpace with
    | nil => simp
    | cons a m =>
      have ha : isSpace a = false := by
        have := List.dropWhile_get_zero_not isSpace l (by rw [hm]; simp)
        simpa [hm] using this
      obtain ⟨t, ht⟩ := List.rdropWhile_prefix isSpace (l := a :: m)
      cases hr : (a :: m).rdropWhile isSpace with
      | nil => simp
      | cons b r =>
        rw [hr] at ht
        have hb : b = a := by simpa using congrArg List.head? ht
        rw [hb, List.dropWhile_cons_of_neg (by simp [ha])]
  · unfold trimSpaceL
    exact List.rdropWhile_idempotent isSpace _

theorem trimSpace_idem (s : String) : trimSpace (trimSpace s) = trimSpace s := by
  rw [str_eq_iff]; exact trimSpaceL_idem s.data

theorem trimSpaceL_mem (l : List Char) : ∀ x ∈ trimSpaceL l, x ∈ l := by
  intro x hx
  unfold trimSpaceL at hx
  exact List.dropWhile_subset isSpace ((List.rdropWhile_prefix isSpace _).subset hx)

theorem trimSpaceL_space_cons (l : List Char) : trimSpaceL (' ' :: l) = trimSpaceL l := by
  unfold trimSpaceL
  rw [List.dropWhile_cons_of_pos (by decide)]

/-- Trimming keeps a text that starts with a character that is no space and is followed
by a non-empty text with no space at its end. -/
theorem trimSpaceL_append (a : Char) (u l : List Char) (ha : isSpace a = false)
    (hl : l ≠ []) (h : l.rdropWhile isSpace = l) :
    trimSpaceL (a :: u ++ l) = a :: u ++ l := by
  apply trimSpaceL_of_fixed
  · exact List.dropWhile_cons_of_neg (by simp [ha])
  · exact rdropWhile_append_fixed isSpace (a :: u) l hl h

/-! ### Splitting -/

theorem splitL_ne_nil (sep : Char) (l : List Char) : splitL sep l ≠ [] := by
  cases l with
  | nil => simp [splitL]
  | cons c cs =>
    unfold splitL
    split_ifs
    · simp
    · cases splitL sep cs <;> simp

theorem splitL_of_not_mem (sep : Char) (l : List Char) (h : sep ∉ l) : splitL sep l = [l] := by
  induction l with
  | nil => rfl
  | cons c cs ih =>
    have hc : c ≠ sep := fun e => h (by simp [e])
    have hcs : sep ∉ cs := fun e => h (List.mem_cons_of_mem _ e)
    simp [splitL, hc, ih hcs]

theorem splitL_append_sep (sep : Char) (a b : List Char) (h : sep ∉ a) :
    splitL sep (a ++ sep :: b) = a :: splitL sep b := by
  induction a with
  | nil => simp [splitL]
  | cons c cs ih =>
    have hc : c ≠ sep := fun e => h (by simp [e])
    have hcs : sep ∉ cs := fun e => h (List.mem_cons_of_mem _ e)
    simp [splitL, hc, ih hcs]

theorem splitL_no_sep (sep : Char) (l : List Char) : ∀ t ∈ splitL sep l, sep ∉ t := by
  induction l with
  | nil => intro t ht; simp [splitL] at ht; simp [ht]
  | cons c cs ih =>
    intro t ht
    unfold splitL at ht
    split_ifs at ht with hc
    · rcases List.mem_cons.mp ht with ht | ht
      · simp [ht]
      · exact ih t ht
    · cases hs : splitL sep cs with
      | nil => exact absurd hs (splitL_ne_nil sep cs)
      | cons h r =>
        rw [hs] at ht ih
        rcases List.mem_cons.mp ht with ht | ht
        · rw [ht]
          intro hm
          rcases List.mem_cons.mp hm with hm | hm
          · exact hc hm.symm
          · exact ih h (List.mem_cons_self _ _) hm
        · exact ih t (List.mem_cons_of_mem _ ht)

/-- The pieces of a split, joined by the separator, give the text back. -/
theorem joinL_splitL (sep : Char) (l : List Char) : joinL sep (splitL sep l) = l := by
  induction l with
  | nil => rfl
  | cons x xs ih =>
    unfold splitL
    cases hs : splitL sep xs with
    | nil => exact absurd hs (splitL_ne_nil sep xs)
    | cons h0 r =>
      rw [hs] at ih
      split_ifs with hx
      · simp [joinL, ih, hx]
      · cases r with
        | nil => simp only [joinL] at ih ⊢; rw [ih]
        | cons b r => simp only [joinL] at ih ⊢; rw [← ih]; rfl

theorem splitL_two (sep : Char) (l t c : List Char) (h : splitL sep l = [t, c]) :
    l = t ++ sep :: c := by
  have := joinL_splitL sep l
  rw [h] at this
  exact this.symm

theorem rdropWhile_append_keep (p : Char → Bool) (a b : List Char)
    (ha : a.rdropWhile p = a) : (a ++ b).rdropWhile p = a ++ b.rdropWhile p := by
  induction b using List.reverseRecOn with
  | nil => simp [ha]
  | append_singleton m x ih =>
    rw [← List.append_assoc]
    by_cases hx : p x = true
    · rw [List.rdropWhile_concat_pos p _ x hx, List.rdropWhile_concat_pos p _ x hx, ih]
    · rw [List.rdropWhile_concat_neg p _ x hx, List.rdropWhile_concat_neg p _ x hx,
        List.append_assoc]

theorem splitN2L_of_not_mem (sep : Char) (l : List Char) (h : sep ∉ l) :
    splitN2L sep l = [l] := by
  induction l with
  | nil => rfl
  | cons c cs ih =>
    have hc : c ≠ sep := fun e => h (by simp [e])
    have hcs : sep ∉ cs := fun e => h (List.mem_cons_of_mem _ e)
    simp [splitN2L, hc, ih hcs]

theorem splitN2L_append_sep (sep : Char) (a b : List Char) (h : sep ∉ a) :
    splitN2L sep (a ++ sep :: b) = [a, b] := by
  induction a with
  | nil => simp [splitN2L]
  | cons c cs ih =>
    have hc : c ≠ sep := fun e => h (by simp [e])
    have hcs : sep ∉ cs := fun e => h (List.mem_cons_of_mem _ e)
    simp [splitN2L, hc, ih hcs]

/-- The result of `SplitN(s, sep, 2)` has two pieces exactly when the separator occurs, and then they
are the text before its first occurrence and the text after it. -/
theorem splitN2L_two (sep : Char) (l : List Char) (h : (splitN2L sep l).length = 2) :
    ∃ a b, l = a ++ sep :: b ∧ sep ∉ a ∧ splitN2L sep l = [a, b] := by
  by_cases hm : sep ∈ l
  · obtain ⟨a, b, hl, ha⟩ := List.eq_append_cons_of_mem hm
    exact ⟨a, b, hl, ha, by rw [hl, splitN2L_append_sep sep a b ha]⟩
  · rw [splitN2L_of_not_mem sep l hm] at h
    simp at h

theorem splitN2_append (h v : String) (hh : ':' ∉ h.data) :
    splitN2 (h ++ ":" ++ v) ':' = [h, v] := by
  have : (h ++ ":" ++ v).data = h.data ++ ':' :: v.data := by
    simp [String.data_append]
  simp [splitN2, this, splitN2L_append_sep ':' h.data v.data hh]

theorem toLower_ascii (lowerCase : Char → Char) (s : String)
    (h : s.data.all (fun c => decide (c.val ≤ 127)) = true) :
    toLower lowerCase s = ⟨s.data.map Char.toLower⟩ := by
  unfold toLower
  congr 1
  apply List.map_congr_left
  intro c hc
  have hle := List.all_eq_true.mp h c hc
  simp only [decide_eq_true_eq] at hle
  simp [toLowerRune, hle]

theorem toLower_autoInc (lowerCase : Char → Char) :
    toLower lowerCase "autoInc" = "autoinc" := by
  rw [toLower_ascii _ _ (by decide)]
  decide

theorem readAttr_default (N : Normalizer) (ty : String) (acc : String × StringSet) (a : String)
    (h : isDefaultToken (trimSpace a) = true) :
    readAttr N ty acc a
      = (fixDefaultValue N ty ((splitN2 (trimSpace a) ':').getD 1 ""), acc.2) := by
  simp only [isDefaultToken, Bool.and_eq_true, decide_eq_true_eq] at h
  simp [readAttr, h.1, h.2]

theorem readAttr_other (N : Normalizer) (ty : String) (acc : String × StringSet) (a : String)
    (h : isDefaultToken (trimSpace a) = false) :
    readAttr N ty acc a = (acc.1, acc.2.Add (toLower N.LowerCase (trimSpace a))) := by
  simp only [isDefaultToken, Bool.and_eq_false_iff, decide_eq_false_iff_not] at h
  unfold readAttr
  rcases h with h | h
  · simp [h]
  · simp [h]

theorem foldl_attrs_items (N : Normalizer) (ty : String) (l : List String) :
    ∀ acc : String × StringSet,
      (l.foldl (readAttr N ty) acc).2.items
        = acc.2.items
          ++ ((l.map trimSpace).filter (fun a => !isDefaultToken a)).map (toLower N.LowerCase) := by
  induction l with
  | nil => intro acc; simp
  | cons a as ih =>
    intro acc
    rw [List.foldl_cons, ih]
    cases h : isDefaultToken (trimSpace a) with
    | true => rw [readAttr_default N ty acc a h]; simp [h]
    | false => rw [readAttr_other N ty acc a h]; simp [h, StringSet.Add]

theorem foldl_attrs_no_default (N : Normalizer) (ty : String) (l : List String)
    (h : ∀ a ∈ l, isDefaultToken (trimSpace a) = false) :
    ∀ acc : String × StringSet, (l.foldl (readAttr N ty) acc).1 = acc.1 := by
  induction l with
  | nil => intro acc; rfl
  | cons a as ih =>
    intro acc
    rw [List.foldl_cons, ih (fun b hb => h b (List.mem_cons_of_mem _ hb)),
      readAttr_other N ty acc a (h a (List.mem_cons_self _ _))]

/-- The default value read from the attribute tokens: that of the last default token. -/
theorem readAttrs_last_default (N : Normalizer) (ty : String) (attrValue : String)
    (pre : List String) (tok : String) (post : List String)
    (hs : split attrValue ',' = pre ++ tok :: post)
    (htok : isDefaultToken (trimSpace tok) = true)
    (hpost : ∀ a ∈ post, isDefaultToken (trimSpace a) = false) :
    (readAttrs N ty attrValue).1
      = fixDefaultValue N ty ((splitN2 (trimSpace tok) ':').getD 1 "") := by
  unfold readAttrs
  rw [hs, List.foldl_append, List.foldl_cons, foldl_attrs_no_default N ty post hpost,
    readAttr_default N ty _ tok htok]

theorem readAttrs_items (N : Normalizer) (ty : String) (attrValue : String) :
    (readAttrs N ty attrValue).2.items
      = (((split attrValue ',').map trimSpace).filter (fun a => !isDefaultToken a)).map
          (toLower N.LowerCase) := by
  unfold readAttrs
  rw [foldl_attrs_items]
  simp [NewStringSet]

theorem containsAny_iff (s : StringSet) (vs : List String) :
    s.ContainsAny vs = true ↔ ∃ v ∈ vs, v ∈ s.items := by
  simp [StringSet.ContainsAny]

theorem readColumn_autoInc (N : Normalizer) (nn : Bool) (row : Row) :
    (readColumn N nn row).AutoIncremental = true ↔
      ∃ a ∈ (split (trimSpace (getCellValue row 5)) ',').map trimSpace,
        isDefaultToken a = false ∧ toLower N.LowerCase a ∈ autoIncAliases := by
  have : (readColumn N nn row).AutoIncremental
      = (readAttrs N (N.ParseType (trimSpace (getCellValue row 2))).1
          (trimSpace (getCellValue row 5))).2.ContainsAny autoIncAliases := rfl
  rw [this, containsAny_iff, readAttrs_items]
  constructor
  · rintro ⟨v, hv, hm⟩
    obtain ⟨a, ha, rfl⟩ := List.mem_map.mp hm
    obtain ⟨ha1, ha2⟩ := List.mem_filter.mp ha
    exact ⟨a, ha1, by simpa using ha2, hv⟩
  · rintro ⟨a, ha, hd, hl⟩
    exact ⟨toLower N.LowerCase a, hl, List.mem_map.mpr ⟨a, List.mem_filter.mpr ⟨ha, by simp [hd]⟩, rfl⟩⟩

theorem autoInc_token_first (v : String) :
    ∃ rest, split (trimSpace ("autoInc" ++ ", " ++ v)) ',' = "autoInc" :: rest := by
  have hd : (trimSpace ("autoInc" ++ ", " ++ v)).data
      = "autoInc".data ++ ',' :: (' ' :: v.data).rdropWhile isSpace := by
    have e : ("autoInc" ++ ", " ++ v).data = ("autoInc,".data) ++ (' ' :: v.data) := by
      simp [String.data_append]
    show trimSpaceL ("autoInc" ++ ", " ++ v).data = _
    rw [e]
    unfold trimSpaceL
    rw [show ("autoInc,".data ++ ' ' :: v.data) = 'a' :: ("utoInc,".data ++ ' ' :: v.data)
      from rfl, List.dropWhile_cons_of_neg (by decide)]
    rw [show 'a' :: ("utoInc,".data ++ ' ' :: v.data) = "autoInc,".data ++ ' ' :: v.data
      from rfl, rdropWhile_append_keep isSpace _ _ (by decide)]
    rfl
  refine ⟨(splitL ',' ((' ' :: v.data).rdropWhile isSpace)).map String.mk, ?_⟩
  unfold split
  rw [hd, splitL_append_sep ',' _ _ (by decide)]
  rfl

/-- C9: a row with a column name read while a table is open yields a column of the
result that is auto-incremental exactly when one of the comma-separated tokens of its
attributes cell, trimmed and not taken as a default token, is in lower case one of
`ai`, `autoinc`, `auto_inc`, `auto_incremental`; the attributes cell that
`getColumnAttributes` writes for an auto-incremental column is read as auto-incremental. -/
theorem auto_increment_aliases (N : Normalizer) (g : String) (hdr : Row) (pre : List Row)
    (row : Row) (post : List Row)
    (hopen : (readRows N g 0 (hdr :: pre) ReadState.init).tableFinished = false)
    (hname : trimSpace (getCellValue row 1) ≠ "") :
    ((∃ t, (readRows N g 0 (hdr :: pre) ReadState.init).lastTable = some t ∧
        readRows N g 0 (hdr :: pre ++ [row]) ReadState.init
          = { readRows N g 0 (hdr :: pre) ReadState.init with
              lastTable := some (t.AddColumn (columnOf N hdr row)) }) ∧
      (∃ t ∈ (readGroupSheet N g (hdr :: pre ++ row :: post)).1,
        columnOf N hdr row ∈ t.Columns)) ∧
    ((columnOf N hdr row).AutoIncremental = true ↔
      ∃ a ∈ (split (trimSpace (getCellValue row 5)) ',').map trimSpace,
        isDefaultToken a = false ∧
        toLower N.LowerCase a ∈ ["ai", "autoinc", "auto_inc", "auto_incremental"]) ∧
    (∀ c : Column, c.AutoIncremental = true →
      getCellValue row 5 = join (getColumnAttributes c) ", " →
      (columnOf N hdr row).AutoIncremental = true) := by
  refine ⟨column_row_read N g hdr pre row post hopen hname, ?_, ?_⟩
  · exact readColumn_autoInc N _ row
  · intro c hc hcell
    rw [columnOf, readColumn_autoInc, hcell]
    by_cases hd : c.DefaultValue = ""
    · refine ⟨"autoInc", ?_, by decide, by rw [toLower_autoInc]; decide⟩
      simp only [getColumnAttributes, hc, hd]
      decide
    · obtain ⟨rest, hrest⟩ := autoInc_token_first ("default:" ++ c.DefaultValue)
      refine ⟨"autoInc", ?_, by decide, by rw [toLower_autoInc]; decide⟩
      have : join (getColumnAttributes c) ", "
          = "autoInc" ++ ", " ++ ("default:" ++ c.DefaultValue) := by
        simp [getColumnAttributes, hc, hd, join, String.intercalate, String.intercalate.go]
      rw [this, hrest]
      simp only [List.map_cons, List.mem_cons]
      left
      decide

/-- C9, witness: the row of column `id`, whose attributes cell is `autoInc`, is read as
an auto-incremental column, and so is the row whose attributes cell is
`x, AUTO_\u0130NC`: the lower case of the second token in Go is `auto_inc`. -/
theorem auto_increment_aliases_witness :
    (readRows specNormalizer "g" 0 (exHeader :: [exTableRow]) ReadState.init).tableFinished
        = false ∧
    trimSpace (getCellValue exColumnRow 1) ≠ "" ∧
    (columnOf specNormalizer exHeader exColumnRow).AutoIncremental = true ∧
    (columnOf specNormalizer exHeader exDottedRow).AutoIncremental = true :=
  ⟨by decide, by decide,
    (auto_increment_aliases specNormalizer "g" exHeader [exTableRow] exColumnRow []
      (by decide) (by decide)).2.1.mpr ⟨"autoInc", by decide, by decide, by decide⟩,
    (auto_increment_aliases specNormalizer "g" exHeader [exTableRow] exDottedRow []
      (by decide) (by decide)).2.1.mpr
      ⟨"AUTO_\u0130NC", by decide, by decide, by decide⟩⟩

theorem readColumn_default (N : Normalizer) (nn : Bool) (row : Row) :
    (readColumn N nn row).DefaultValue
      = (readAttrs N (readColumn N nn row).Type_ (trimSpace (getCellValue row 5))).1 := rfl

theorem readColumn_attrs (N : Normalizer) (nn : Bool) (row : Row) :
    (readColumn N nn row).AutoIncremental
      = (readAttrs N (readColumn N nn row).Type_
          (trimSpace (getCellValue row 5))).2.ContainsAny autoIncAliases := rfl

/-- C10 (amended): for a row with a column name read while a table is open, whose column
is of a non-boolean type: DefaultValue is the text after the first `:` of the last token
of the attributes cell that, trimmed, starts with `default` and holds a `:` (a token
`default:<value>` gives `<value>` when no such token comes after it), and is empty when
there is no such token; the tokens taken as default values are not among the
attributes, which are the other trimmed tokens in lower case. -/
theorem default_token (N : Normalizer) (g : String) (hdr : Row) (pre : List Row)
    (row : Row) (post : List Row)
    (hopen : (readRows N g 0 (hdr :: pre) ReadState.init).tableFinished = false)
    (hname : trimSpace (getCellValue row 1) ≠ "")
    (hbool : N.IsBooleanType (columnOf N hdr row).Type_ = false) :
    ((∃ t, (readRows N g 0 (hdr :: pre) ReadState.init).lastTable = some t ∧
        readRows N g 0 (hdr :: pre ++ [row]) ReadState.init
          = { readRows N g 0 (hdr :: pre) ReadState.init with
              lastTable := some (t.AddColumn (columnOf N hdr row)) }) ∧
      (∃ t ∈ (readGroupSheet N g (hdr :: pre ++ row :: post)).1,
        columnOf N hdr row ∈ t.Columns)) ∧
    (∀ (before : List String) (tok : String) (after : List String) (h v : String),
      split (trimSpace (getCellValue row 5)) ',' = before ++ tok :: after →
      trimSpace tok = h ++ ":" ++ v → ':' ∉ h.data → hasPrefix (trimSpace tok) "default" = true →
      (∀ a ∈ after, isDefaultToken (trimSpace a) = false) →
      (columnOf N hdr row).DefaultValue = v) ∧
    ((∀ a ∈ split (trimSpace (getCellValue row 5)) ',', isDefaultToken (trimSpace a) = false) →
      (columnOf N hdr row).DefaultValue = "") ∧
    (readAttrs N (columnOf N hdr row).Type_ (trimSpace (getCellValue row 5))).2.items
      = (((split (trimSpace (getCellValue row 5)) ',').map trimSpace).filter
          (fun a => !isDefaultToken a)).map (toLower N.LowerCase) ∧
    (columnOf N hdr row).AutoIncremental
      = (readAttrs N (columnOf N hdr row).Type_
          (trimSpace (getCellValue row 5))).2.ContainsAny
            ["ai", "autoinc", "auto_inc", "auto_incremental"] := by
  refine ⟨column_row_read N g hdr pre row post hopen hname, ?_, ?_, ?_, ?_⟩
  · intro before tok after h v hs htok hh hp hafter
    have hsp : splitN2 (trimSpace tok) ':' = [h, v] := by
      rw [htok]; exact splitN2_append h v hh
    have hdef : isDefaultToken (trimSpace tok) = true := by
      simp [isDefaultToken, hp, hsp]
    rw [columnOf, readColumn_default,
      readAttrs_last_default N _ _ before tok after hs hdef hafter, hsp]
    have hb : N.IsBooleanType (readColumn N
        (decide (trimSpace (getCellValue hdr 4) = headerNotNull)) row).Type_ = false := hbool
    simp [fixDefaultValue, hb]
  · intro hnone
    rw [columnOf, readColumn_default]
    unfold readAttrs
    rw [foldl_attrs_no_default N _ _ hnone]
  · exact readAttrs_items N _ _
  · rfl

/-- C10, witness: the row of column `org_id`, whose attributes cell is
`default:a:b, AI`, is read with the default value `a:b`. -/
theorem default_token_witness :
    (readRows specNormalizer "g" 0 (exHeader :: [exTableRow]) ReadState.init).tableFinished
        = false ∧
    trimSpace (getCellValue exRefRow 1) ≠ "" ∧
    specNormalizer.IsBooleanType (columnOf specNormalizer exHeader exRefRow).Type_ = false ∧
    (columnOf specNormalizer exHeader exRefRow).DefaultValue = "a:b" :=
  ⟨by decide, by decide, by decide,
    (default_token specNormalizer "g" exHeader [exTableRow] exRefRow []
      (by decide) (by decide) (by decide)).2.1 [] "default:a:b" [" AI"] "default" "a:b"
      (by decide) (by decide) (by decide) (by decide) (by decide)⟩

/-- C10, counterexample: the attributes cell `default:a, defaultx:b` of a column of type
`int` holds one token of the form `default:<value>`, with value `a`, yet the default
value read is `b`. -/
theorem default_token_counterexample :
    (split (trimSpace (getCellValue exTwoDefaultsRow 5)) ',').map trimSpace
      = ["default:a", "defaultx:b"] ∧
    specNormalizer.IsBooleanType (columnOf specNormalizer exHeader exTwoDefaultsRow).Type_
      = false ∧
    (columnOf specNormalizer exHeader exTwoDefaultsRow).DefaultValue = "b" ∧
    (readGroupSheet specNormalizer "g" [exHeader, exTableRow, exTwoDefaultsRow]).1
      = [{ Name := "user", Description := "users", Group := "g", ClassName := "Account",
           Columns := [{ Name := "code", Type_ := "int", Description := "", Size := 0,
                         Scale := 0, Nullable := false, PrimaryKey := false,
                         UniqueKey := false, AutoIncremental := false, DefaultValue := "b",
                         Ref := none }] }] := by
  decide

/-! ### Reading the rows that `fillGroupSheet` writes -/

theorem columnRow_cells (x : Xlsx) (c : Column) :
    getCellValue (columnRow x c) 0 = getColumnReference c ∧
    getCellValue (columnRow x c) 1 = c.Name ∧
    getCellValue (columnRow x c) 2 = formatType c ∧
    getCellValue (columnRow x c) 3
      = BoolToString c.PrimaryKey "P" (BoolToString c.UniqueKey "U" "") ∧
    getCellValue (columnRow x c) 4
      = (if x.UseNotNullColumn then BoolToString (!c.Nullable) "O" ""
         else BoolToString c.Nullable "O" "") ∧
    getCellValue (columnRow x c) 5 = join (getColumnAttributes c) ", " ∧
    getCellValue (columnRow x c) 6 = trimSpace c.Description := by
  refine ⟨?_, rfl, rfl, rfl, rfl, rfl, rfl⟩
  show (if getColumnReference c ≠ "" then getColumnReference c else "") = _
  split_ifs with h
  · rfl
  · exact (by simpa using h : getColumnReference c = "").symm

theorem foldl_columns (N : Normalizer) (x : Xlsx) (g : String) (cols : List Column)
    (hcols : ∀ c ∈ cols, trimSpace c.Name ≠ "") :
    ∀ (st : ReadState) (t : Table), st.tableFinished = false → st.lastTable = some t →
      (cols.map (columnRow x)).foldl (readStep N g) st
        = { st with
            lastTable := some
              { t with
                Columns := t.Columns
                  ++ cols.map (fun c => readColumn N st.useNotNullColumn (columnRow x c)) } } := by
  induction cols with
  | nil =>
    intro st t _ hl
    simp [← hl]
  | cons c cs ih =>
    intro st t hopen hl
    have hn : trimSpace (getCellValue (columnRow x c) 1) ≠ "" := by
      rw [(columnRow_cells x c).2.1]; exact hcols c (List.mem_cons_self _ _)
    rw [List.map_cons, List.foldl_cons, readStep_column N g st _ t hopen hn hl]
    rw [ih (fun c' hc' => hcols c' (List.mem_cons_of_mem _ hc'))
      { st with lastTable := some (t.AddColumn (readColumn N st.useNotNullColumn (columnRow x c))) }
      (t.AddColumn (readColumn N st.useNotNullColumn (columnRow x c))) hopen rfl]
    simp [Table.AddColumn]

theorem read_fillTables (N : Normalizer) (x : Xlsx) (g m : String) (n : Nat)
    (tables : List Table) :
    ∀ (i : Nat) (st : ReadState), st.tableFinished = true → i + tables.length = n →
      (∀ t ∈ tables, t.Group = g →
        trimSpace t.Name ≠ "" ∧ ∀ c ∈ t.Columns, trimSpace c.Name ≠ "") →
      readFinish ((fillTables x g n i tables).foldl (readStep N m) st)
        = st.tables
          ++ (tables.filter (fun t => decide (t.Group = g))).map
              (rereadTable N x m st.useNotNullColumn) := by
  induction tables with
  | nil =>
    intro i st hfin _ _
    simp [fillTables, readFinish, hfin]
  | cons t ts ih =>
    intro i st hfin hlen hts
    have hlen' : (i + 1) + ts.length = n := by simp at hlen; omega
    have hts' : ∀ t' ∈ ts, t'.Group = g →
        trimSpace t'.Name ≠ "" ∧ ∀ c ∈ t'.Columns, trimSpace c.Name ≠ "" :=
      fun t' ht' => hts t' (List.mem_cons_of_mem _ ht')
    unfold fillTables
    by_cases hg : t.Group = g
    · obtain ⟨hname, hcols⟩ := hts t (List.mem_cons_self _ _) hg
      have hn0 : trimSpace (getCellValue (tableRow t) 0) ≠ "" := hname
      simp only [hg, ne_eq, not_true_eq_false, if_false, List.foldl_append, List.foldl_cons]
      rw [readStep_open N m st (tableRow t) hfin hn0]
      rw [foldl_columns N x m t.Columns hcols _ _ rfl rfl]
      have hfilter : (t :: ts).filter (fun t => decide (t.Group = g))
          = t :: ts.filter (fun t => decide (t.Group = g)) := by
        simp [List.filter_cons, hg]
      rw [hfilter]
      by_cases hi : (i : Int) < (n : Int) - 1
      · simp only [hi, if_true, List.foldl_cons, List.foldl_nil]
        rw [readStep_close N m _ [] rfl rfl]
        rw [ih (i + 1) _ rfl hlen' hts']
        simp [rereadTable, tableRow, getCellValue, getCell]
        rfl
      · have hnil : ts = [] := by
          have : ts.length = 0 := by simp at hlen; omega
          exact List.length_eq_zero.mp this
        subst hnil
        simp [hi, fillTables, readFinish, rereadTable, tableRow, getCellValue, getCell]
        rfl
    · have hfilter : (t :: ts).filter (fun t => decide (t.Group = g))
          = ts.filter (fun t => decide (t.Group = g)) := by
        simp [List.filter_cons, hg]
      rw [hfilter]
      simp only [hg, ne_eq, not_false_eq_true, if_true, List.nil_append]
      exact ih (i + 1) st hfin hlen' hts'

theorem headerRow_polarity (x : Xlsx) :
    decide (trimSpace (getCellValue (headerRow x) 4) = headerNotNull) = x.UseNotNullColumn := by
  cases h : x.UseNotNullColumn
  · simp only [headerRow, getCellValue, getCell, h, TernaryString]; decide
  · simp only [headerRow, getCellValue, getCell, h, TernaryString]; decide

/-- Reading the sheet that `fillGroupSheet` writes for a group whose tables and columns
have names: each table of the group is read back, in order. -/
theorem read_fill (N : Normalizer) (x : Xlsx) (S : Schema) (g m : String)
    (h : ∀ t ∈ S.Tables, t.Group = g →
      trimSpace t.Name ≠ "" ∧ ∀ c ∈ t.Columns, trimSpace c.Name ≠ "") :
    (readGroupSheet N m (fillGroupSheet x [] S g)).1
      = (S.Tables.filter (fun t => decide (t.Group = g))).map
          (rereadTable N x m x.UseNotNullColumn) := by
  simp only [readGroupSheet, fillGroupSheet, List.nil_append]
  rw [state_before]
  rw [read_fillTables N x g m S.Tables.length S.Tables 0 (afterHeader (headerRow x)) rfl
    (by simp) h]
  have : (afterHeader (headerRow x)).useNotNullColumn = x.UseNotNullColumn :=
    headerRow_polarity x
  rw [this]
  rfl

/-! ### Reading the row written for a column -/

theorem isPrefixOf_append (a b : List Char) : a.isPrefixOf (a ++ b) = true := by
  induction a with
  | nil => simp [List.isPrefixOf]
  | cons c cs ih => simp [List.isPrefixOf, ih]

theorem defaultTok_data (d : String) :
    ("default:" ++ d).data = "default".data ++ ':' :: d.data := rfl

theorem defaultTok_split (d : String) : splitN2 ("default:" ++ d) ':' = ["default", d] := by
  have : "default:" ++ d = "default" ++ ":" ++ d := rfl
  rw [this]
  exact splitN2_append "default" d (by decide)

theorem defaultTok_isDefault (d : String) : isDefaultToken ("default:" ++ d) = true := by
  simp only [isDefaultToken, Bool.and_eq_true, decide_eq_true_eq]
  refine ⟨?_, by rw [defaultTok_split]; rfl⟩
  unfold hasPrefix
  rw [defaultTok_data]
  exact isPrefixOf_append _ _

theorem defaultTok_no_comma (d : String) (h : ',' ∉ d.data) :
    ',' ∉ ("default:" ++ d).data := by
  rw [defaultTok_data]
  intro hm
  rcases List.mem_append.mp hm with hm | hm
  · exact absurd hm (by decide)
  · rcases List.mem_cons.mp hm with hm | hm
    · exact absurd hm (by decide)
    · exact h hm

theorem split_of_not_mem (s : String) (sep : Char) (h : sep ∉ s.data) : split s sep = [s] := by
  simp [split, splitL_of_not_mem sep s.data h]

/-- The default value and the attributes read from the attributes cell written for a
column. -/
theorem readAttrs_written (N : Normalizer) (ty : String) (c : Column)
    (h1 : ',' ∉ c.DefaultValue.data)
    (h2 : trimSpace ("default:" ++ c.DefaultValue) = "default:" ++ c.DefaultValue) :
    (readAttrs N ty (trimSpace (join (getColumnAttributes c) ", "))).1
      = (if c.DefaultValue = "" then "" else fixDefaultValue N ty c.DefaultValue) ∧
    (readAttrs N ty (trimSpace (join (getColumnAttributes c) ", "))).2.ContainsAny
        autoIncAliases = c.AutoIncremental := by
  have hD := defaultTok_isDefault c.DefaultValue
  have hsp := defaultTok_split c.DefaultValue
  have hnc := defaultTok_no_comma c.DefaultValue h1
  by_cases hd : c.DefaultValue = ""
  · cases hai : c.AutoIncremental
    · simp only [getColumnAttributes, hai, hd]
      exact ⟨rfl, rfl⟩
    · simp only [getColumnAttributes, hai, hd]
      exact ⟨rfl, rfl⟩
  · cases hai : c.AutoIncremental
    · have hj : join (getColumnAttributes c) ", " = "default:" ++ c.DefaultValue := by
        simp [getColumnAttributes, hai, hd, join, String.intercalate, String.intercalate.go]
      rw [hj, h2]
      unfold readAttrs
      rw [split_of_not_mem _ ',' hnc]
      simp only [List.foldl_cons, List.foldl_nil]
      rw [readAttr_default N ty _ _ (by rw [h2]; exact hD), h2, hsp]
      simp [hd, NewStringSet, StringSet.ContainsAny]
    · have hj : join (getColumnAttributes c) ", "
          = "autoInc" ++ ", " ++ ("default:" ++ c.DefaultValue) := by
        simp [getColumnAttributes, hai, hd, join, String.intercalate, String.intercalate.go]
      have hfix := trimSpaceL_fixed _ ((str_eq_iff _ _).mp h2)
      have hne : ("default:" ++ c.DefaultValue).data ≠ [] := by
        rw [defaultTok_data]; simp
      have htrim : trimSpace ("autoInc" ++ ", " ++ ("default:" ++ c.DefaultValue))
          = "autoInc" ++ ", " ++ ("default:" ++ c.DefaultValue) := by
        rw [str_eq_iff]
        exact trimSpaceL_append 'a' "utoInc, ".data _ (by decide) hne hfix.2
      have hsplit : split ("autoInc" ++ ", " ++ ("default:" ++ c.DefaultValue)) ','
          = ["autoInc", " " ++ ("default:" ++ c.DefaultValue)] := by
        have e : ("autoInc" ++ ", " ++ ("default:" ++ c.DefaultValue)).data
            = "autoInc".data ++ ',' :: (" " ++ ("default:" ++ c.DefaultValue)).data := rfl
        have hnc' : ',' ∉ (" " ++ ("default:" ++ c.DefaultValue)).data := by
          intro hm
          rcases List.mem_cons.mp (show ',' ∈ ' ' :: ("default:" ++ c.DefaultValue).data from hm)
            with hm | hm
          · exact absurd hm (by decide)
          · exact hnc hm
        unfold split
        rw [e, splitL_append_sep ',' _ _ (by decide), splitL_of_not_mem ',' _ hnc']
        rfl
      have htok : trimSpace (" " ++ ("default:" ++ c.DefaultValue))
          = "default:" ++ c.DefaultValue := by
        rw [str_eq_iff]
        show trimSpaceL (' ' :: ("default:" ++ c.DefaultValue).data) = _
        rw [trimSpaceL_space_cons]
        exact (str_eq_iff _ _).mp h2
      rw [hj, htrim]
      unfold readAttrs
      rw [hsplit]
      simp only [List.foldl_cons, List.foldl_nil]
      rw [readAttr_other N ty _ "autoInc" (by decide),
        readAttr_default N ty _ _ (by rw [htok]; exact hD), htok, hsp]
      simp only [List.getD_cons_succ, List.getD_cons_zero, hd, if_false, true_and]
      rw [show trimSpace "autoInc" = "autoInc" from by decide, toLower_autoInc]
      decide

theorem readRef_written (c : Column) (h : RefShaped c.Ref) :
    readRef (trimSpace (getColumnReference c)) = c.Ref := by
  unfold getColumnReference
  cases hr : c.Ref with
  | none => rfl
  | some r =>
    rw [hr] at h
    obtain ⟨ht, hc, htrim⟩ := h
    simp only []
    rw [htrim]
    have hdata : (r.Table ++ "." ++ r.Column).data = r.Table.data ++ '.' :: r.Column.data := by
      simp [String.data_append]
    have hne : r.Table ++ "." ++ r.Column ≠ "" := by
      rw [str_ne_empty_iff, hdata]; simp
    have hsplit : split (r.Table ++ "." ++ r.Column) '.' = [r.Table, r.Column] := by
      unfold split
      rw [hdata, splitL_append_sep '.' _ _ ht, splitL_of_not_mem '.' _ hc]
      rfl
    simp [readRef, hne, hsplit]

/-- The column read from the row written for a shaped column. -/
theorem readColumn_written (N : Normalizer) (x : Xlsx) (c : Column) (h : c.Shaped) :
    readColumn N x.UseNotNullColumn (columnRow x c) = reread N c := by
  obtain ⟨hn, _, hkeys, hcomma, hdef, href⟩ := h
  obtain ⟨c0, c1, c2, c3, c4, c5, c6⟩ := columnRow_cells x c
  have hattrs := readAttrs_written N (N.ParseType (trimSpace (formatType c))).1 c hcomma hdef
  have hnull : TernaryBool x.UseNotNullColumn
      (decide (trimSpace (getCellValue (columnRow x c) 4) = ""))
      (decide (trimSpace (getCellValue (columnRow x c) 4) ≠ "")) = c.Nullable := by
    rw [c4]
    cases x.UseNotNullColumn <;> cases c.Nullable <;> decide
  have hpk : decide (trimSpace (getCellValue (columnRow x c) 3) = "P") = c.PrimaryKey := by
    rw [c3]
    cases c.PrimaryKey <;> cases c.UniqueKey <;> decide
  have huk : decide (trimSpace (getCellValue (columnRow x c) 3) = "U") = c.UniqueKey := by
    rw [c3]
    cases hp : c.PrimaryKey <;> cases hu : c.UniqueKey
    · decide
    · decide
    · decide
    · exact absurd ⟨hp, hu⟩ hkeys
  unfold readColumn reread
  simp only [Column.mk.injEq]
  refine ⟨?_, ?_, ?_, ?_, ?_, ?_, ?_, ?_, ?_, ?_, ?_⟩
  · rw [c1, hn]
  · rw [c2]
  · rw [c6, trimSpace_idem]
  · rw [c2]
  · rw [c2]
  · exact hnull
  · exact hpk
  · exact huk
  · rw [c2, c5]; exact hattrs.2
  · rw [c2, c5]; exact hattrs.1
  · rw [c0]; exact readRef_written c href

theorem reread_canonical (N : Normalizer) (c : Column) (h : c.Canonical N) : reread N c = c := by
  obtain ⟨_, hdesc, hty, hfix⟩ := h
  unfold reread
  rw [hty, hdesc]
  have : (if c.DefaultValue = "" then ""
      else fixDefaultValue N c.Type_ c.DefaultValue) = c.DefaultValue := by
    rcases hfix with hfix | hfix
    · simp [hfix]
    · split_ifs with he
      · exact he.symm
      · exact hfix
  simp only [this]

/-- C1 (amended): for every schema and every group of it whose tables have a non-empty
name and a description without white space around them, and whose columns are canonical
(a non-empty name and a description without white space around them, not both keys, a
default value without `,` and without white space at its end that `fixDefaultValue`
keeps, a reference without `.` in its parts and without white space around its cell, and
a type, size and scale that `ParseType` reads back from the type cell), reading the sheet
that `fillGroupSheet` writes for the group returns the tables of the group in the same
order, with the same Name, Description, Group and columns and an empty ClassName. -/
theorem xlsx_round_trip (N : Normalizer) (x : Xlsx) (S : Schema) (g : String)
    (h : ∀ t ∈ S.Tables, t.Group = g → t.Canonical N) :
    (readGroupSheet N g (fillGroupSheet x [] S g)).1
      = (S.Tables.filter (fun t => decide (t.Group = g))).map
          (fun t => { t with ClassName := "" }) := by
  rw [read_fill N x S g g]
  · apply List.map_congr_left
    intro t ht
    obtain ⟨ht1, ht2⟩ := List.mem_filter.mp ht
    have hg : t.Group = g := by simpa using ht2
    obtain ⟨hn, _, hd, hc⟩ := h t ht1 hg
    have hcols : t.Columns.map (fun c => readColumn N x.UseNotNullColumn (columnRow x c))
        = t.Columns := by
      conv_rhs => rw [← List.map_id t.Columns]
      apply List.map_congr_left
      intro c hcm
      rw [readColumn_written N x c (hc c hcm).1, reread_canonical N c (hc c hcm)]
      rfl
    simp only [rereadTable, hcols, hn, hd, hg]
  · intro t ht hg
    obtain ⟨hn, hne, _, hc⟩ := h t ht hg
    refine ⟨by rw [hn]; exact hne, fun c hcm => ?_⟩
    obtain ⟨⟨hcn, hcne, _⟩, _⟩ := hc c hcm
    rw [hcn]; exact hcne

/-- C1, witness: the tables of group `common` of the example schema are read back from
their sheet. -/
theorem xlsx_round_trip_witness :
    (∀ t ∈ exSchema.Tables, t.Group = "common" → t.Canonical specNormalizer) ∧
    (readGroupSheet specNormalizer "common" (fillGroupSheet exXlsx [] exSchema "common")).1
      = (exSchema.Tables.filter (fun t => decide (t.Group = "common"))).map
          (fun t => { t with ClassName := "" }) :=
  ⟨by decide, xlsx_round_trip specNormalizer exXlsx exSchema "common" (by decide)⟩

/-- C1, counterexample: a schema of one table with one column that is both a primary
key and a unique key; the column read back from its sheet is not a unique key. -/
theorem xlsx_round_trip_counterexample :
    (exSchemaBothKeys.Tables.map (fun t => t.Name)).Nodup ∧
    (∀ t ∈ exSchemaBothKeys.Tables, t.Columns ≠ []) ∧
    (exSchemaBothKeys.Tables.map (fun t => t.Columns.map (fun c => c.UniqueKey))) = [[true]] ∧
    ((readGroupSheet specNormalizer "common"
        (fillGroupSheet exXlsx [] exSchemaBothKeys "common")).1.map
      (fun t => t.Columns.map (fun c => c.UniqueKey))) = [[false]] ∧
    (readGroupSheet specNormalizer "common"
        (fillGroupSheet exXlsx [] exSchemaBothKeys "common")).1
      ≠ (exSchemaBothKeys.Tables.filter (fun t => decide (t.Group = "common"))).map
          (fun t => { t with ClassName := "" }) := by
  decide

/-! ### The columns that `readGroupSheet` reads -/

theorem fixDefaultValue_bool (N : Normalizer) (ty d : String) (hb : N.IsBooleanType ty = true) :
    fixDefaultValue N ty d = "true" ∨ fixDefaultValue N ty d = "false" := by
  unfold fixDefaultValue TernaryString
  rw [if_pos hb]
  split_ifs
  · exact Or.inl rfl
  · exact Or.inr rfl

theorem fixDefaultValue_congr (N : Normalizer) (a b d : String)
    (h : N.IsBooleanType a = N.IsBooleanType b) :
    fixDefaultValue N a d = fixDefaultValue N b d := by
  unfold fixDefaultValue; rw [h]

theorem defaultShaped_empty (N : Normalizer) (ty : String) : DefaultShaped N ty "" :=
  ⟨by decide, by decide, Or.inl rfl⟩

theorem readAttr_shaped (N : Normalizer) (ty : String) (a : String) (ha : ',' ∉ a.data)
    (acc : String × StringSet) (hacc : DefaultShaped N ty acc.1) :
    DefaultShaped N ty (readAttr N ty acc a).1 := by
  cases hd : isDefaultToken (trimSpace a) with
  | false => rw [readAttr_other N ty acc a hd]; exact hacc
  | true =>
    rw [readAttr_default N ty acc a hd]
    show DefaultShaped N ty (fixDefaultValue N ty ((splitN2 (trimSpace a) ':').getD 1 ""))
    simp only [isDefaultToken, Bool.and_eq_true, decide_eq_true_eq] at hd
    have hlen : (splitN2L ':' (trimSpaceL a.data)).length = 2 := by
      have := hd.2
      simpa [splitN2] using this
    obtain ⟨h, b, hab, _, hsp⟩ := splitN2L_two ':' _ hlen
    have hv : (splitN2 (trimSpace a) ':').getD 1 "" = ⟨b⟩ := by
      show ((splitN2L ':' (trimSpaceL a.data)).map String.mk).getD 1 "" = _
      rw [hsp]; rfl
    rw [hv]
    cases hb : N.IsBooleanType ty with
    | true =>
      rcases fixDefaultValue_bool N ty ⟨b⟩ hb with e | e
      · rw [e]
        exact ⟨by decide, by decide, Or.inr (by simp [fixDefaultValue, hb, TernaryString])⟩
      · rw [e]
        exact ⟨by decide, by decide, Or.inr (by simp [fixDefaultValue, hb, TernaryString])⟩
    | false =>
      have hfx : fixDefaultValue N ty ⟨b⟩ = ⟨b⟩ := by simp [fixDefaultValue, hb]
      rw [hfx]
      refine ⟨?_, ?_, Or.inr hfx⟩
      · intro hm
        apply ha
        apply trimSpaceL_mem
        rw [hab]
        simp [show ',' ∈ b from hm]
      · by_cases hbe : b = []
        · subst hbe; decide
        · rw [str_eq_iff]
          have hfix := (trimSpaceL_fixed _ (trimSpaceL_idem a.data)).2
          rw [hab] at hfix
          have hfix' : (h ++ [':'] ++ b).rdropWhile isSpace = h ++ [':'] ++ b := by
            simpa using hfix
          have hb' := rdropWhile_suffix_fixed isSpace (h ++ [':']) b hbe hfix'
          exact trimSpaceL_append 'd' "efault:".data b (by decide) hbe hb'

theorem split_no_sep (s : String) (sep : Char) : ∀ a ∈ split s sep, sep ∉ a.data := by
  intro a ha
  obtain ⟨l, hl, rfl⟩ := List.mem_map.mp ha
  exact splitL_no_sep sep s.data l hl

theorem foldl_attrs_shaped (N : Normalizer) (ty : String) (l : List String)
    (hl : ∀ a ∈ l, ',' ∉ a.data) :
    ∀ acc : String × StringSet, DefaultShaped N ty acc.1 →
      DefaultShaped N ty (l.foldl (readAttr N ty) acc).1 := by
  induction l with
  | nil => intro acc h; exact h
  | cons a as ih =>
    intro acc h
    rw [List.foldl_cons]
    exact ih (fun b hb => hl b (List.mem_cons_of_mem _ hb)) _
      (readAttr_shaped N ty a (hl a (List.mem_cons_self _ _)) acc h)

theorem readAttrs_shaped (N : Normalizer) (ty : String) (attrValue : String) :
    DefaultShaped N ty (readAttrs N ty attrValue).1 :=
  foldl_attrs_shaped N ty _ (split_no_sep attrValue ',') _ (defaultShaped_empty N ty)

theorem readRef_shaped (tn : String) (h : trimSpace tn = tn) : RefShaped (readRef tn) := by
  by_cases hne : tn ≠ ""
  · by_cases hlen : (split tn '.').length = 2
    · have hlen' : (splitL '.' tn.data).length = 2 := by simpa [split] using hlen
      obtain ⟨t, c, hsp⟩ : ∃ t c, splitL '.' tn.data = [t, c] := by
        match hs : splitL '.' tn.data, hlen' with
        | [t, c], _ => exact ⟨t, c, rfl⟩
      have ht := splitL_no_sep '.' tn.data t (by rw [hsp]; simp)
      have hc := splitL_no_sep '.' tn.data c (by rw [hsp]; simp)
      have hdata := splitL_two '.' tn.data t c hsp
      have hsplit : split tn '.' = [⟨t⟩, ⟨c⟩] := by simp [split, hsp]
      have htn : (⟨t⟩ : String) ++ "." ++ ⟨c⟩ = tn := by
        rw [str_eq_iff, hdata]
        simp [String.data_append]
      have hr : readRef tn = some { Table := ⟨t⟩, Column := ⟨c⟩ } := by
        simp [readRef, hne, hsplit]
      rw [hr]
      show '.' ∉ t ∧ '.' ∉ c ∧
        trimSpace ((⟨t⟩ : String) ++ "." ++ ⟨c⟩) = (⟨t⟩ : String) ++ "." ++ ⟨c⟩
      rw [htn]
      exact ⟨ht, hc, h⟩
    · have hr : readRef tn = none := by simp [readRef, hlen]
      rw [hr]; trivial
  · have hr : readRef tn = none := by
      have : tn = "" := by simpa using hne
      simp [readRef, this]
    rw [hr]; trivial

theorem formatType_eq (c : Column) : formatType c = formatParsed (c.Type_, c.Size, c.Scale) := rfl

theorem reread_type (N : Normalizer) (c : Column) :
    ((reread N c).Type_, (reread N c).Size, (reread N c).Scale)
      = N.ParseType (trimSpace (formatType c)) := rfl

/-- The column read from a row with a column name and a stable type cell. -/
theorem readColumn_decoded (N : Normalizer) (nn : Bool) (row : Row)
    (hn : trimSpace (getCellValue row 1) ≠ "") (hty : TypeStable N (getCellValue row 2)) :
    (readColumn N nn row).Decoded N := by
  have hattr := readAttrs_shaped N (N.ParseType (trimSpace (getCellValue row 2))).1
    (trimSpace (getCellValue row 5))
  have hf : formatType (readColumn N nn row)
      = formatParsed (N.ParseType (trimSpace (getCellValue row 2))) := rfl
  have hf2 : formatType (reread N (readColumn N nn row))
      = formatParsed (N.ParseType (trimSpace (formatType (readColumn N nn row)))) := rfl
  refine ⟨⟨trimSpace_idem _, hn, ?_, hattr.1, hattr.2.1, ?_⟩, hattr.2.2, ?_, ?_⟩
  · simp only [readColumn, decide_eq_true_eq]
    rintro ⟨h1, h2⟩
    rw [h1] at h2
    exact absurd h2 (by decide)
  · exact readRef_shaped _ (trimSpace_idem _)
  · rw [hf2, hf]; exact hty.1
  · show N.IsBooleanType (N.ParseType (trimSpace (formatType (readColumn N nn row)))).1 = _
    rw [hf]; exact hty.2

/-! ### Writing what was read -/

theorem reread_default (N : Normalizer) (c : Column) (h : c.Decoded N) :
    (reread N c).DefaultValue = c.DefaultValue := by
  obtain ⟨_, hkept, _, hbool⟩ := h
  show (if c.DefaultValue = "" then ""
    else fixDefaultValue N (reread N c).Type_ c.DefaultValue) = c.DefaultValue
  split_ifs with he
  · exact he.symm
  · rw [fixDefaultValue_congr N _ _ _ hbool]
    rcases hkept with hk | hk
    · exact absurd hk he
    · exact hk

theorem columnRow_reread (N : Normalizer) (x : Xlsx) (c : Column) (h : c.Decoded N) :
    columnRow x (reread N c) = columnRow x c := by
  have e1 : getColumnReference (reread N c) = getColumnReference c := rfl
  have e2 : getColumnAttributes (reread N c) = getColumnAttributes c := by
    unfold getColumnAttributes
    rw [reread_default N c h]
    rfl
  have e3 : trimSpace (reread N c).Description = trimSpace c.Description :=
    trimSpace_idem _
  unfold columnRow
  rw [e1, e2, e3, h.2.2.1]
  rfl

theorem result_decoded (N : Normalizer) (m : String) (hdr : Row) (rows : List Row)
    (h : ∀ row ∈ rows, trimSpace (getCellValue row 1) ≠ "" →
      TypeStable N (getCellValue row 2)) :
    ∀ t ∈ (readGroupSheet N m (hdr :: rows)).1, t.Decoded N m := by
  apply result_all N m (fun t => t.Decoded N m)
  · intro row _ hn
    exact ⟨rfl, trimSpace_idem _, hn, fun c hc => by simp at hc⟩
  · intro row hr t hn ht
    obtain ⟨h1, h2, h3, h4⟩ := ht
    refine ⟨h1, h2, h3, ?_⟩
    intro c hc
    simp only [Table.AddColumn, List.mem_append, List.mem_singleton] at hc
    rcases hc with hc | hc
    · exact h4 c hc
    · rw [hc]
      exact readColumn_decoded N _ row hn (h row hr hn)

theorem fillTables_map (x : Xlsx) (g : String) (n : Nat) (f : Table → Table)
    (tables : List Table) :
    ∀ i : Nat,
      (∀ t ∈ tables, (f t).Group = t.Group ∧ tableRow (f t) = tableRow t ∧
        (f t).Columns.map (columnRow x) = t.Columns.map (columnRow x)) →
      fillTables x g n i (tables.map f) = fillTables x g n i tables := by
  induction tables with
  | nil => intro i _; rfl
  | cons t ts ih =>
    intro i h
    obtain ⟨h1, h2, h3⟩ := h t (List.mem_cons_self _ _)
    simp only [List.map_cons, fillTables]
    rw [h1, h2, h3, ih (i + 1) (fun t' ht' => h t' (List.mem_cons_of_mem _ ht'))]

/-- Writing the tables read from a sheet, reading them and writing them again gives the
same sheet, when the type cells of the rows with a column name are stable. -/
theorem fill_read_fixed (N : Normalizer) (x : Xlsx) (S : Schema) (m : String)
    (tables : List Table) (h : ∀ t ∈ tables, t.Decoded N m) :
    fillGroupSheet x []
        { S with Tables := (readGroupSheet N m
            (fillGroupSheet x [] { S with Tables := tables } m)).1 } m
      = fillGroupSheet x [] { S with Tables := tables } m := by
  have hnames : ∀ t ∈ ({ S with Tables := tables } : Schema).Tables, t.Group = m →
      trimSpace t.Name ≠ "" ∧ ∀ c ∈ t.Columns, trimSpace c.Name ≠ "" := by
    intro t ht _
    obtain ⟨_, h2, h3, h4⟩ := h t ht
    refine ⟨by rw [h2]; exact h3, fun c hc => ?_⟩
    obtain ⟨⟨hc1, hc2, _⟩, _⟩ := h4 c hc
    rw [hc1]; exact hc2
  rw [read_fill N x _ m m hnames]
  have hfilter : (({ S with Tables := tables } : Schema).Tables.filter
      (fun t => decide (t.Group = m))) = tables := by
    apply List.filter_eq_self.mpr
    intro t ht
    simpa using (h t ht).1
  rw [hfilter]
  simp only [fillGroupSheet, List.nil_append, List.length_map]
  rw [fillTables_map x m tables.length (rereadTable N x m x.UseNotNullColumn) tables 0]
  intro t ht
  obtain ⟨h1, h2, _, h4⟩ := h t ht
  refine ⟨h1.symm, ?_, ?_⟩
  · simp only [tableRow, rereadTable, h2, trimSpace_idem]
  · simp only [rereadTable, List.map_map]
    apply List.map_congr_left
    intro c hc
    simp only [Function.comp]
    rw [readColumn_written N x c (h4 c hc).1, columnRow_reread N x c (h4 c hc)]

theorem fillTables_rows (x : Xlsx) (g : String) (n : Nat) (tables : List Table) :
    ∀ i : Nat, ∀ row ∈ fillTables x g n i tables, trimSpace (getCellValue row 1) ≠ "" →
      ∃ t ∈ tables, t.Group = g ∧ ∃ c ∈ t.Columns, row = columnRow x c := by
  induction tables with
  | nil => intro i row hr; simp [fillTables] at hr
  | cons t ts ih =>
    intro i row hr hn
    unfold fillTables at hr
    rcases List.mem_append.mp hr with hr | hr
    · by_cases hg : t.Group = g
      · simp only [hg, ne_eq, not_true_eq_false, if_false] at hr
        rcases List.mem_cons.mp hr with hr | hr
        · rw [hr] at hn
          exact absurd rfl hn
        · rcases List.mem_append.mp hr with hr | hr
          · obtain ⟨c, hc, rfl⟩ := List.mem_map.mp hr
            exact ⟨t, List.mem_cons_self _ _, hg, c, hc, rfl⟩
          · have : row = [] := by
              split_ifs at hr
              · simpa using hr
              · simp at hr
            rw [this] at hn
            exact absurd (by decide) hn
      · simp [hg] at hr
    · obtain ⟨t', ht', hg', c, hc, hrow⟩ := ih (i + 1) row hr hn
      exact ⟨t', List.mem_cons_of_mem _ ht', hg', c, hc, hrow⟩

/-! ## Boolean defaults, permissive decoding, decoded tables -/

/-- C11: for a boolean-like column type `fixDefaultValue` gives `true` when the default
text is exactly `true` or `1` and `false` otherwise, so its result is one of the two
literals and applying it again changes nothing; for any other type it gives the text
back unchanged. -/
theorem fix_default_value (N : Normalizer) (colType v : String) :
    (N.IsBooleanType colType = true →
      ((v = "true" ∨ v = "1") → fixDefaultValue N colType v = "true") ∧
      (¬ (v = "true" ∨ v = "1") → fixDefaultValue N colType v = "false") ∧
      (fixDefaultValue N colType v = "true" ∨ fixDefaultValue N colType v = "false") ∧
      fixDefaultValue N colType (fixDefaultValue N colType v) = fixDefaultValue N colType v) ∧
    (N.IsBooleanType colType = false → fixDefaultValue N colType v = v) := by
  refine ⟨fun hb => ⟨?_, ?_, fixDefaultValue_bool N colType v hb, ?_⟩, fun hb => ?_⟩
  · intro h
    simp only [fixDefaultValue, hb, if_true, TernaryString]
    rcases h with h | h <;> simp [h]
  · intro h
    simp only [fixDefaultValue, hb, if_true, TernaryString]
    have h1 : v ≠ "true" := fun e => h (Or.inl e)
    have h2 : v ≠ "1" := fun e => h (Or.inr e)
    simp [h1, h2]
  · rcases fixDefaultValue_bool N colType v hb with e | e
    · rw [e]; simp [fixDefaultValue, hb, TernaryString]
    · rw [e]; simp [fixDefaultValue, hb, TernaryString]
  · simp [fixDefaultValue, hb]

/-- C11, witness: for the type `boolean` the default text `1` becomes `true`, and for the
type `int` it stays `1`. -/
theorem fix_default_value_witness :
    specNormalizer.IsBooleanType "boolean" = true ∧
    specNormalizer.IsBooleanType "int" = false ∧
    fixDefaultValue specNormalizer "boolean" "1" = "true" ∧
    fixDefaultValue specNormalizer "int" "1" = "1" :=
  ⟨by decide, by decide,
    ((fix_default_value specNormalizer "boolean" "1").1 (by decide)).1 (Or.inr rfl),
    (fix_default_value specNormalizer "int" "1").2 (by decide)⟩

/-- C12: for every sheet, whatever its rows and cells, `readGroupSheet` returns its
table list with a nil error; `getCell` gives the cell of an index inside the row and nil
for an index at or beyond the length of the row, where `getCellValue` is the empty
string. -/
theorem permissive_decoding (N : Normalizer) (groupName : String) (sheet : Sheet) :
    (readGroupSheet N groupName sheet).2 = none ∧
    (∃ tables, readGroupSheet N groupName sheet = (tables, none)) ∧
    (∀ (row : Row) (i : Nat), row.length ≤ i →
      getCell row i = none ∧ getCellValue row i = "") ∧
    (∀ (row : Row) (i : Nat) (h : i < row.length),
      getCell row i = some (row.get ⟨i, h⟩) ∧ getCellValue row i = row.get ⟨i, h⟩) := by
  refine ⟨rfl, ⟨_, rfl⟩, ?_, ?_⟩
  · intro row i h
    have hn : ¬ i < row.length := by omega
    simp [getCellValue, getCell, hn]
  · intro row i h
    have e : getCell row i = some (row.get ⟨i, h⟩) := by
      simp [getCell, h, List.get?_eq_get h]
    exact ⟨e, by simp only [getCellValue, e]⟩

/-- C12, witness: in a row of two cells the cell at index 1 is read and the cell at
index 6 is read as the empty string; an empty sheet gives no table and no error. -/
theorem permissive_decoding_witness :
    (["a", "b"] : Row).length ≤ 6 ∧
    getCellValue ["a", "b"] 6 = "" ∧
    getCellValue ["a", "b"] 1 = "b" ∧
    readGroupSheet specNormalizer "g" [] = ([], none) :=
  ⟨by decide,
    ((permissive_decoding specNormalizer "g" []).2.2.1 ["a", "b"] 6 (by decide)).2,
    ((permissive_decoding specNormalizer "g" []).2.2.2 ["a", "b"] 1 (by decide)).2,
    rfl⟩

theorem trimmed_ends (l : List Char) (h : trimSpaceL l = l) (hl : l ≠ []) :
    isSpace (l.head hl) = false ∧ isSpace (l.getLast hl) = false := by
  obtain ⟨h1, h2⟩ := trimSpaceL_fixed l h
  constructor
  · have := List.dropWhile_eq_self_iff.mp h1 (List.length_pos.mpr hl)
    cases l with
    | nil => exact absurd rfl hl
    | cons a t => simpa using this
  · have := List.rdropWhile_eq_self_iff.mp h2 hl
    simpa using this

/-- C14: every table that `readGroupSheet` returns for a group name has a non-empty
name that trimming leaves unchanged, whose first and last characters are no white space,
and has that group name as its Group. -/
theorem decoded_table_invariant (N : Normalizer) (groupName : String) (sheet : Sheet)
    (t : Table) (ht : t ∈ (readGroupSheet N groupName sheet).1) :
    t.Name ≠ "" ∧ trimSpace t.Name = t.Name ∧
    (∀ h : t.Name.data ≠ [],
      isSpace (t.Name.data.head h) = false ∧ isSpace (t.Name.data.getLast h) = false) ∧
    t.Group = groupName := by
  have key : t.Name ≠ "" ∧ trimSpace t.Name = t.Name ∧ t.Group = groupName := by
    cases sheet with
    | nil => simp [readGroupSheet_nil] at ht
    | cons hdr rows =>
      refine result_all N groupName
        (fun t => t.Name ≠ "" ∧ trimSpace t.Name = t.Name ∧ t.Group = groupName)
        hdr rows ?_ ?_ t ht
      · intro row _ hn
        exact ⟨hn, trimSpace_idem _, rfl⟩
      · intro row _ t' _ h'
        exact h'
  obtain ⟨h1, h2, h3⟩ := key
  exact ⟨h1, h2, fun h => trimmed_ends _ ((str_eq_iff _ _).mp h2) h, h3⟩

/-- C14, witness: the table read from the example sheet is named `user` and is in the
group of the sheet. -/
theorem decoded_table_invariant_witness :
    (∃ t ∈ (readGroupSheet specNormalizer "g" [exHeader, exTableRow, exColumnRow]).1,
      t.Name = "user" ∧ t.Group = "g") :=
  ⟨{ Name := "user", Description := "users", Group := "g", ClassName := "Account",
     Columns := [columnOf specNormalizer exHeader exColumnRow] },
    by decide,
    rfl,
    (decoded_table_invariant specNormalizer "g" [exHeader, exTableRow, exColumnRow]
      { Name := "user", Description := "users", Group := "g", ClassName := "Account",
        Columns := [columnOf specNormalizer exHeader exColumnRow] } (by decide)).2.2.2⟩

/-! ## The workbook -/

theorem readGroupSheets_eq (N : Normalizer) (sheets : List (String × Sheet)) :
    ∀ tables : List Table,
      readGroupSheets N sheets tables
        = (tables ++ sheets.flatMap (fun p => (readGroupSheet N p.1 p.2).1), none) := by
  induction sheets with
  | nil => intro tables; simp [readGroupSheets]
  | cons p rest ih =>
    intro tables
    obtain ⟨g, sheet⟩ := p
    have h : readGroupSheet N g sheet = ((readGroupSheet N g sheet).1, none) := rfl
    unfold readGroupSheets
    rw [h]
    simp only []
    rw [ih]
    simp [List.flatMap_cons]

/-- C13: for a workbook without a meta sheet `ToSchema` returns no error and a schema
whose Author, Name and Version are empty and whose tables are the tables read from the
group sheets, sheet after sheet. -/
theorem missing_meta_sheet (N : Normalizer) (x : Xlsx) (h : x.metaSheet = none) :
    ToSchema N x
      = (some { Author := "", Name := "", Version := "",
                Tables := x.sheetsByGroup.flatMap (fun p => (readGroupSheet N p.1 p.2).1) },
         none) := by
  unfold ToSchema
  rw [readGroupSheets_eq]
  simp [h]

/-- C13, witness: the example workbook has no meta sheet; its schema has empty Author,
Name and Version and the table of its one sheet. -/
theorem missing_meta_sheet_witness :
    exWorkbook.metaSheet = none ∧
    ToSchema specNormalizer exWorkbook
      = (some { Author := "", Name := "", Version := "",
                Tables := exWorkbook.sheetsByGroup.flatMap
                  (fun p => (readGroupSheet specNormalizer p.1 p.2).1) },
         none) :=
  ⟨rfl, missing_meta_sheet specNormalizer exWorkbook rfl⟩

/-! ## GraphQL and Kotlin classes -/

theorem graphql_loop (nm : Naming) (cols : List Column) :
    ∀ st : List GraphqlField × List Nat,
      cols.foldl (graphqlFieldStep nm) st
        = (st.1 ++ cols.map (NewGraphqlField nm), st.2 ++ pkIdx cols st.1.length) := by
  induction cols with
  | nil => intro st; simp [pkIdx]
  | cons c cs ih =>
    intro st
    rw [List.foldl_cons, ih]
    by_cases hp : c.PrimaryKey = true
    · simp [graphqlFieldStep, pkIdx, hp]
    · simp [graphqlFieldStep, pkIdx, hp]

theorem pkIdx_length (cols : List Column) :
    ∀ n, (pkIdx cols n).length = (cols.filter (fun c => c.PrimaryKey)).length := by
  induction cols with
  | nil => intro n; rfl
  | cons c cs ih =>
    intro n
    by_cases hp : c.PrimaryKey = true
    · simp [pkIdx, hp, ih, List.filter_cons]
    · simp [pkIdx, hp, ih, List.filter_cons]

theorem pkIdx_none (cols : List Column) (h : ∀ c ∈ cols, c.PrimaryKey = false) :
    ∀ n, pkIdx cols n = [] := by
  induction cols with
  | nil => intro n; rfl
  | cons c cs ih =>
    intro n
    simp [pkIdx, h c (List.mem_cons_self _ _),
      ih (fun c' hc' => h c' (List.mem_cons_of_mem _ hc'))]

theorem pkIdx_append (a b : List Column) :
    ∀ n, pkIdx (a ++ b) n = pkIdx a n ++ pkIdx b (n + a.length) := by
  induction a with
  | nil => intro n; simp [pkIdx]
  | cons c cs ih =>
    intro n
    have e : n + 1 + cs.length = n + (cs.length + 1) := by omega
    show (if c.PrimaryKey = true then [n] else []) ++ pkIdx (cs ++ b) (n + 1)
      = ((if c.PrimaryKey = true then [n] else []) ++ pkIdx cs (n + 1))
        ++ pkIdx b (n + (cs.length + 1))
    rw [ih, e, List.append_assoc]

theorem filter_length_one (p : Column → Bool) (l : List Column)
    (h : (l.filter p).length = 1) :
    ∃ a c b, l = a ++ c :: b ∧ p c = true ∧ (∀ x ∈ a, p x = false) ∧ (∀ x ∈ b, p x = false) := by
  induction l with
  | nil => simp at h
  | cons x xs ih =>
    by_cases hx : p x = true
    · refine ⟨[], x, xs, rfl, hx, by simp, ?_⟩
      have : (xs.filter p).length = 0 := by
        simpa [List.filter_cons, hx] using h
      have hnil : xs.filter p = [] := List.length_eq_zero.mp this
      intro y hy
      by_contra hc
      have : y ∈ xs.filter p := List.mem_filter.mpr ⟨hy, by simpa using hc⟩
      rw [hnil] at this
      simp at this
    · have hx' : p x = false := by simpa using hx
      have : (xs.filter p).length = 1 := by simpa [List.filter_cons, hx'] using h
      obtain ⟨a, c, b, hl, hc, ha, hb⟩ := ih this
      refine ⟨x :: a, c, b, by rw [hl]; rfl, hc, ?_, hb⟩
      intro y hy
      rcases List.mem_cons.mp hy with hy | hy
      · rw [hy]; exact hx'
      · exact ha y hy

theorem setFieldType_append (a : List GraphqlField) (f : GraphqlField) (b : List GraphqlField)
    (ty : String) :
    setFieldType (a ++ f :: b) a.length ty = a ++ { f with Type_ := ty } :: b := by
  induction a with
  | nil => rfl
  | cons x xs ih => simp [setFieldType, ih]

theorem graphql_fields (nm : Naming) (table : Table) (output : Output)
    (prefixMapper : PrefixMapper) :
    (NewGraphqlClass nm table output prefixMapper).Fields
      = if (pkIdx table.Columns 0).length = 1 then
          setFieldType (table.Columns.map (NewGraphqlField nm))
            ((pkIdx table.Columns 0).getD 0 0) "ID!"
        else table.Columns.map (NewGraphqlField nm) := by
  unfold NewGraphqlClass
  simp only [graphql_loop, List.nil_append, List.length_nil]

/-- C15: when exactly one column of a table is a primary key, the fields of the class
that `NewGraphqlClass` returns are the fields `NewGraphqlField` gives for the columns, in
order, with the type of the field of the primary-key column replaced by `ID!`; when no
column or more than one column is a primary key, they are the fields `NewGraphqlField`
gives, unchanged. -/
theorem single_primary_key (nm : Naming) (table : Table) (output : Output)
    (prefixMapper : PrefixMapper) :
    ((table.Columns.filter (fun c => c.PrimaryKey)).length = 1 →
      (NewGraphqlClass nm table output prefixMapper).Fields
        = table.Columns.map (fun c =>
            if c.PrimaryKey then { NewGraphqlField nm c with Type_ := "ID!" }
            else NewGraphqlField nm c)) ∧
    ((table.Columns.filter (fun c => c.PrimaryKey)).length ≠ 1 →
      (NewGraphqlClass nm table output prefixMapper).Fields
        = table.Columns.map (NewGraphqlField nm)) := by
  rw [graphql_fields, pkIdx_length]
  refine ⟨fun h => ?_, fun h => ?_⟩
  · rw [if_pos h]
    obtain ⟨a, c, b, hl, hc, ha, hb⟩ := filter_length_one _ _ h
    have hidx : pkIdx table.Columns 0 = [a.length] := by
      rw [hl, pkIdx_append, pkIdx_none a ha, pkIdx, pkIdx_none b hb]
      simp [hc]
    have hmapa : a.map (fun c => if c.PrimaryKey then
        { NewGraphqlField nm c with Type_ := "ID!" } else NewGraphqlField nm c)
        = a.map (NewGraphqlField nm) := by
      apply List.map_congr_left
      intro x hx
      simp [ha x hx]
    have hmapb : b.map (fun c => if c.PrimaryKey then
        { NewGraphqlField nm c with Type_ := "ID!" } else NewGraphqlField nm c)
        = b.map (NewGraphqlField nm) := by
      apply List.map_congr_left
      intro x hx
      simp [hb x hx]
    rw [hidx, hl]
    simp only [List.getD_cons_zero, List.map_append, List.map_cons, hmapa, hmapb, hc, if_true]
    have := setFieldType_append (a.map (NewGraphqlField nm)) (NewGraphqlField nm c)
      (b.map (NewGraphqlField nm)) "ID!"
    rw [List.length_map] at this
    exact this
  · rw [if_neg h]

/-- C15, witness: the table `common_user` has one primary-key column, `id`; the type of
its field is `ID!` and the field of `name` keeps the type `String!`. -/
theorem single_primary_key_witness :
    (exUserTable.Columns.filter (fun c => c.PrimaryKey)).length = 1 ∧
    ((NewGraphqlClass specNaming exUserTable exOutput (newPrefixMapper "common:C")).Fields.map
        (fun f => (f.Name, f.Type_)))
      = [("id", "ID!"), ("name", "String!"), ("dec", "Float!"), ("createdAt", "String!"),
         ("updatedAt", "String")] :=
  ⟨by decide, by
    rw [(single_primary_key specNaming exUserTable exOutput (newPrefixMapper "common:C")).1
      (by decide)]
    decide⟩

theorem str_empty_append (s : String) : "" ++ s = s := by
  rw [str_eq_iff]; simp [String.data_append]

theorem kotlin_loop (nm : Naming) (cols : List Column) :
    ∀ st : List KotlinField × List KotlinField × List KotlinField,
      (cols.foldl (kotlinFieldStep nm) st).1 = st.1 ++ cols.map (NewKotlinField nm) := by
  induction cols with
  | nil => intro st; simp
  | cons c cs ih =>
    intro st
    rw [List.foldl_cons, ih]
    simp [kotlinFieldStep]

theorem kotlin_fields (nm : Naming) (table : Table) (output : GenOutput) :
    (NewKotlinClass nm table output).Fields = table.Columns.map (NewKotlinField nm) := by
  unfold NewKotlinClass
  simp only [kotlin_loop, List.nil_append]

/-- C16: the class name that `NewGraphqlClass` returns is the ClassName of the table when
that is not empty, whatever the prefixes to remove and the prefix mapper, and otherwise
the prefix mapped to the group of the table followed by the PascalCase (`ToCamel`) of the
table name with the configured prefixes stripped in list order; `NewKotlinClass` returns
the same name without the group prefix. The table `common_user` of group `common`
without ClassName, with `common_` removed and the mapping `common:C`, is named
`CUser`. -/
theorem name_synthesis (nm : Naming) (table : Table) (output : Output) (genOutput : GenOutput)
    (prefixMapper : PrefixMapper) :
    (table.ClassName ≠ "" →
      (NewGraphqlClass nm table output prefixMapper).Name = table.ClassName ∧
      (NewKotlinClass nm table genOutput).Name = table.ClassName) ∧
    (table.ClassName = "" →
      (NewGraphqlClass nm table output prefixMapper).Name
        = prefixMapper.GetPrefix table.Group
          ++ nm.ToCamel ((output.GetSlice FlagRemovePrefix).foldl trimPrefix table.Name) ∧
      (NewKotlinClass nm table genOutput).Name
        = nm.ToCamel (genOutput.PrefixesToRemove.foldl trimPrefix table.Name) ∧
      (genOutput.PrefixesToRemove = output.GetSlice FlagRemovePrefix →
        (NewGraphqlClass nm table output prefixMapper).Name
          = prefixMapper.GetPrefix table.Group ++ (NewKotlinClass nm table genOutput).Name)) ∧
    (table.Name = "common_user" → table.Group = "common" → table.ClassName = "" →
      output.GetSlice FlagRemovePrefix = ["common_"] → nm.ToCamel "user" = "User" →
      (NewGraphqlClass nm table output (newPrefixMapper "common:C")).Name = "CUser") := by
  have hg : ∀ pm : PrefixMapper, table.ClassName = "" →
      (NewGraphqlClass nm table output pm).Name
        = pm.GetPrefix table.Group
          ++ nm.ToCamel ((output.GetSlice FlagRemovePrefix).foldl trimPrefix table.Name) := by
    intro pm h
    simp only [NewGraphqlClass, h, if_true]
    split_ifs with hp
    · rfl
    · have : pm.GetPrefix table.Group = "" := by simpa using hp
      rw [this, str_empty_append]
  have hk : table.ClassName = "" →
      (NewKotlinClass nm table genOutput).Name
        = nm.ToCamel (genOutput.PrefixesToRemove.foldl trimPrefix table.Name) := by
    intro h
    simp only [NewKotlinClass, h, if_true]
  refine ⟨fun h => ⟨?_, ?_⟩, fun h => ⟨hg prefixMapper h, hk h, fun he => ?_⟩, ?_⟩
  · simp only [NewGraphqlClass, h, if_false]
  · simp only [NewKotlinClass, h, if_false]
  · rw [hg prefixMapper h, hk h, he]
  · intro h1 h2 h3 h4 h5
    rw [hg _ h3, h1, h2, h4]
    have e1 : (newPrefixMapper "common:C").GetPrefix "common" = "C" := by decide
    have e2 : List.foldl trimPrefix "common_user" ["common_"] = "user" := by decide
    rw [e1, e2, h5]
    decide

/-- C16, witness: the table `common_user` of the example is named `CUser` by the GraphQL
encoder and `User` by the Kotlin encoder. -/
theorem name_synthesis_witness :
    exUserTable.ClassName = "" ∧
    (NewGraphqlClass specNaming exUserTable exOutput (newPrefixMapper "common:C")).Name
      = "CUser" ∧
    (NewKotlinClass specNaming exUserTable exGenOutput).Name = "User" :=
  ⟨rfl,
    (name_synthesis specNaming exUserTable exOutput exGenOutput
      (newPrefixMapper "common:C")).2.2 rfl rfl rfl (by decide) (by decide),
    ((name_synthesis specNaming exUserTable exOutput exGenOutput
      (newPrefixMapper "common:C")).2.1 rfl).2.1.trans (by decide)⟩

theorem setFieldType_columns (l : List GraphqlField) (ty : String) :
    ∀ i, (setFieldType l i ty).map (fun f => (f.Column, f.Name))
      = l.map (fun f => (f.Column, f.Name)) := by
  induction l with
  | nil => intro i; rfl
  | cons f fs ih =>
    intro i
    cases i with
    | zero => rfl
    | succ n => simp [setFieldType, ih]

theorem fillTables_enum (x : Xlsx) (g : String) (n : Nat) (tables : List Table) :
    ∀ i : Nat,
      fillTables x g n i tables
        = ((tables.enumFrom i).filter (fun p => decide (p.2.Group = g))).flatMap (fun p =>
            tableRow p.2 :: p.2.Columns.map (columnRow x)
              ++ (if (p.1 : Int) < (n : Int) - 1 then [[]] else [])) := by
  induction tables with
  | nil => intro i; rfl
  | cons t ts ih =>
    intro i
    unfold fillTables
    rw [ih (i + 1)]
    by_cases hg : t.Group = g
    · simp [List.enumFrom_cons, List.filter_cons, hg, List.flatMap_cons]
    · simp [List.enumFrom_cons, List.filter_cons, hg]

/-- C17: the fields that `NewGraphqlClass` and `NewKotlinClass` return are as many as
the columns of the table, and the i-th field is built from the i-th column; the sheet
that `fillGroupSheet` writes is the header row and then, for each table of the group in
schema order, the row of the table, one row for each of its columns in order, whose
column cell holds the name of the column, and an empty row unless the table is the last
of the schema. -/
theorem column_order (nm : Naming) (x : Xlsx) (S : Schema) (g : String) (table : Table)
    (output : Output) (genOutput : GenOutput) (prefixMapper : PrefixMapper) :
    (NewGraphqlClass nm table output prefixMapper).Fields.length = table.Columns.length ∧
    (NewGraphqlClass nm table output prefixMapper).Fields.map (fun f => (f.Column, f.Name))
      = table.Columns.map (fun c => (c, nm.ToLowerCamel c.Name)) ∧
    (NewKotlinClass nm table genOutput).Fields.length = table.Columns.length ∧
    (NewKotlinClass nm table genOutput).Fields = table.Columns.map (NewKotlinField nm) ∧
    (NewKotlinClass nm table genOutput).Fields.map (fun f => (f.Column, f.Name))
      = table.Columns.map (fun c => (c, nm.ToLowerCamel c.Name)) ∧
    fillGroupSheet x [] S g
      = headerRow x ::
        ((S.Tables.enum.filter (fun p => decide (p.2.Group = g))).flatMap (fun p =>
          tableRow p.2 :: p.2.Columns.map (columnRow x)
            ++ (if (p.1 : Int) < (S.Tables.length : Int) - 1 then [[]] else []))) ∧
    (∀ c : Column, getCellValue (columnRow x c) 1 = c.Name) := by
  have hmap : (NewGraphqlClass nm table output prefixMapper).Fields.map
      (fun f => (f.Column, f.Name))
      = table.Columns.map (fun c => (c, nm.ToLowerCamel c.Name)) := by
    rw [graphql_fields]
    split_ifs
    · rw [setFieldType_columns, List.map_map]; rfl
    · rw [List.map_map]; rfl
  refine ⟨?_, hmap, ?_, kotlin_fields nm table genOutput, ?_, ?_, fun c => rfl⟩
  · have := congrArg List.length hmap
    simpa using this
  · rw [kotlin_fields, List.length_map]
  · rw [kotlin_fields, List.map_map]; rfl
  · simp only [fillGroupSheet, List.nil_append, List.enum]
    rw [fillTables_enum]

/-! ## The text of the GraphQL schema -/

theorem strRepeat_zero (s line : String) : strRepeat s 0 ++ line = line :=
  str_empty_append line

theorem strRepeat_one (line : String) : strRepeat "  " 1 ++ line = "  " ++ line := by
  rw [str_eq_iff]; rfl

theorem query_loop (nm : Naming) (output : Output) (tableFilterFn : Option (Table → Bool))
    (prefixMapper : PrefixMapper) (tables : List Table) :
    ∀ st : List String × List GraphqlClass,
      tables.foldl (graphqlQueryStep nm output tableFilterFn prefixMapper) st
        = (st.1 ++ (tables.filter (accepts tableFilterFn)).map
              (queryEntry nm output prefixMapper),
           st.2 ++ (tables.filter (accepts tableFilterFn)).map
              (fun t => NewGraphqlClass nm t output prefixMapper)) := by
  induction tables with
  | nil => intro st; simp
  | cons t ts ih =>
    intro st
    rw [List.foldl_cons, ih]
    cases tableFilterFn with
    | none =>
      simp [graphqlQueryStep, accepts, appendLine, queryEntry, strRepeat_one]
    | some f =>
      cases hf : f t
      · simp [graphqlQueryStep, accepts, hf]
      · simp [graphqlQueryStep, accepts, hf, appendLine, queryEntry, strRepeat_one]

theorem type_step (cls : GraphqlClass) (contents : List String) :
    graphqlTypeStep contents cls
      = contents ++ (["type " ++ cls.Name ++ " \x7b"]
          ++ cls.Fields.map (fun field => "  " ++ (field.Name ++ ": " ++ field.Type_))
          ++ ["\x7d", ""]) := by
  have hfold : ∀ (fs : List GraphqlField) (c : List String),
      fs.foldl (fun c field => appendLine c 1 (field.Name ++ ": " ++ field.Type_)) c
        = c ++ fs.map (fun field => "  " ++ (field.Name ++ ": " ++ field.Type_)) := by
    intro fs
    induction fs with
    | nil => intro c; simp
    | cons f fs ih =>
      intro c
      rw [List.foldl_cons, ih]
      simp [appendLine, strRepeat_one]
  show appendLine (appendLine (cls.Fields.foldl
      (fun c field => appendLine c 1 (field.Name ++ ": " ++ field.Type_))
      (appendLine contents 0 ("type " ++ cls.Name ++ " \x7b"))) 0 "\x7d") 0 "" = _
  rw [hfold]
  simp [appendLine, strRepeat, str_empty_append]

theorem type_loop (nm : Naming) (output : Output) (prefixMapper : PrefixMapper)
    (tables : List Table) :
    ∀ contents : List String,
      (tables.map (fun t => NewGraphqlClass nm t output prefixMapper)).foldl
          graphqlTypeStep contents
        = contents ++ tables.flatMap (typeBlock nm output prefixMapper) := by
  induction tables with
  | nil => intro contents; simp
  | cons t ts ih =>
    intro contents
    rw [List.map_cons, List.foldl_cons, ih, type_step]
    simp [typeBlock, List.flatMap_cons]

/-- C18: the lines that `Graphql.Generate` assembles are the schema header, the opening
of the `Query` type, one entry for each table that the filter accepts, in schema order,
the closing of the `Query` type, and one type block for each accepted table in the same
order; a table that the filter rejects has no entry and no block, and with a nil filter
every table of the schema is accepted. The text written is these lines joined by line
feeds. -/
theorem table_filtering (nm : Naming) (schema : Schema) (output : Output)
    (tableFilterFn : Option (Table → Bool)) (prefixMapper : PrefixMapper) :
    graphqlContents nm schema output tableFilterFn prefixMapper
      = ["schema \x7b\n    query: Query\n\x7d\n", "type Query \x7b"]
        ++ (schema.Tables.filter (accepts tableFilterFn)).map
            (queryEntry nm output prefixMapper)
        ++ ["\x7d", ""]
        ++ (schema.Tables.filter (accepts tableFilterFn)).flatMap
            (typeBlock nm output prefixMapper) ∧
    GraphqlGenerate nm schema output tableFilterFn prefixMapper
      = join (graphqlContents nm schema output tableFilterFn prefixMapper) "\n" ∧
    schema.Tables.filter (accepts none) = schema.Tables ∧
    (∀ f : Table → Bool, ∀ t, t ∈ schema.Tables.filter (accepts (some f)) ↔
      (t ∈ schema.Tables ∧ f t = true)) := by
  refine ⟨?_, rfl, ?_, ?_⟩
  · simp only [graphqlContents, query_loop, List.nil_append, type_loop, appendLine,
      strRepeat_zero]
    simp
  · apply List.filter_eq_self.mpr
    intro t _
    rfl
  · intro f t
    simp [List.mem_filter, accepts]

/-! ## Types and default values of the fields -/

theorem graphql_type_cases (nm : Naming) (c : Column) :
    ∃ b ∈ ["String", "Boolean", "Int", "Float"],
      (NewGraphqlField nm c).Type_ = if c.Nullable then b else b ++ "!" := by
  cases hn : c.Nullable <;> simp only [NewGraphqlField, newGraphqlFieldRun, hn, Bool.not_false, Bool.not_true,
      Bool.false_eq_true, if_true, if_false] <;>
    split_ifs <;>
    first
    | exact ⟨"String", by decide, rfl⟩
    | exact ⟨"Boolean", by decide, rfl⟩
    | exact ⟨"Int", by decide, rfl⟩
    | exact ⟨"Float", by decide, rfl⟩

set_option maxHeartbeats 2000000 in
theorem kotlin_field_eq (nm : Naming) (c : Column) :
    (NewKotlinField nm c).Type_
      = (if c.Nullable then (kotlinEntry (toLower nm.LowerCase c.Type_) c.Size).1 ++ "?"
         else (kotlinEntry (toLower nm.LowerCase c.Type_) c.Size).1) ∧
    (NewKotlinField nm c).DefaultValue
      = (if c.Nullable then "" else (kotlinEntry (toLower nm.LowerCase c.Type_) c.Size).2) := by
  cases hn : c.Nullable <;>
    simp only [NewKotlinField, kotlinEntry, hn, Bool.not_false, Bool.not_true,
      Bool.false_eq_true, if_true, if_false] <;>
    split_ifs <;> exact ⟨rfl, rfl⟩

theorem kotlinEntry_known (ty : String) (size : Nat) (h : ty ∈ kotlinTypes) :
    kotlinEntry ty size ∈
      [("String", "\"\""), ("Boolean", "false"), ("Long", "0L"), ("Int", "0"),
       ("Float", "0.0F"), ("Double", "0.0"), ("LocalDateTime", "LocalDateTime.now()"),
       ("LocalDate", "0.0")] := by
  simp only [kotlinTypes, List.mem_cons, List.mem_singleton, List.not_mem_nil, or_false] at h
  rcases h with rfl | rfl | rfl | rfl | rfl | rfl | rfl | rfl | rfl | rfl | rfl | rfl | rfl |
    rfl | rfl | rfl <;> simp [kotlinEntry]

theorem kotlinEntry_bit (ty : String) (size : Nat) (h : ty = "bit" ∧ size = 1) :
    kotlinEntry ty size = ("Boolean", "false") := by
  rw [h.1, h.2]; simp [kotlinEntry]

theorem kotlinEntry_unknown (ty : String) (size : Nat) (h : ty ∉ kotlinTypes)
    (hb : ¬ (ty = "bit" ∧ size = 1)) : kotlinEntry ty size = ("Any", "") := by
  simp only [kotlinTypes, List.mem_cons, List.mem_singleton, List.not_mem_nil, or_false,
    not_or] at h
  obtain ⟨h1, h2, h3, h4, h5, h6, h7, h8, h9, h10, h11, h12, h13, h14, h15, h16⟩ := h
  unfold kotlinEntry
  simp only [h1, h2, h3, h4, h5, h6, h7, h8, h9, h10, h11, h12, h13, h14, h15, h16, hb,
    or_self, if_false]

theorem kotlinEntry_mem (ty : String) (size : Nat) :
    kotlinEntry ty size ∈
      [("String", "\"\""), ("Boolean", "false"), ("Long", "0L"), ("Int", "0"),
       ("Float", "0.0F"), ("Double", "0.0"), ("LocalDateTime", "LocalDateTime.now()"),
       ("LocalDate", "0.0"), ("Any", "")] := by
  by_cases h : ty ∈ kotlinTypes
  · have := kotlinEntry_known ty size h
    simp only [List.mem_cons, List.mem_singleton, List.not_mem_nil, or_false] at this ⊢
    tauto
  · by_cases hb : ty = "bit" ∧ size = 1
    · rw [kotlinEntry_bit ty size hb]; decide
    · rw [kotlinEntry_unknown ty size h hb]; decide

/-- C19: the type of the field that `NewGraphqlField` gives for a column ends with the
not-null marker `!` exactly when the column is not nullable, and the type of the field
that `NewKotlinField` gives ends with the nullable marker `?` exactly when the column is
nullable. -/
theorem nullability_marker (nm : Naming) (c : Column) :
    (hasSuffix (NewGraphqlField nm c).Type_ "!" = true ↔ c.Nullable = false) ∧
    (hasSuffix (NewKotlinField nm c).Type_ "?" = true ↔ c.Nullable = true) := by
  constructor
  · obtain ⟨b, hb, ht⟩ := graphql_type_cases nm c
    rw [ht]
    simp only [List.mem_cons, List.mem_singleton, List.not_mem_nil, or_false] at hb
    cases c.Nullable <;> rcases hb with rfl | rfl | rfl | rfl <;> decide
  · rw [(kotlin_field_eq nm c).1]
    have hm := kotlinEntry_mem (toLower nm.LowerCase c.Type_) c.Size
    simp only [List.mem_cons, List.mem_singleton, List.not_mem_nil, or_false] at hm
    cases c.Nullable <;>
      rcases hm with h | h | h | h | h | h | h | h | h <;> rw [h] <;> decide

/-- C20 (amended): for a nullable column `NewKotlinField` gives an empty DefaultValue; for
a column that is not nullable it gives a non-empty DefaultValue literal when the
lower-cased type of the column is in the type table of the encoder, or is `bit` with
Size 1, and an empty one, with the fallback type `Any`, for any other type but `time`
and `decimal`, about which nothing is said; the DefaultValue of the column itself is not
looked at. -/
theorem kotlin_default_literal (nm : Naming) (c : Column) :
    (c.Nullable = true → (NewKotlinField nm c).DefaultValue = "") ∧
    (c.Nullable = false →
      (toLower nm.LowerCase c.Type_ ∈ ["varchar", "char", "string", "text", "bool",
          "boolean", "bigint", "long", "int", "integer", "smallint", "float", "number",
          "double", "datetime", "date"] ∨
        (toLower nm.LowerCase c.Type_ = "bit" ∧ c.Size = 1)) →
      (NewKotlinField nm c).DefaultValue ≠ "") ∧
    (c.Nullable = false →
      ¬ (toLower nm.LowerCase c.Type_ ∈ ["varchar", "char", "string", "text", "bool",
          "boolean", "bigint", "long", "int", "integer", "smallint", "float", "number",
          "double", "datetime", "date"] ∨
        (toLower nm.LowerCase c.Type_ = "bit" ∧ c.Size = 1)) →
      toLower nm.LowerCase c.Type_ ∉ ["time", "decimal"] →
      (NewKotlinField nm c).Type_ = "Any" ∧ (NewKotlinField nm c).DefaultValue = "") ∧
    (∀ d : String,
      (NewKotlinField nm { c with DefaultValue := d }).DefaultValue
        = (NewKotlinField nm c).DefaultValue) := by
  refine ⟨fun hn => ?_, fun hn hk => ?_, fun hn hk _ => ⟨?_, ?_⟩, fun d => ?_⟩
  · rw [(kotlin_field_eq nm c).2, hn]; rfl
  · rw [(kotlin_field_eq nm c).2, hn]
    simp only [Bool.false_eq_true, if_false]
    rcases hk with hk | hk
    · have hm := kotlinEntry_known (toLower nm.LowerCase c.Type_) c.Size hk
      simp only [List.mem_cons, List.mem_singleton, List.not_mem_nil, or_false] at hm
      rcases hm with h | h | h | h | h | h | h | h <;> rw [h] <;> decide
    · rw [kotlinEntry_bit _ _ hk]; decide
  · rw [(kotlin_field_eq nm c).1, hn]
    simp only [Bool.false_eq_true, if_false]
    rw [kotlinEntry_unknown _ _ (fun h => hk (Or.inl h)) (fun h => hk (Or.inr h))]
  · rw [(kotlin_field_eq nm c).2, hn]
    simp only [Bool.false_eq_true, if_false]
    rw [kotlinEntry_unknown _ _ (fun h => hk (Or.inl h)) (fun h => hk (Or.inr h))]
  · rw [(kotlin_field_eq nm c).2, (kotlin_field_eq nm { c with DefaultValue := d }).2]

/-- C20, witness: the nullable column `flag` has no default literal; the column `data` of
type `blob`, which is not nullable, has the type `Any` and no default literal; with the
type `long` it has one, and so it has with the type `\u0130NT`, whose lower case in Go is
`int`. -/
theorem kotlin_default_literal_witness :
    (NewKotlinField specNaming exBitColumn).DefaultValue = "" ∧
    ((NewKotlinField specNaming exBlobColumn).Type_ = "Any" ∧
      (NewKotlinField specNaming exBlobColumn).DefaultValue = "") ∧
    (NewKotlinField specNaming { exBlobColumn with Type_ := "long" }).DefaultValue ≠ "" ∧
    (NewKotlinField specNaming { exBlobColumn with Type_ := "\u0130NT" }).DefaultValue
      ≠ "" :=
  ⟨(kotlin_default_literal specNaming exBitColumn).1 rfl,
    (kotlin_default_literal specNaming exBlobColumn).2.2.1 (by decide) (by decide)
      (by decide),
    (kotlin_default_literal specNaming { exBlobColumn with Type_ := "long" }).2.1
      (by decide) (by decide),
    (kotlin_default_literal specNaming { exBlobColumn with Type_ := "\u0130NT" }).2.1
      (by decide) (by decide)⟩

/-- C20, counterexample: the column `data` of type `blob` is not nullable and has no
default value of its own, yet `NewKotlinField` gives it the type `Any` and an empty
DefaultValue. -/
theorem kotlin_default_literal_counterexample :
    exBlobColumn.Nullable = false ∧ exBlobColumn.DefaultValue = "" ∧
    (NewKotlinField specNaming exBlobColumn).Type_ = "Any" ∧
    (NewKotlinField specNaming exBlobColumn).DefaultValue = "" := by
  decide


/-! ## Types without entry in a type table -/

theorem graphql_unknown (nm : Naming) (c : Column) (h : toLower nm.LowerCase c.Type_ ∉ graphqlTypes) :
    newGraphqlFieldRun nm c
      = ({ Column := c, Name := nm.ToLowerCamel c.Name,
           Type_ := if c.Nullable then "String" else "String!" },
         [unknownTypeLog c]) := by
  simp only [graphqlTypes, List.mem_cons, List.mem_singleton, List.not_mem_nil, or_false,
    not_or] at h
  obtain ⟨h1, h2, h3, h4, h5, h6, h7, h8, h9, h10, h11⟩ := h
  unfold newGraphqlFieldRun
  simp only [ColTypeDateTime, ColTypeDate, ColTypeTime, ColTypeString, ColTypeText,
    ColTypeBoolean, ColTypeLong, ColTypeInt, ColTypeDecimal, ColTypeFloat, ColTypeDouble,
    h1, h2, h3, h4, h5, h6, h7, h8, h9, h10, h11, or_self, if_false, unknownTypeLog]
  cases c.Nullable <;> rfl

theorem graphql_known (nm : Naming) (c : Column) (h : toLower nm.LowerCase c.Type_ ∈ graphqlTypes) :
    NewGraphqlFieldLog nm c = [] ∧
    (NewGraphqlField nm c).Type_ ∈
      ["String", "Boolean", "Int", "Float", "String!", "Boolean!", "Int!", "Float!"] := by
  simp only [graphqlTypes, List.mem_cons, List.mem_singleton, List.not_mem_nil, or_false] at h
  unfold NewGraphqlFieldLog NewGraphqlField newGraphqlFieldRun
  cases c.Nullable <;>
    rcases h with h | h | h | h | h | h | h | h | h | h | h <;>
    simp [h, ColTypeDateTime, ColTypeDate, ColTypeTime, ColTypeString, ColTypeText,
      ColTypeBoolean, ColTypeLong, ColTypeInt, ColTypeDecimal, ColTypeFloat, ColTypeDouble]

/-- C21: `NewGraphqlField` and `NewKotlinField` return a field for every column. For a
column whose lower-cased type has no entry in the type table of the encoder, the GraphQL
field has the type `String`, with `!` when the column is not nullable, and the unknown
type is logged; the Kotlin field has the type `Any`, with `?` when the column is
nullable, but for the type `bit` with Size 1, for which it has the type `Boolean`. -/
theorem unknown_type_fallback (nm : Naming) (c : Column) :
    (toLower nm.LowerCase c.Type_ ∉ ["datetime", "date", "time", "string", "text", "boolean", "long",
        "int", "decimal", "float", "double"] →
      NewGraphqlField nm c
        = { Column := c, Name := nm.ToLowerCamel c.Name,
            Type_ := if c.Nullable then "String" else "String!" } ∧
      NewGraphqlFieldLog nm c = [unknownTypeLog c]) ∧
    (toLower nm.LowerCase c.Type_ ∉ ["varchar", "char", "string", "text", "bool", "boolean", "bigint",
        "long", "int", "integer", "smallint", "float", "number", "double", "datetime",
        "date"] →
      (¬ (toLower nm.LowerCase c.Type_ = "bit" ∧ c.Size = 1) →
        (NewKotlinField nm c).Type_ = (if c.Nullable then "Any?" else "Any")) ∧
      ((toLower nm.LowerCase c.Type_ = "bit" ∧ c.Size = 1) →
        (NewKotlinField nm c).Type_ = (if c.Nullable then "Boolean?" else "Boolean"))) ∧
    (NewGraphqlField nm c).Column = c ∧ (NewKotlinField nm c).Column = c := by
  refine ⟨fun h => ?_, fun h => ⟨fun hb => ?_, fun hb => ?_⟩, rfl, rfl⟩
  · have := graphql_unknown nm c h
    exact ⟨congrArg Prod.fst this, congrArg Prod.snd this⟩
  · rw [(kotlin_field_eq nm c).1, kotlinEntry_unknown _ _ h hb]
    cases c.Nullable <;> rfl
  · rw [(kotlin_field_eq nm c).1, kotlinEntry_bit _ _ hb]
    cases c.Nullable <;> rfl

/-- C21, witness: the column `data` of type `blob` gets the GraphQL type `String!` and
the Kotlin type `Any`; the nullable column `flag` of type `bit` and size 1 gets the
Kotlin type `Boolean?`, and so it does with the type `B\u0130T`, whose lower case in Go
is `bit`; the type `\u0130NT`, whose lower case is `int`, is in both type tables. -/
theorem unknown_type_fallback_witness :
    (NewGraphqlField specNaming exBlobColumn).Type_ = "String!" ∧
    (NewKotlinField specNaming exBlobColumn).Type_ = "Any" ∧
    (NewKotlinField specNaming exBitColumn).Type_ = "Boolean?" ∧
    (NewKotlinField specNaming { exBitColumn with Type_ := "B\u0130T" }).Type_
      = "Boolean?" ∧
    (NewGraphqlField specNaming { exBlobColumn with Type_ := "\u0130NT" }).Type_ = "Int!" ∧
    NewGraphqlFieldLog specNaming { exBlobColumn with Type_ := "\u0130NT" } = [] ∧
    (NewKotlinField specNaming { exBlobColumn with Type_ := "\u0130NT" }).Type_ = "Int" :=
  ⟨(congrArg GraphqlField.Type_
      ((unknown_type_fallback specNaming exBlobColumn).1 (by decide)).1).trans (by decide),
    (((unknown_type_fallback specNaming exBlobColumn).2.1 (by decide)).1 (by decide)).trans
      (by decide),
    (((unknown_type_fallback specNaming exBitColumn).2.1 (by decide)).2 (by decide)).trans
      (by decide),
    (((unknown_type_fallback specNaming { exBitColumn with Type_ := "B\u0130T" }).2.1
      (by decide)).2 (by decide)).trans (by decide),
    by decide, by decide, by decide⟩

/-! ## The canonical types in the type tables -/

theorem kotlin_not_any (nm : Naming) (c : Column) (h : toLower nm.LowerCase c.Type_ ∈ kotlinTypes) :
    (NewKotlinField nm c).Type_ ∉ ["Any", "Any?"] := by
  rw [(kotlin_field_eq nm c).1]
  have hm := kotlinEntry_known (toLower nm.LowerCase c.Type_) c.Size h
  simp only [List.mem_cons, List.mem_singleton, List.not_mem_nil, or_false] at hm
  cases c.Nullable <;>
    rcases hm with e | e | e | e | e | e | e | e <;> rw [e] <;> decide

/-- C23 (amended): a column of a canonical type other than `blob` is mapped by
`NewGraphqlField` through an entry of its type table, without the log line of the
fallback branch; a column of type string, long, int, float, double, boolean, text, date
or datetime is mapped by `NewKotlinField` through an entry of its type table, to a type
other than `Any`; a column of type `blob` takes the fallback branch of both: the GraphQL
field has the type `String` and the unknown type is logged, the Kotlin field has the type
`Any`. -/
theorem type_table_coverage (nm : Naming) (c : Column) :
    (c.Type_ ∈ ["string", "long", "int", "float", "double", "boolean", "text", "date", "time",
        "datetime", "decimal"] →
      toLower nm.LowerCase c.Type_ ∈ graphqlTypes ∧ NewGraphqlFieldLog nm c = []) ∧
    (c.Type_ ∈ ["string", "long", "int", "float", "double", "boolean", "text", "date",
        "datetime"] →
      toLower nm.LowerCase c.Type_ ∈ kotlinTypes ∧ (NewKotlinField nm c).Type_ ∉ ["Any", "Any?"]) ∧
    (c.Type_ = "blob" →
      toLower nm.LowerCase c.Type_ ∉ graphqlTypes ∧ toLower nm.LowerCase c.Type_ ∉ kotlinTypes ∧
      NewGraphqlFieldLog nm c = [unknownTypeLog c] ∧
      (NewGraphqlField nm c).Type_ = (if c.Nullable then "String" else "String!") ∧
      (NewKotlinField nm c).Type_ = (if c.Nullable then "Any?" else "Any")) := by
  refine ⟨fun h => ?_, fun h => ?_, fun h => ?_⟩
  · have hm : toLower nm.LowerCase c.Type_ ∈ graphqlTypes := by
      simp only [List.mem_cons, List.mem_singleton, List.not_mem_nil, or_false] at h
      rcases h with h | h | h | h | h | h | h | h | h | h | h <;>
        rw [h, toLower_ascii _ _ (by decide)] <;> decide
    exact ⟨hm, (graphql_known nm c hm).1⟩
  · have hm : toLower nm.LowerCase c.Type_ ∈ kotlinTypes := by
      simp only [List.mem_cons, List.mem_singleton, List.not_mem_nil, or_false] at h
      rcases h with h | h | h | h | h | h | h | h | h <;>
        rw [h, toLower_ascii _ _ (by decide)] <;> decide
    exact ⟨hm, kotlin_not_any nm c hm⟩
  · have hl : toLower nm.LowerCase c.Type_ = "blob" := by
      rw [h, toLower_ascii _ _ (by decide)]; decide
    have hg : toLower nm.LowerCase c.Type_ ∉ graphqlTypes := by rw [hl]; decide
    have hk : toLower nm.LowerCase c.Type_ ∉ kotlinTypes := by rw [hl]; decide
    have hb : ¬ (toLower nm.LowerCase c.Type_ = "bit" ∧ c.Size = 1) := by
      rw [hl]; intro hc; exact absurd hc.1 (by decide)
    have hrun := graphql_unknown nm c hg
    refine ⟨hg, hk, congrArg Prod.snd hrun, ?_, ?_⟩
    · exact congrArg (fun r => r.1.Type_) hrun
    · rw [(kotlin_field_eq nm c).1, kotlinEntry_unknown _ _ hk hb]
      cases c.Nullable <;> rfl

/-- C23, witness: the column `id` of type `long` is mapped through the type tables, and
the column `data` of type `blob` takes the fallback branch of both encoders. -/
theorem type_table_coverage_witness :
    NewGraphqlFieldLog specNaming { exBlobColumn with Type_ := "long" } = [] ∧
    (NewKotlinField specNaming { exBlobColumn with Type_ := "long" }).Type_ ∉ ["Any", "Any?"] ∧
    (NewKotlinField specNaming exBlobColumn).Type_ = "Any" :=
  ⟨((type_table_coverage specNaming { exBlobColumn with Type_ := "long" }).1 (by decide)).2,
    ((type_table_coverage specNaming { exBlobColumn with Type_ := "long" }).2.1
      (by decide)).2,
    ((type_table_coverage specNaming exBlobColumn).2.2 rfl).2.2.2.2.trans (by decide)⟩

/-- C23, counterexample: `blob` is a canonical type, yet for the column `data` of type
`blob` `NewGraphqlField` takes the fallback branch, logging the unknown type, and
`NewKotlinField` takes the fallback branch, giving the type `Any`. -/
theorem type_table_coverage_counterexample :
    exBlobColumn.Type_ ∈ canonicalTypes ∧
    toLower specNaming.LowerCase exBlobColumn.Type_ ∉ graphqlTypes ∧
    NewGraphqlFieldLog specNaming exBlobColumn = ["unknown column type: 'blob', column: data"] ∧
    (NewGraphqlField specNaming exBlobColumn).Type_ = "String!" ∧
    toLower specNaming.LowerCase exBlobColumn.Type_ ∉ kotlinTypes ∧
    (NewKotlinField specNaming exBlobColumn).Type_ = "Any" := by
  decide

/-! ## The class file of the Kotlin encoder -/

/-- C24: the `@Column` attributes that `JPAKotlin.Generate` writes for the field of a
column of type varchar, char, string or text with a Size above 0: for a column that is
not nullable they are `nullable = false` and `length = <Size>`; for a nullable column the
type of the field is `String?`, the test `field.Type == "String"` fails, and there is no
attribute, so no `length`. -/
theorem kotlin_string_length (nm : Naming) (c : Column)
    (hty : toLower nm.LowerCase c.Type_ ∈ ["varchar", "char", "string", "text"]) (hsize : 0 < c.Size) :
    (c.Nullable = false →
      (NewKotlinField nm c).Type_ = "String" ∧
      kotlinColumnAttributes (NewKotlinField nm c)
        = ["nullable = false", "length = " ++ fmtD c.Size]) ∧
    (c.Nullable = true →
      (NewKotlinField nm c).Type_ = "String?" ∧
      kotlinColumnAttributes (NewKotlinField nm c) = []) := by
  have he : kotlinEntry (toLower nm.LowerCase c.Type_) c.Size = ("String", "\"\"") := by
    simp only [List.mem_cons, List.mem_singleton, List.not_mem_nil, or_false] at hty
    rcases hty with h | h | h | h <;> rw [h] <;> simp [kotlinEntry]
  have hcol : (NewKotlinField nm c).Column = c := rfl
  have hpos : c.Size > 0 := hsize
  refine ⟨fun hn => ?_, fun hn => ?_⟩
  · have ht : (NewKotlinField nm c).Type_ = "String" := by
      rw [(kotlin_field_eq nm c).1, he, hn]; rfl
    refine ⟨ht, ?_⟩
    simp [kotlinColumnAttributes, ht, hcol, hn, hpos]
  · have ht : (NewKotlinField nm c).Type_ = "String?" := by
      rw [(kotlin_field_eq nm c).1, he, hn]; rfl
    refine ⟨ht, ?_⟩
    have hne : ¬ ("String?" = "String") := by decide
    simp [kotlinColumnAttributes, ht, hcol, hn, hne]

/-- C24, witness: in the class of the table `person` the nullable column `nick` of type
varchar and size 100 has no `@Column` line, and the column `name`, which is not
nullable, has one with `length = 100`. -/
theorem kotlin_string_length_witness :
    kotlinColumnAttributes (NewKotlinField specNaming
      { Name := "nick", Type_ := "varchar", Description := "", Size := 100, Scale := 0,
        Nullable := true, PrimaryKey := false, UniqueKey := false,
        AutoIncremental := false, DefaultValue := "", Ref := none }) = [] ∧
    kotlinClassLines specNaming exStringTable exGenOutput
      = ["", "@Entity", "@Table(name = \"person\")", "class Person(",
         "    var nick: String?,", "",
         "    @Column(nullable = false, length = 100)",
         "    var name: String = \"\"", "",
         ") : AbstractJpaPersistable<>()", ""] :=
  ⟨((kotlin_string_length specNaming
      { Name := "nick", Type_ := "varchar", Description := "", Size := 100, Scale := 0,
        Nullable := true, PrimaryKey := false, UniqueKey := false,
        AutoIncremental := false, DefaultValue := "", Ref := none }
      (by decide) (by decide)).2 rfl).2,
    by decide⟩

/-- C25: `NewKotlinField` gives the same default literal `0.0` to a column of type
`double` and to a column of type `date` that are not nullable, whose fields have the
different types `Double` and `LocalDate`. -/
theorem kotlin_default_shared (nm : Naming) (c1 c2 : Column)
    (h1 : toLower nm.LowerCase c1.Type_ = "double") (h2 : toLower nm.LowerCase c2.Type_ = "date")
    (hn1 : c1.Nullable = false) (hn2 : c2.Nullable = false) :
    (NewKotlinField nm c1).DefaultValue = "0.0" ∧
    (NewKotlinField nm c2).DefaultValue = "0.0" ∧
    (NewKotlinField nm c1).Type_ = "Double" ∧
    (NewKotlinField nm c2).Type_ = "LocalDate" ∧
    (NewKotlinField nm c1).DefaultValue = (NewKotlinField nm c2).DefaultValue ∧
    (NewKotlinField nm c1).DefaultValue ≠ "" ∧
    (NewKotlinField nm c1).Type_ ≠ (NewKotlinField nm c2).Type_ := by
  have e1 : kotlinEntry (toLower nm.LowerCase c1.Type_) c1.Size = ("Double", "0.0") := by
    rw [h1]; simp [kotlinEntry]
  have e2 : kotlinEntry (toLower nm.LowerCase c2.Type_) c2.Size = ("LocalDate", "0.0") := by
    rw [h2]; simp [kotlinEntry]
  have d1 : (NewKotlinField nm c1).DefaultValue = "0.0" := by
    rw [(kotlin_field_eq nm c1).2, e1, hn1]; rfl
  have d2 : (NewKotlinField nm c2).DefaultValue = "0.0" := by
    rw [(kotlin_field_eq nm c2).2, e2, hn2]; rfl
  have t1 : (NewKotlinField nm c1).Type_ = "Double" := by
    rw [(kotlin_field_eq nm c1).1, e1, hn1]; rfl
  have t2 : (NewKotlinField nm c2).Type_ = "LocalDate" := by
    rw [(kotlin_field_eq nm c2).1, e2, hn2]; rfl
  refine ⟨d1, d2, t1, t2, by rw [d1, d2], by rw [d1]; decide, by rw [t1, t2]; decide⟩

/-- C25, witness: the columns `ratio` of type `double` and `birthday` of type `date`,
both not nullable, get the default literal `0.0` and the types `Double` and
`LocalDate`. -/
theorem kotlin_default_shared_witness :
    exDoubleColumn.Nullable = false ∧ exDateColumn.Nullable = false ∧
    (NewKotlinField specNaming exDoubleColumn).DefaultValue
      = (NewKotlinField specNaming exDateColumn).DefaultValue ∧
    (NewKotlinField specNaming exDoubleColumn).DefaultValue ≠ "" ∧
    (NewKotlinField specNaming exDoubleColumn).Type_
      ≠ (NewKotlinField specNaming exDateColumn).Type_ :=
  ⟨rfl, rfl,
    (kotlin_default_shared specNaming exDoubleColumn exDateColumn
      (by decide) (by decide) rfl rfl).2.2.2.2.1,
    (kotlin_default_shared specNaming exDoubleColumn exDateColumn
      (by decide) (by decide) rfl rfl).2.2.2.2.2.1,
    (kotlin_default_shared specNaming exDoubleColumn exDateColumn
      (by decide) (by decide) rfl rfl).2.2.2.2.2.2⟩

/-! ## The protocol-buffer encoder -/

theorem proto_loop (nm : Naming) (other : String → String) (cols : List Column) :
    ∀ acc : List ProtoField,
      cols.foldl (protoFieldStep nm other) acc
        = acc ++ (cols.enumFrom acc.length).map
            (fun p => NewProtobufField nm other (p.1 + 1) p.2) := by
  induction cols with
  | nil => intro acc; simp
  | cons c cs ih =>
    intro acc
    rw [List.foldl_cons, ih]
    simp [protoFieldStep, List.enumFrom_cons]

theorem proto_fields (nm : Naming) (other : String → String) (table : Table) (output : Output)
    (prefixMapper : PrefixMapper) :
    (NewProtobufMessage nm other table output prefixMapper).Fields
      = table.Columns.enum.map (fun p => NewProtobufField nm other (p.1 + 1) p.2) := by
  show table.Columns.foldl (protoFieldStep nm other) [] = _
  rw [proto_loop]
  rfl

theorem any_map_eq {α β : Type} (f : α → β) (q : β → Bool) (l : List α) :
    (l.map f).any q = l.any (fun a => q (f a)) := by
  induction l with
  | nil => rfl
  | cons a l ih => simp [List.any_cons, ih]

theorem proto_name (nm : Naming) (other : String → String) (table : Table) (output : Output)
    (prefixMapper : PrefixMapper) :
    (NewProtobufMessage nm other table output prefixMapper).Name
      = if table.ClassName = "" then
          prefixMapper.GetPrefix table.Group
            ++ nm.ToCamel ((output.GetSlice FlagRemovePrefix).foldl trimPrefix table.Name)
        else table.ClassName := rfl

theorem protoType_entries (other : String → String) :
    protoType other "long" = "int64" ∧ protoType other "string" = "string" ∧
    protoType other "decimal" = "double" ∧
    protoType other "datetime" = "google.protobuf.Timestamp" := by
  refine ⟨?_, ?_, ?_, ?_⟩ <;>
    simp [protoType, protoTimestamp, ColTypeLong, ColTypeString, ColTypeDecimal,
      ColTypeDateTime]

/-- C22: the message that `NewProtobufMessage` builds for a table is named by name
synthesis: the ClassName of the table when it is set, and otherwise the prefix mapped to
the group followed by the PascalCase of the table name with the configured prefixes
stripped. It has one field for each column, in declaration order: the field at index `i`
is built from the column at index `i`, has the number `i + 1` and the lowerCamelCase name
of the column, and has the type `int64` for `long`, `string` for `string`, `double` for
`decimal` and `google.protobuf.Timestamp` for `datetime`, whatever the nullability of
the column. The text of `GenerateProto` for the message starts with the syntax line and
the package and go_package lines with the values given to the call, and after the import
of the timestamp, if any, holds the message with one line for each column in
declaration order. -/
theorem protobuf_message (nm : Naming) (other : String → String) (table : Table)
    (output : Output) (prefixMapper : PrefixMapper) (pkg goPkg : String) :
    (table.ClassName = "" →
      (NewProtobufMessage nm other table output prefixMapper).Name
        = prefixMapper.GetPrefix table.Group
          ++ nm.ToCamel ((output.GetSlice FlagRemovePrefix).foldl trimPrefix table.Name)) ∧
    (table.ClassName ≠ "" →
      (NewProtobufMessage nm other table output prefixMapper).Name = table.ClassName) ∧
    (NewProtobufMessage nm other table output prefixMapper).Fields.length
      = table.Columns.length ∧
    (∀ (i : Nat) (c : Column), table.Columns[i]? = some c →
      ∃ f, (NewProtobufMessage nm other table output prefixMapper).Fields[i]? = some f ∧
        f.Column = c ∧ f.Name = nm.ToLowerCamel c.Name ∧ f.Number = i + 1 ∧
        (c.Type_ = "long" → f.Type_ = "int64") ∧
        (c.Type_ = "string" → f.Type_ = "string") ∧
        (c.Type_ = "decimal" → f.Type_ = "double") ∧
        (c.Type_ = "datetime" → f.Type_ = "google.protobuf.Timestamp")) ∧
    GenerateProto [NewProtobufMessage nm other table output prefixMapper] pkg goPkg
      = join
          (["syntax = \"proto3\";", "", "package " ++ pkg ++ ";", "",
            "option go_package = \"" ++ goPkg ++ "\";", ""] ++
           (if table.Columns.any (fun c => protoType other c.Type_ = protoTimestamp) then
              ["import \"google/protobuf/timestamp.proto\";", ""] else []) ++
           ["message " ++ (NewProtobufMessage nm other table output prefixMapper).Name
              ++ " \x7b"] ++
           table.Columns.enum.map (fun p =>
             "  " ++ (protoType other p.2.Type_ ++ " " ++ nm.ToLowerCamel p.2.Name ++ " = "
               ++ fmtD (p.1 + 1) ++ ";")) ++
           ["\x7d", ""]) "\n" := by
  have hf := proto_fields nm other table output prefixMapper
  have hn := proto_name nm other table output prefixMapper
  refine ⟨fun h => ?_, fun h => ?_, ?_, ?_, ?_⟩
  · rw [hn, if_pos h]
  · rw [hn, if_neg h]
  · rw [hf]; simp
  · intro i c hc
    refine ⟨NewProtobufField nm other (i + 1) c, ?_, rfl, rfl, rfl, ?_, ?_, ?_, ?_⟩
    · rw [hf]; simp [List.getElem?_map, List.getElem?_enum, hc]
    · intro h; show protoType other c.Type_ = _; rw [h]; exact (protoType_entries other).1
    · intro h; show protoType other c.Type_ = _; rw [h]; exact (protoType_entries other).2.1
    · intro h; show protoType other c.Type_ = _; rw [h]; exact (protoType_entries other).2.2.1
    · intro h; show protoType other c.Type_ = _; rw [h]; exact (protoType_entries other).2.2.2
  · have hty : (NewProtobufMessage nm other table output prefixMapper).Fields.map
          (fun f => f.Type_)
        = table.Columns.map (fun c => protoType other c.Type_) := by
      rw [hf, List.map_map]
      have e : ((fun f : ProtoField => f.Type_) ∘
            fun p : Nat × Column => NewProtobufField nm other (p.1 + 1) p.2)
          = (fun c : Column => protoType other c.Type_) ∘ Prod.snd := rfl
      rw [e, ← List.map_map, List.enum_map_snd]
    have hany : (NewProtobufMessage nm other table output prefixMapper).Fields.any
          (fun f => decide (f.Type_ = protoTimestamp))
        = table.Columns.any (fun c => decide (protoType other c.Type_ = protoTimestamp)) := by
      have e1 : (NewProtobufMessage nm other table output prefixMapper).Fields.any
            (fun f => decide (f.Type_ = protoTimestamp))
          = ((NewProtobufMessage nm other table output prefixMapper).Fields.map
              (fun f => f.Type_)).any (fun t => decide (t = protoTimestamp)) := by
        exact (any_map_eq (fun f : ProtoField => f.Type_)
          (fun t => decide (t = protoTimestamp)) _).symm
      rw [e1, hty]
      exact any_map_eq (fun c : Column => protoType other c.Type_)
        (fun t => decide (t = protoTimestamp)) _
    have hl : (NewProtobufMessage nm other table output prefixMapper).Fields.map protoFieldLine
        = table.Columns.enum.map (fun p =>
             "  " ++ (protoType other p.2.Type_ ++ " " ++ nm.ToLowerCamel p.2.Name ++ " = "
               ++ fmtD (p.1 + 1) ++ ";")) := by
      rw [hf, List.map_map]; rfl
    unfold GenerateProto protoLines protoMessageLines
    simp only [List.any_cons, List.any_nil, Bool.or_false, List.flatMap_cons,
      List.flatMap_nil, List.append_nil, hany, hl, List.append_assoc]

set_option maxRecDepth 100000 in
theorem proto_example_text :
    GenerateProto [NewProtobufMessage specNaming (fun _ => "string") exProtoTable
      exProtoOutput (newPrefixMapper "common:C")] "com.lechuck.hello" "proto/hello"
      = exProtoExpected := by
  decide

/-- C22, witness: the table `user` of group `common` of the test, under the mapping
`common:C`, gives the message `CUser` with the fields `id = 1`, `name = 2`, `dec = 3`,
`createdAt = 4` and `updatedAt = 5`, and the text that the test expects for the package
`com.lechuck.hello` and the go_package `proto/hello`. -/
theorem protobuf_message_witness :
    exProtoTable.ClassName = "" ∧
    (NewProtobufMessage specNaming (fun _ => "string") exProtoTable exProtoOutput
      (newPrefixMapper "common:C")).Name = "CUser" ∧
    (NewProtobufMessage specNaming (fun _ => "string") exProtoTable exProtoOutput
      (newPrefixMapper "common:C")).Fields.map (fun f => (f.Type_, f.Name, f.Number))
      = [("int64", "id", 1), ("string", "name", 2), ("double", "dec", 3),
         ("google.protobuf.Timestamp", "createdAt", 4),
         ("google.protobuf.Timestamp", "updatedAt", 5)] ∧
    GenerateProto [NewProtobufMessage specNaming (fun _ => "string") exProtoTable
      exProtoOutput (newPrefixMapper "common:C")] "com.lechuck.hello" "proto/hello"
      = exProtoExpected :=
  ⟨rfl,
    ((protobuf_message specNaming (fun _ => "string") exProtoTable exProtoOutput
      (newPrefixMapper "common:C") "com.lechuck.hello" "proto/hello").1 rfl).trans
      (by decide),
    by decide,
    proto_example_text⟩

/-! ## The workbook written, read and written again -/

theorem sheetName_ne (g : String) : sheetName g ≠ "" := by
  unfold sheetName
  split_ifs with h
  · decide
  · exact h

theorem sheetName_fixed (m : String) (h : m ≠ "") : sheetName m = m := by
  simp [sheetName, h]

theorem flatMap_sublist_eq {α β : Type} (F : α → List β) :
    ∀ {l2 l1 : List α}, l2.Sublist l1 → l1.Nodup → (∀ a ∈ l1, a ∉ l2 → F a = []) →
      l2.flatMap F = l1.flatMap F := by
  intro l2 l1 h
  induction h with
  | slnil => intro _ _; rfl
  | @cons l2 l1 a hs ih =>
    intro hn hnil
    have hn1 := (List.nodup_cons.mp hn)
    have ha : F a = [] := hnil a (List.mem_cons_self _ _) (fun h2 => hn1.1 (hs.subset h2))
    rw [List.flatMap_cons, ha, List.nil_append]
    exact ih hn1.2 (fun b hb hb2 => hnil b (List.mem_cons_of_mem _ hb) hb2)
  | @cons₂ l2 l1 a hs ih =>
    intro hn hnil
    have hn1 := (List.nodup_cons.mp hn)
    rw [List.flatMap_cons, List.flatMap_cons]
    rw [ih hn1.2 (fun b hb hb2 => hnil b (List.mem_cons_of_mem _ hb) (by
      intro hc
      rcases List.mem_cons.mp hc with e | e
      · exact hn1.1 (e ▸ hb)
      · exact hb2 e))]

theorem filter_blocks (blocks : List (String × List Table)) :
    (blocks.map Prod.fst).Nodup → (∀ p ∈ blocks, ∀ t ∈ p.2, t.Group = p.1) →
    ∀ p ∈ blocks,
      (blocks.flatMap Prod.snd).filter (fun t => decide (t.Group = p.1)) = p.2 := by
  induction blocks with
  | nil => intro _ _ p hp; simp at hp
  | cons q qs ih =>
    intro hn hg p hp
    rw [List.map_cons, List.nodup_cons] at hn
    rw [List.flatMap_cons, List.filter_append]
    have hrest : ∀ m, m ∉ qs.map Prod.fst →
        (qs.flatMap Prod.snd).filter (fun t => decide (t.Group = m)) = [] := by
      intro m hm
      apply List.filter_eq_nil_iff.mpr
      intro t ht
      obtain ⟨r, hr, htr⟩ := List.mem_flatMap.mp ht
      have : t.Group = r.1 := hg r (List.mem_cons_of_mem _ hr) t htr
      simp only [decide_eq_true_eq]
      intro e
      exact hm (List.mem_map.mpr ⟨r, hr, by rw [← this, e]⟩)
    rcases List.mem_cons.mp hp with e | e
    · rw [e, hrest q.1 hn.1, List.append_nil]
      apply List.filter_eq_self.mpr
      intro t ht
      simpa using hg q (List.mem_cons_self _ _) t ht
    · have hne : p.1 ≠ q.1 := by
        intro e2
        exact hn.1 (e2 ▸ List.mem_map.mpr ⟨p, e, rfl⟩)
      have h1 : q.2.filter (fun t => decide (t.Group = p.1)) = [] := by
        apply List.filter_eq_nil_iff.mpr
        intro t ht
        have := hg q (List.mem_cons_self _ _) t ht
        simp only [decide_eq_true_eq]
        intro e2
        exact hne (by rw [← e2, this])
      rw [h1, List.nil_append]
      exact ih hn.2 (fun r hr => hg r (List.mem_cons_of_mem _ hr)) p e

/-- The rows written for a decoded table and for the table read back from them are the
same. -/
theorem rereadTable_rows (N : Normalizer) (x : Xlsx) (t : Table) (h : t.Decoded N t.Group) :
    (rereadTable N x t.Group x.UseNotNullColumn t).Group = t.Group ∧
    tableRow (rereadTable N x t.Group x.UseNotNullColumn t) = tableRow t ∧
    (rereadTable N x t.Group x.UseNotNullColumn t).Columns.map (columnRow x)
      = t.Columns.map (columnRow x) := by
  obtain ⟨_, h2, _, h4⟩ := h
  refine ⟨rfl, ?_, ?_⟩
  · simp only [tableRow, rereadTable, h2, trimSpace_idem]
  · simp only [rereadTable, List.map_map]
    apply List.map_congr_left
    intro c hc
    simp only [Function.comp]
    rw [readColumn_written N x c (h4 c hc).1, columnRow_reread N x c (h4 c hc)]

theorem flatMap_congr_mem {α β : Type} (F G : α → List β) :
    ∀ l : List α, (∀ a ∈ l, F a = G a) → l.flatMap F = l.flatMap G := by
  intro l
  induction l with
  | nil => intro _; rfl
  | cons a l ih =>
    intro h
    rw [List.flatMap_cons, List.flatMap_cons, h a (List.mem_cons_self _ _),
      ih (fun b hb => h b (List.mem_cons_of_mem _ hb))]

theorem flatMap_map_eq {α β γ : Type} (k : α → β) (F : β → List γ) :
    ∀ l : List α, (l.map k).flatMap F = l.flatMap (fun a => F (k a)) := by
  intro l
  induction l with
  | nil => rfl
  | cons a l ih => rw [List.map_cons, List.flatMap_cons, List.flatMap_cons, ih]

theorem map_flatMap_eq {α β γ : Type} (f : β → γ) (F : α → List β) :
    ∀ l : List α, (l.flatMap F).map f = l.flatMap (fun a => (F a).map f) := by
  intro l
  induction l with
  | nil => rfl
  | cons a l ih => rw [List.flatMap_cons, List.flatMap_cons, List.map_append, ih]

/-- The tables read from the sheets written for tables that were read from sheets with
distinct names, when the sheets are visited in the same order: each table is read back
from its rows. -/
theorem read_blocks (N : Normalizer) (x : Xlsx) (S : Schema)
    (blocks : List (String × List Table)) (groups2 : List String)
    (hn : (blocks.map Prod.fst).Nodup)
    (hne : ∀ p ∈ blocks, p.1 ≠ "")
    (hd : ∀ p ∈ blocks, ∀ t ∈ p.2, t.Decoded N p.1)
    (hsub : groups2.Sublist (blocks.map Prod.fst))
    (hall : ∀ t ∈ blocks.flatMap Prod.snd, t.Group ∈ groups2) :
    (readSchema N S
        (fillGroupSheets x { S with Tables := blocks.flatMap Prod.snd } groups2)).Tables
      = (blocks.flatMap Prod.snd).map
          (fun t => rereadTable N x t.Group x.UseNotNullColumn t) := by
  have hnames : ∀ m : String,
      ∀ t ∈ ({ S with Tables := blocks.flatMap Prod.snd } : Schema).Tables, t.Group = m →
        trimSpace t.Name ≠ "" ∧ ∀ c ∈ t.Columns, trimSpace c.Name ≠ "" := by
    intro m t ht _
    obtain ⟨p, hp, htp⟩ := List.mem_flatMap.mp ht
    obtain ⟨_, h2, h3, h4⟩ := hd p hp t htp
    refine ⟨by rw [h2]; exact h3, fun c hc => ?_⟩
    obtain ⟨⟨hc1, hc2, _⟩, _⟩ := h4 c hc
    rw [hc1]; exact hc2
  show (readGroupSheets N _ []).1 = _
  rw [readGroupSheets_eq]
  simp only [List.nil_append, fillGroupSheets]
  rw [flatMap_map_eq]
  have hA : ∀ g ∈ groups2,
      (readGroupSheet N (sheetName g)
          (fillGroupSheet x [] { S with Tables := blocks.flatMap Prod.snd } g)).1
        = ((blocks.flatMap Prod.snd).filter (fun t => decide (t.Group = g))).map
            (rereadTable N x g x.UseNotNullColumn) := by
    intro g hg
    obtain ⟨p, hp, hpg⟩ := List.mem_map.mp (hsub.subset hg)
    have hg0 : g ≠ "" := by rw [← hpg]; exact hne p hp
    rw [sheetName_fixed g hg0, read_fill N x _ g g (hnames g)]
  rw [flatMap_congr_mem _ _ groups2 hA]
  rw [flatMap_sublist_eq _ hsub hn (by
    intro m _ hm2
    have : (blocks.flatMap Prod.snd).filter (fun t => decide (t.Group = m)) = [] := by
      apply List.filter_eq_nil_iff.mpr
      intro t ht
      simp only [decide_eq_true_eq]
      intro e
      exact hm2 (e ▸ hall t ht)
    rw [this]; rfl)]
  rw [flatMap_map_eq, map_flatMap_eq]
  apply flatMap_congr_mem
  intro p hp
  rw [filter_blocks blocks hn (fun q hq t ht => (hd q hq t ht).1) p hp]
  apply List.map_congr_left
  intro t ht
  rw [(hd p hp t ht).1]

/-- The blocks of tables read from the group sheets written for a schema. -/
theorem written_blocks (N : Normalizer) (x : Xlsx) (S : Schema) (groups1 : List String)
    (hT : ∀ t ∈ S.Tables, ∀ c ∈ t.Columns, TypeStable N (formatType c)) :
    (readSchema N S (fillGroupSheets x S groups1)).Tables
      = ((fillGroupSheets x S groups1).map
          (fun p => (p.1, (readGroupSheet N p.1 p.2).1))).flatMap Prod.snd ∧
    ((fillGroupSheets x S groups1).map
        (fun p => (p.1, (readGroupSheet N p.1 p.2).1))).map Prod.fst
      = groups1.map sheetName ∧
    (∀ p ∈ (fillGroupSheets x S groups1).map
        (fun p => (p.1, (readGroupSheet N p.1 p.2).1)),
      p.1 ≠ "" ∧ ∀ t ∈ p.2, t.Decoded N p.1) := by
  refine ⟨?_, ?_, ?_⟩
  · show (readGroupSheets N _ []).1 = _
    rw [readGroupSheets_eq, flatMap_map_eq]
    rfl
  · simp [fillGroupSheets, List.map_map, Function.comp]
  · intro p hp
    obtain ⟨q, hq, rfl⟩ := List.mem_map.mp hp
    obtain ⟨g, _, rfl⟩ := List.mem_map.mp hq
    refine ⟨sheetName_ne g, ?_⟩
    have hsheet : fillGroupSheet x [] S g
        = headerRow x :: fillTables x g S.Tables.length 0 S.Tables := rfl
    show ∀ t ∈ (readGroupSheet N (sheetName g) (fillGroupSheet x [] S g)).1, _
    rw [hsheet]
    apply result_decoded
    intro row hr hn
    obtain ⟨t, ht, _, c, hc, rfl⟩ := fillTables_rows x g _ S.Tables 0 row hr hn
    rw [(columnRow_cells x c).2.2.1]
    exact hT t ht c hc

/-- C2 (amended): let `out1` be the group sheets that `fillGroupSheet` writes for the
groups of a schema, under distinct sheet names, `S1` the schema that `readGroupSheet`
reads from them, visited in the order `groups1`, `out2` the sheets written for `S1`, `S2`
the schema read from `out2`, visited in the order `groups2`, and `out3` the sheets
written for `S2`. When the second reading visits the sheets of all the groups of `S1` in
the order of the first one, and `ParseType`, which is not among the source files, is
stable on the type cells written for the columns of the schema, then `out3` is `out2`,
cell for cell, for every group. -/
theorem xlsx_idempotent (N : Normalizer) (x : Xlsx) (S : Schema) (groups1 groups2 : List String)
    (hnames : (groups1.map sheetName).Nodup)
    (horder : groups2.Sublist (groups1.map sheetName))
    (hall : ∀ t ∈ (readSchema N S (fillGroupSheets x S groups1)).Tables, t.Group ∈ groups2)
    (hT : ∀ t ∈ S.Tables, ∀ c ∈ t.Columns, TypeStable N (formatType c)) :
    ∀ m : String,
      fillGroupSheet x []
          (readSchema N S
            (fillGroupSheets x (readSchema N S (fillGroupSheets x S groups1)) groups2)) m
        = fillGroupSheet x [] (readSchema N S (fillGroupSheets x S groups1)) m := by
  intro m
  obtain ⟨h1, h2, h3⟩ := written_blocks N x S groups1 hT
  have hS1 : readSchema N S (fillGroupSheets x S groups1)
      = ({ S with Tables := ((fillGroupSheets x S groups1).map
          (fun p => (p.1, (readGroupSheet N p.1 p.2).1))).flatMap Prod.snd } : Schema) :=
    congrArg (fun l => ({ S with Tables := l } : Schema)) h1
  have hT2 := read_blocks N x S _ groups2 (by rw [h2]; exact hnames)
    (fun p hp => (h3 p hp).1) (fun p hp => (h3 p hp).2) (by rw [h2]; exact horder)
    (by rw [← h1]; exact hall)
  rw [← hS1, ← h1] at hT2
  simp only [fillGroupSheet, List.nil_append]
  rw [hT2, List.length_map,
    fillTables_map x m _ (fun t => rereadTable N x t.Group x.UseNotNullColumn t) _ 0]
  intro t ht
  apply rereadTable_rows
  rw [h1] at ht
  obtain ⟨p, hp, htp⟩ := List.mem_flatMap.mp ht
  have hdec := (h3 p hp).2 t htp
  rw [hdec.1]
  exact hdec

/-- C2, witness: the example schema with the groups `a` and `b`, whose sheets are visited
in the order `b`, `a` both times: the second and the third sheet of each group are the
same. -/
theorem xlsx_idempotent_witness :
    (["b", "a"].map sheetName).Nodup ∧
    List.Sublist ["b", "a"] (["b", "a"].map sheetName) ∧
    (readSchema specNormalizer exTwoGroups
      (fillGroupSheets exXlsx exTwoGroups ["b", "a"])).Tables.map (fun t => t.Name)
      = ["org", "user"] ∧
    (∀ m : String,
      fillGroupSheet exXlsx []
          (readSchema specNormalizer exTwoGroups
            (fillGroupSheets exXlsx
              (readSchema specNormalizer exTwoGroups
                (fillGroupSheets exXlsx exTwoGroups ["b", "a"])) ["b", "a"])) m
        = fillGroupSheet exXlsx []
            (readSchema specNormalizer exTwoGroups
              (fillGroupSheets exXlsx exTwoGroups ["b", "a"])) m) :=
  ⟨by decide, by decide, by decide,
    xlsx_idempotent specNormalizer exXlsx exTwoGroups ["b", "a"] ["b", "a"]
      (by decide) (by decide) (by decide) (by decide)⟩

/-- C2, counterexample: for the example schema with the groups `a` and `b`, when the
first reading visits the sheets in the order `b`, `a` and the second in the order `a`,
`b`, the second sheet of group `a` ends with the rows of the table `user` and the third
with an empty row after them; and for the schema with the type `a (x)`, whose one sheet
is visited alone, the type cell of the second sheet is `a ` and that of the third is
`a`, with `ParseType` as the spec describes it. -/
theorem xlsx_idempotent_counterexample :
    (fillGroupSheet exXlsx []
        (readSchema specNormalizer exTwoGroups
          (fillGroupSheets exXlsx exTwoGroups ["b", "a"])) "a"
      = [headerRow exXlsx, ["user", "", "", "", "", "", ""],
         ["", "id", "int", "P", "", "", ""]] ∧
    fillGroupSheet exXlsx []
        (readSchema specNormalizer exTwoGroups
          (fillGroupSheets exXlsx
            (readSchema specNormalizer exTwoGroups
              (fillGroupSheets exXlsx exTwoGroups ["b", "a"])) ["a", "b"])) "a"
      = [headerRow exXlsx, ["user", "", "", "", "", "", ""],
         ["", "id", "int", "P", "", "", ""], []]) ∧
    (fillGroupSheet exXlsx []
        (readSchema specNormalizer exOddType
          (fillGroupSheets exXlsx exOddType ["a"])) "a"
      = [headerRow exXlsx, ["user", "", "", "", "", "", ""],
         ["", "id", "a ", "", "", "", ""]] ∧
    fillGroupSheet exXlsx []
        (readSchema specNormalizer exOddType
          (fillGroupSheets exXlsx
            (readSchema specNormalizer exOddType
              (fillGroupSheets exXlsx exOddType ["a"])) ["a"])) "a"
      = [headerRow exXlsx, ["user", "", "", "", "", "", ""],
         ["", "id", "a", "", "", "", ""]]) := by
  decide

end Octopus
